import Mathlib

/-!
# wiRedPanda editor: interaction state machine

A shallow embedding of `src/app/editor.cpp` (class `Editor`): the hit-test resolver
(`itemsAt`, `itemAt`), the connection-editing primitives (`startNewConnection`,
`detachConnection`, `makeConnection`, `deleteEditedConn`), the pointer handlers
(`mousePressEvt`, `mouseMoveEvt`, `mouseReleaseEvt`), hover tracking and the mouse part of
`eventFilter`.

Conventions of the embedding.

* Scene coordinates (`qreal` in the source) are integers: the editor only adds, subtracts and
  compares them.
* Pointers to scene items are replaced by identities: an element or a connection is named by
  its `ElementFactory` id, a port by the id of its owning element, its direction and its index.
  Id `0` names nothing.
* The `QGraphicsScene` geometry is an oracle (`Scene`): it answers `items(pos)` and
  `items(rect)`; the editor state carries what the editor itself reads back or writes
  (registered connections, elements, selection, undo stack, flags).
* Calls to collaborators whose order matters are recorded, oldest first, in `Editor.calls`.
* A `QList` access that the source performs outside the list (`last()` of an empty list,
  `operator[]` past the end) has no defined result: the embedding returns `none` there.
-/

namespace WiRedPanda

/-! ## Geometry -/

/-- Scene point (`QPointF`). -/
structure QPointF where
  x : Int
  y : Int
deriving DecidableEq

instance : Add QPointF := ⟨fun a b => ⟨a.x + b.x, a.y + b.y⟩⟩

instance : Sub QPointF := ⟨fun a b => ⟨a.x - b.x, a.y - b.y⟩⟩

/-- Scene rectangle (`QRectF`): top-left corner, width and height; width and height may be
negative until the rectangle is normalized. -/
structure QRectF where
  x : Int
  y : Int
  w : Int
  h : Int
deriving DecidableEq

/-- Constructor `QRectF( topLeft, size )`. -/
def QRectF.ofSize (topLeft : QPointF) (w h : Int) : QRectF :=
  ⟨topLeft.x, topLeft.y, w, h⟩

/-- Constructor `QRectF( topLeft, bottomRight )`. -/
def QRectF.ofPoints (topLeft bottomRight : QPointF) : QRectF :=
  ⟨topLeft.x, topLeft.y, bottomRight.x - topLeft.x, bottomRight.y - topLeft.y⟩

/-- Qt `QRectF::normalized`: a negative width (height) is made positive by swapping the left
and right (top and bottom) edges. -/
def QRectF.normalized (r : QRectF) : QRectF :=
  let r1 : QRectF := if r.w < 0 then { r with x := r.x + r.w, w := -r.w } else r
  if r1.h < 0 then { r1 with y := r1.y + r1.h, h := -r1.h } else r1

/-- Qt `QRectF::isNull`: width and height are both zero. -/
def QRectF.isNull (r : QRectF) : Bool :=
  r.w == 0 && r.h == 0

/-- Qt `QRectF::translated`. -/
def QRectF.translated (r : QRectF) (p : QPointF) : QRectF :=
  { r with x := r.x + p.x, y := r.y + p.y }

/-- Qt `QRectF::adjusted( dx1, dy1, dx2, dy2 )`. -/
def QRectF.adjusted (r : QRectF) (dx1 dy1 dx2 dy2 : Int) : QRectF :=
  ⟨r.x + dx1, r.y + dy1, r.w + dx2 - dx1, r.h + dy2 - dy1⟩

/-- Qt `QRectF::united`: the bounding rectangle of both; a null rectangle is neutral. -/
def QRectF.united (a b : QRectF) : QRectF :=
  if a.isNull then b
  else if b.isNull then a
  else
    let a1 := a.normalized
    let b1 := b.normalized
    let l := min a1.x b1.x
    let t := min a1.y b1.y
    let r := max (a1.x + a1.w) (b1.x + b1.w)
    let bt := max (a1.y + a1.h) (b1.y + b1.h)
    ⟨l, t, r - l, bt - t⟩

/-! ## Scene items -/

/-- Output port: owning element and index among that element's outputs. -/
structure QNEOutputPort where
  elm : Nat
  idx : Nat
deriving DecidableEq

/-- Input port: owning element and index among that element's inputs. -/
structure QNEInputPort where
  elm : Nat
  idx : Nat
deriving DecidableEq

/-- A port is an output port or an input port (`QNEPort` and its two subclasses). -/
inductive QNEPort where
  | output (p : QNEOutputPort)
  | input (p : QNEInputPort)
deriving DecidableEq

/-- Direction query `QNEPort::isOutput`. -/
def QNEPort.isOutput : QNEPort → Bool
  | .output _ => true
  | .input _ => false

/-- Owning element `QNEPort::graphicElement`, by id. -/
def QNEPort.graphicElement : QNEPort → Nat
  | .output p => p.elm
  | .input p => p.elm

/-- Cast `dynamic_cast< QNEOutputPort* >( port )`. -/
def QNEPort.toOutput : QNEPort → Option QNEOutputPort
  | .output p => some p
  | .input _ => none

/-- Cast `dynamic_cast< QNEInputPort* >( port )`. -/
def QNEPort.toInput : QNEPort → Option QNEInputPort
  | .output _ => none
  | .input p => some p

/-- Type rank `QGraphicsItem::UserType`. -/
def UserType : Nat := 65536

/-- An item the scene can report: a port, a connection, an element, or any other item whose
type rank is a built-in one (at most `UserType`), such as the selection rectangle. -/
inductive QGraphicsItem where
  | port (p : QNEPort)
  | connection (id : Nat)
  | element (id : Nat)
  | other (rank : Fin 65537)
deriving DecidableEq

/-- Type rank `QNEPort::Type`. -/
def QNEPort.Type : Nat := UserType + 1

/-- Type rank `QNEConnection::Type`. -/
def QNEConnection.Type : Nat := UserType + 2

/-- Type rank `GraphicElement::Type`. -/
def GraphicElement.Type : Nat := UserType + 3

/-- Type rank `QGraphicsItem::type`. -/
def QGraphicsItem.type : QGraphicsItem → Nat
  | .port _ => QNEPort.Type
  | .connection _ => QNEConnection.Type
  | .element _ => GraphicElement.Type
  | .other rank => rank.val

/-- Cast `dynamic_cast< QNEPort* >( item )`, also applied to a null item. -/
def QGraphicsItem.toPort : Option QGraphicsItem → Option QNEPort
  | some (.port p) => some p
  | _ => none

/-- Cast `qgraphicsitem_cast< GraphicElement* >( item )`: the element id. -/
def QGraphicsItem.toElement : QGraphicsItem → Option Nat
  | .element id => some id
  | _ => none

/-! ## Connections, elements, commands -/

/-- A wire (`QNEConnection`): factory id, optional start (output) port, optional end (input)
port, and the scene positions of its two ends. -/
structure QNEConnection where
  id : Nat
  start : Option QNEOutputPort := none
  end_ : Option QNEInputPort := none
  startPos : QPointF := ⟨0, 0⟩
  endPos : QPointF := ⟨0, 0⟩
deriving DecidableEq

/-- Setter `QNEConnection::setStart` (the port's own scene position is not modelled). -/
def QNEConnection.setStart (c : QNEConnection) (p : QNEOutputPort) : QNEConnection :=
  { c with start := some p }

/-- Setter `QNEConnection::setEnd` (the port's own scene position is not modelled). -/
def QNEConnection.setEnd (c : QNEConnection) (p : QNEInputPort) : QNEConnection :=
  { c with end_ := some p }

/-- Setter `QNEConnection::setStartPos`. -/
def QNEConnection.setStartPos (c : QNEConnection) (p : QPointF) : QNEConnection :=
  { c with startPos := p }

/-- Setter `QNEConnection::setEndPos`. -/
def QNEConnection.setEndPos (c : QNEConnection) (p : QPointF) : QNEConnection :=
  { c with endPos := p }

/-- Modelled from the spec: the element categories the editor tells apart (`elementtype.h`
is outside `src/`): switches, pass-through nodes, boxes, and every other category by its
code. -/
inductive ElementType where
  | SWITCH
  | NODE
  | BOX
  | other (code : Nat)
deriving DecidableEq

/-- Qt `QKeySequence`: the key codes of the sequence, none of them zero. -/
structure QKeySequence where
  keys : List Nat := []
deriving DecidableEq

/-- Qt `QKeySequence::SequenceMatch`. -/
inductive SequenceMatch where
  | NoMatch
  | PartialMatch
  | ExactMatch
deriving DecidableEq

/-- Qt `QKeySequence( int key )`: the sequence of that one key, empty for key `0`. -/
def QKeySequence.ofKey (key : Nat) : QKeySequence :=
  if key = 0 then { keys := [] } else { keys := [key] }

/-- Qt `QKeySequence::isEmpty`. -/
def QKeySequence.isEmpty (self : QKeySequence) : Bool :=
  self.keys.isEmpty

/-- Whether every key of `user` equals the key of `seq` at the same index (`seq` being at
least as long). -/
def keysAgree : List Nat → List Nat → Bool
  | [], _ => true
  | _ :: _, [] => false
  | k :: ks, l :: ls => k == l && keysAgree ks ls

/-- Qt `QKeySequence::matches`: no match when this sequence is longer than `seq` or differs
from it at some index; otherwise an exact match when both have the same length and a
partial match when `seq` is longer. -/
def QKeySequence.matches (self seq : QKeySequence) : SequenceMatch :=
  if self.keys.length > seq.keys.length then .NoMatch
  else if keysAgree self.keys seq.keys then
    if self.keys.length = seq.keys.length then .ExactMatch else .PartialMatch
  else .NoMatch

/-- A placed element (`GraphicElement`): factory id, position, bounding rectangle in item
coordinates, the sizes of its input and output port lists, its category, rotation, and,
for an element that is an `Input`, its value and its trigger. -/
structure GraphicElement where
  id : Nat
  pos : QPointF := ⟨0, 0⟩
  boundingRect : QRectF := ⟨0, 0, 64, 64⟩
  inputSize : Nat := 0
  outputSize : Nat := 0
  elementType : ElementType := .other 0
  rotatable : Bool := true
  rotation : Int := 0
  /-- Whether the element is an `Input`: the cast `dynamic_cast< Input* >( elm )` succeeds. -/
  isInput : Bool := false
  /-- Value of an `Input` (`Input::getOn`). -/
  getOn : Bool := false
  hasTrigger : Bool := false
  trigger : QKeySequence := {}
deriving DecidableEq

/-- Setter `Input::setOn`. -/
def GraphicElement.setOn (e : GraphicElement) (value : Bool) : GraphicElement :=
  { e with getOn := value }

/-- Port accessor `GraphicElement::input( i )`. -/
def GraphicElement.input (e : GraphicElement) (i : Nat) : QNEPort :=
  .input ⟨e.id, i⟩

/-- Port accessor `GraphicElement::output( i )`. -/
def GraphicElement.output (e : GraphicElement) (i : Nat) : QNEPort :=
  .output ⟨e.id, i⟩

/-- Answer of `BoxManager::loadBox`: the box is loaded (with its ports and bounding
rectangle), the load fails, or it throws a `std::runtime_error`. -/
inductive LoadBoxResult where
  | loaded (inputSize outputSize : Nat) (boundingRect : QRectF)
  | failed
  | threw (what : String)
deriving DecidableEq

/-- The collaborators of the editor as oracles: the hit test of the scene (`items( pos )` and
`items( rect )` of `QGraphicsScene`), the element the factory constructs for a type
(`ElementFactory::buildElement`, nothing for a type it cannot build) and the answer of the
box manager for a file name (`BoxManager::loadBox`). -/
structure Scene where
  items : QPointF → List QGraphicsItem
  itemsIn : QRectF → List QGraphicsItem
  buildElement : ElementType → Option GraphicElement := fun _ => none
  loadBox : String → LoadBoxResult := fun _ => .failed

/-- The function `Editor::itemsAt`: the items in the 9 x 9 rectangle whose top-left corner
is `pos - (4, 4)`. -/
def itemsAt (sc : Scene) (pos : QPointF) : List QGraphicsItem :=
  let rect := QRectF.ofSize (pos - ⟨4, 4⟩) 9 9
  sc.itemsIn rect.normalized

/-- The function `Editor::itemAt`: the items at the exact point followed by the items in
the tolerance rectangle; the first port of that list, else the first item ranked above
`UserType`, else nothing. -/
def itemAt (sc : Scene) (pos : QPointF) : Option QGraphicsItem :=
  let items := sc.items pos ++ itemsAt sc pos
  match items.find? (fun item => item.type == QNEPort.Type) with
  | some item => some item
  | none => items.find? (fun item => decide (item.type > UserType))

/-- The undo commands the editor pushes, with the arguments given to their constructors. -/
inductive Command where
  | AddItemsCommand (items : List QGraphicsItem)
  | DeleteItemsCommand (items : List QGraphicsItem)
  | MoveCommand (movedElements : List Nat) (oldPositions : List QPointF)
  | SplitCommand (connection : Nat) (point : QPointF)
deriving DecidableEq

/-- Cursor shapes the editor installs as application override cursor. -/
inductive CursorShape where
  | ArrowCursor
  | ForbiddenCursor
deriving DecidableEq

/-- Calls to collaborators, recorded in the order the editor makes them. -/
inductive Call where
  | addItem (item : QGraphicsItem)
  | removeItem (item : QGraphicsItem)
  | push (cmd : Command)
  | setSelectionArea (rect : QRectF)
  | clearSelection
  | hoverEnter (p : QNEPort)
  | hoverLeave (p : QNEPort)
  | setOverrideCursor (c : CursorShape)
  | contextMenu (screenPos : QPointF)
  | dragExec (pos : QPointF) (items : List QGraphicsItem)
  | accept
  | warning (what : String)
  | scroll (dx dy : Int)
deriving DecidableEq

/-- The editor (`class Editor`) together with the scene contents it reads and writes. -/
structure Editor where
  /-- Elements in the scene (`scene->getElements( )`). -/
  elements : List GraphicElement := []
  /-- Connections in the scene, oldest first; the in-progress connection is one of them. -/
  conns : List QNEConnection := []
  /-- Next id the element factory hands out. -/
  nextId : Nat := 1
  /-- Selected items (`scene->selectedItems( )`). -/
  selected : List QGraphicsItem := []
  /-- Rectangle last handed to `scene->setSelectionArea`. -/
  selectionArea : Option QRectF := none
  sceneRect : QRectF := ⟨0, 0, 0, 0⟩
  undoStack : List Command := []
  _editedConn_id : Nat := 0
  _hoverPortElm_id : Nat := 0
  _hoverPort_nbr : Nat := 0
  markingSelectionBox : Bool := false
  selectionRect : QRectF := ⟨0, 0, 0, 0⟩
  /-- Visibility of `selectionRect` (`show( )` / `hide( )`). -/
  selectionRectVisible : Bool := false
  selectionStartPoint : QPointF := ⟨0, 0⟩
  mousePos : QPointF := ⟨0, 0⟩
  draggingElement : Bool := false
  movedElements : List Nat := []
  oldPositions : List QPointF := []
  /-- Stack of application override cursors, innermost last. -/
  overrideCursor : List CursorShape := []
  calls : List Call := []
deriving DecidableEq

/-- Appends a collaborator call to the record. -/
def Editor.record (s : Editor) (c : Call) : Editor :=
  { s with calls := s.calls ++ [c] }

/-- Applies `f` to the connection named `id` (a write through a `QNEConnection*`). -/
def Editor.updateConn (s : Editor) (id : Nat) (f : QNEConnection → QNEConnection) : Editor :=
  { s with conns := s.conns.map (fun c => if c.id = id then f c else c) }

/-- Position `elm->pos( )` of the element named `id`, when it is in the scene. -/
def Editor.elementPos (s : Editor) (id : Nat) : Option QPointF :=
  (s.elements.find? (fun e => e.id == id)).map (fun e => e.pos)

/-- Modelled from the spec: `QNEPort::connections` for an input port (`nodes/qneport.cpp` is
outside `src/`). A port holds the connections bound to it, in the order
they were attached: here the scene connections whose end is this port. -/
def QNEInputPort.connections (p : QNEInputPort) (s : Editor) : List QNEConnection :=
  s.conns.filter (fun c => c.end_ == some p)

/-- Modelled from the spec: `QNEPort::connections` for an output port: the scene connections
whose start is this port. -/
def QNEOutputPort.connections (p : QNEOutputPort) (s : Editor) : List QNEConnection :=
  s.conns.filter (fun c => c.start == some p)

/-- Modelled from the spec: `QNEPort::isConnected`, the query "is this pair already
connected?": some connection of the output port ends at the input port `other`. -/
def QNEOutputPort.isConnected (p : QNEOutputPort) (other : QNEInputPort) (s : Editor) : Bool :=
  (p.connections s).any (fun c => c.end_ == some other)

/-- Modelled from the spec: `ElementFactory::getItemById` followed by the cast to
`QNEConnection*`. Ids are unique over elements and connections, so the lookup is made among
the connections; id `0` is never handed out. -/
def ElementFactory.getConnectionById (s : Editor) (id : Nat) : Option QNEConnection :=
  s.conns.find? (fun c => c.id == id)

/-- Modelled from the spec: `ElementFactory::getItemById` followed by the cast to
`GraphicElement*`. -/
def ElementFactory.getElementById (s : Editor) (id : Nat) : Option GraphicElement :=
  s.elements.find? (fun e => e.id == id)

/-- Modelled from the spec: `ElementFactory::contains`. -/
def ElementFactory.contains (s : Editor) (id : Nat) : Bool :=
  s.elements.any (fun e => e.id == id) || s.conns.any (fun c => c.id == id)

/-- Modelled from the spec: `ElementFactory::buildConnection`: a connection with a fresh id
and no bound end. -/
def ElementFactory.buildConnection (s : Editor) : QNEConnection × Editor :=
  ({ id := s.nextId }, { s with nextId := s.nextId + 1 })

/-- Modelled from the spec: bounding rectangle of the pass-through node a split inserts (the
node class is outside `src/`); only the scene rectangle depends on it. -/
def nodeBoundingRect : QRectF := ⟨0, 0, 32, 32⟩

/-- Modelled from the spec: the first `redo` of a command, run by `QUndoStack::push`
(`commands.cpp` is outside `src/`). Adding items the editor has already put
in the scene changes nothing; deleting removes the named connections and elements together
with the connections bound to a removed element; a move command is built after the elements
moved; a split inserts a pass-through node at the point and rewires the connection into two
connections through it. -/
def Command.redo (cmd : Command) (s : Editor) : Editor :=
  match cmd with
  | .AddItemsCommand _ => s
  | .DeleteItemsCommand items =>
    let gone (e : Nat) : Bool := items.contains (.element e)
    { s with
      elements := s.elements.filter (fun e => !gone e.id)
      conns := s.conns.filter (fun c =>
        !items.contains (.connection c.id)
          && !(match c.start with | some p => gone p.elm | none => false)
          && !(match c.end_ with | some p => gone p.elm | none => false)) }
  | .MoveCommand _ _ => s
  | .SplitCommand cid point =>
    match s.conns.find? (fun c => c.id == cid) with
    | some c1 =>
      match c1.start, c1.end_ with
      | some _, some endPort =>
        let node : GraphicElement :=
          { id := s.nextId, pos := point, boundingRect := nodeBoundingRect,
            inputSize := 1, outputSize := 1, elementType := .NODE }
        let c2 : QNEConnection :=
          { id := s.nextId + 1, start := some ⟨node.id, 0⟩, end_ := some endPort }
        { s with
          elements := s.elements ++ [node]
          conns := s.conns.map (fun c => if c.id = cid then c.setEnd ⟨node.id, 0⟩ else c) ++ [c2]
          nextId := s.nextId + 2 }
      | _, _ => s
    | none => s

/-! ## Editor operations -/

/-- The function `Editor::getEditedConn`. -/
def getEditedConn (s : Editor) : Option QNEConnection :=
  ElementFactory.getConnectionById s s._editedConn_id

/-- The function `Editor::setEditedConn`. -/
def setEditedConn (editedConn : Option QNEConnection) (s : Editor) : Editor :=
  match editedConn with
  | some c => { s with _editedConn_id := c.id }
  | none => { s with _editedConn_id := 0 }

/-- The function `Editor::addItem` for a connection: `scene->addItem( item )`. -/
def addItem (item : QNEConnection) (s : Editor) : Editor :=
  { s with conns := s.conns ++ [item] }.record (.addItem (.connection item.id))

/-- The function `Editor::receiveCommand`: `undoStack->push( cmd )`, which runs the
command. -/
def receiveCommand (cmd : Command) (s : Editor) : Editor :=
  cmd.redo ({ s with undoStack := s.undoStack ++ [cmd] }.record (.push cmd))

/-- The function `Editor::deleteEditedConn`. -/
def deleteEditedConn (s : Editor) : Editor :=
  let s1 :=
    match getEditedConn s with
    | some editedConn =>
      { s with conns := s.conns.filter (fun c => c.id != editedConn.id) }.record
        (.removeItem (.connection editedConn.id))
    | none => s
  setEditedConn none s1

/-- The function `Editor::startNewConnection( QNEOutputPort* )`. -/
def startNewConnection (startPort : QNEOutputPort) (s : Editor) : Editor :=
  let (editedConn, s) := ElementFactory.buildConnection s
  let editedConn := editedConn.setStart startPort
  let editedConn := editedConn.setEndPos s.mousePos
  let s := addItem editedConn s
  setEditedConn (some editedConn) s

/-- The function `Editor::startNewConnection( QNEInputPort* )`. -/
def startNewConnectionIn (endPort : QNEInputPort) (s : Editor) : Editor :=
  let (editedConn, s) := ElementFactory.buildConnection s
  let editedConn := editedConn.setEnd endPort
  let editedConn := editedConn.setStartPos s.mousePos
  let s := addItem editedConn s
  setEditedConn (some editedConn) s

/-- The function `Editor::detachConnection`; `none` when the port has no connection
(`last( )` of an empty list). -/
def detachConnection (endPort : QNEInputPort) (s : Editor) : Option Editor :=
  match (endPort.connections s).getLast? with
  | none => none
  | some editedConn =>
    match editedConn.start with
    | some startPort =>
      let s := receiveCommand (.DeleteItemsCommand [.connection editedConn.id]) s
      some (startNewConnection startPort s)
    | none => some s

/-- The function `Editor::startSelectionRect`. -/
def startSelectionRect (s : Editor) : Editor :=
  { s with
    selectionStartPoint := s.mousePos
    markingSelectionBox := true
    selectionRect := QRectF.ofPoints s.mousePos s.mousePos
    selectionRectVisible := true }

/-- The start and end ports `Editor::makeConnection` works out from the in-progress
connection and the port under the cursor: the bound end of the connection, and the port
under the cursor cast to the other direction (null when the cast fails). -/
def makeConnection_ports (editedConn : QNEConnection) (port : QNEPort) :
    Option QNEOutputPort × Option QNEInputPort :=
  match editedConn.start with
  | some startPort => (some startPort, port.toInput)
  | none =>
    match editedConn.end_ with
    | some endPort => (port.toOutput, some endPort)
    | none => (none, none)

/-- The function `Editor::makeConnection`. -/
def makeConnection (sc : Scene) (editedConn : Option QNEConnection) (s : Editor) : Editor :=
  match QGraphicsItem.toPort (itemAt sc s.mousePos), editedConn with
  | some port, some editedConn =>
    match makeConnection_ports editedConn port with
    | (some startPort, some endPort) =>
      if startPort.elm ≠ endPort.elm ∧ !startPort.isConnected endPort s then
        let s := s.updateConn editedConn.id (fun c => c.setStart startPort)
        let s := s.updateConn editedConn.id (fun c => c.setEnd endPort)
        let s := receiveCommand (.AddItemsCommand [.connection editedConn.id]) s
        setEditedConn none s
      else
        deleteEditedConn s
    | _ => s
  | _, _ => s

/-! ## Events -/

/-- Mouse buttons (`Qt::MouseButton`). -/
inductive MouseButton where
  | NoButton
  | LeftButton
  | RightButton
  | MidButton
deriving DecidableEq

/-- Set of held buttons (`Qt::MouseButtons`), one flag per button. -/
structure MouseButtons where
  left : Bool := false
  right : Bool := false
  mid : Bool := false
deriving DecidableEq

/-- Set of held modifiers (`Qt::KeyboardModifiers`), one flag per modifier. -/
structure KeyboardModifiers where
  shift : Bool := false
  control : Bool := false
  alt : Bool := false
  meta : Bool := false
deriving DecidableEq

/-- The modifier set `Qt::ControlModifier`. -/
def ControlModifier : KeyboardModifiers := { control := true }

/-- The fields of `QGraphicsSceneMouseEvent` the editor reads. -/
structure QGraphicsSceneMouseEvent where
  scenePos : QPointF
  screenPos : QPointF := ⟨0, 0⟩
  button : MouseButton := .NoButton
  buttons : MouseButtons := {}
  modifiers : KeyboardModifiers := {}
deriving DecidableEq

/-- Mouse event types of `QEvent::Type` the filter distinguishes. -/
inductive MouseEventType where
  | GraphicsSceneMousePress
  | GraphicsSceneMouseMove
  | GraphicsSceneMouseRelease
  | GraphicsSceneMouseDoubleClick
deriving DecidableEq

/-- An item with a factory id, as the deserializer builds it: an element or a connection. -/
inductive ItemWithId where
  | element (e : GraphicElement)
  | connection (c : QNEConnection)
deriving DecidableEq

/-- The scene item of a built item. -/
def ItemWithId.toItem : ItemWithId → QGraphicsItem
  | .element e => .element e.id
  | .connection c => .connection c.id

/-- The factory id of a built item. -/
def ItemWithId.id : ItemWithId → Nat
  | .element e => e.id
  | .connection c => c.id

/-- The built item as an element (`item->type( ) == GraphicElement::Type`). -/
def ItemWithId.toElement : ItemWithId → Option GraphicElement
  | .element e => some e
  | .connection _ => none

/-- The built item as a connection. -/
def ItemWithId.toConnection : ItemWithId → Option QNEConnection
  | .element _ => none
  | .connection c => some c

/-- Payload of format `application/x-dnditemdata`, as read from the stream: offset, element
type and label or auxiliary string. -/
structure NewElementData where
  offset : QPointF
  type : ElementType
  label_auxData : String := ""
deriving DecidableEq

/-- Payload of format `application/ctrlDragData`, as read from the stream: the point
`Editor::ctrlDrag` wrote first, the centre `Editor::copy` wrote next, and the items
`SerializationFunctions::deserialize` builds from the rest. -/
structure CtrlDragData where
  offset : QPointF
  ctr : QPointF := ⟨0, 0⟩
  itemList : List ItemWithId := []
deriving DecidableEq

/-- Qt `QMimeData` of a drop: the payload of each format the data has. -/
structure QMimeData where
  dnditemdata : Option NewElementData := none
  ctrlDragData : Option CtrlDragData := none
deriving DecidableEq

/-- The fields of `QGraphicsSceneDragDropEvent` the editor reads. -/
structure QGraphicsSceneDragDropEvent where
  scenePos : QPointF
  mimeData : QMimeData := {}
deriving DecidableEq

/-- The fields of `QWheelEvent` the editor reads. -/
structure QWheelEvent where
  delta : Int
  horizontal : Bool := false
deriving DecidableEq

/-- The fields of `QKeyEvent` the editor reads. -/
structure QKeyEvent where
  key : Nat
  modifiers : KeyboardModifiers := {}
deriving DecidableEq

/-- Drag and drop event types of `QEvent::Type` the filter distinguishes. -/
inductive DragDropEventType where
  | GraphicsSceneDrop
  | GraphicsSceneDragMove
  | GraphicsSceneDragEnter
deriving DecidableEq

/-- Key event types of `QEvent::Type` the filter distinguishes. -/
inductive KeyEventType where
  | KeyPress
  | KeyRelease
deriving DecidableEq

/-- An event delivered to the scene, with its type: a mouse event, a drag and drop event, a
wheel event (with the outcome of the cast to `QWheelEvent*`), or a key event. -/
inductive QEvent where
  | mouse (type : MouseEventType) (mouseEvt : QGraphicsSceneMouseEvent)
  | dragDrop (type : DragDropEventType) (dde : QGraphicsSceneDragDropEvent)
  | wheel (wEvt : Option QWheelEvent)
  | key (type : KeyEventType) (keyEvt : QKeyEvent)
deriving DecidableEq

/-! ## Selection -/

/-- Qt `QGraphicsScene::clearSelection`. -/
def clearSelection (s : Editor) : Editor :=
  { s with selected := [] }.record .clearSelection

/-- Qt `QGraphicsItem::setSelected( true )`. -/
def setSelected (item : QGraphicsItem) (s : Editor) : Editor :=
  if s.selected.contains item then s else { s with selected := s.selected ++ [item] }

/-- Selected elements (`scene->selectedElements( )`), by id. -/
def selectedElements (s : Editor) : List Nat :=
  s.selected.filterMap QGraphicsItem.toElement

/-- Modelled from the spec: `QGraphicsScene::setSelectionArea` with a rectangular path: the
selection is recomputed as every element or connection whose shape intersects the rectangle,
fully replacing the prior selection. -/
def setSelectionArea (sc : Scene) (rect : QRectF) (s : Editor) : Editor :=
  { s with
    selectionArea := some rect
    selected := (sc.itemsIn rect).filter (fun item =>
      item.type == GraphicElement.Type || item.type == QNEConnection.Type) }.record
    (.setSelectionArea rect)

/-! ## Hover tracking -/

/-- Qt `QApplication::setOverrideCursor`: pushes a cursor on the override stack. -/
def setOverrideCursor (c : CursorShape) (s : Editor) : Editor :=
  { s with overrideCursor := s.overrideCursor ++ [c] }.record (.setOverrideCursor c)

/-- The function `Editor::setHoverPort`. -/
def setHoverPort (port : Option QNEPort) (s : Editor) : Editor :=
  match port with
  | some port =>
    let hoverElm := ElementFactory.getElementById s port.graphicElement
    let s := s.record (.hoverEnter port)
    match hoverElm with
    | some hoverElm =>
      if ElementFactory.contains s hoverElm.id then
        let s := { s with _hoverPortElm_id := hoverElm.id }
        (List.range (hoverElm.inputSize + hoverElm.outputSize)).foldl
          (fun s i =>
            if i < hoverElm.inputSize then
              if port = hoverElm.input i then { s with _hoverPort_nbr := i } else s
            else if port = hoverElm.output (i - hoverElm.inputSize) then
              { s with _hoverPort_nbr := i }
            else s)
          s
      else s
    | none => s
  | none => { s with _hoverPortElm_id := 0, _hoverPort_nbr := 0 }

/-- The function `Editor::getHoverPort`: the resolved port and the editor, whose hover
reference is reset when nothing resolves. -/
def getHoverPort (s : Editor) : Option QNEPort × Editor :=
  let hoverPort : Option QNEPort :=
    match ElementFactory.getElementById s s._hoverPortElm_id with
    | some hoverElm =>
      if s._hoverPort_nbr < hoverElm.inputSize then
        some (hoverElm.input s._hoverPort_nbr)
      else if s._hoverPort_nbr - hoverElm.inputSize < hoverElm.outputSize then
        some (hoverElm.output (s._hoverPort_nbr - hoverElm.inputSize))
      else none
    | none => none
  match hoverPort with
  | some p => (some p, s)
  | none => (none, setHoverPort none s)

/-- The function `Editor::releaseHoverPort`. -/
def releaseHoverPort (s : Editor) : Editor :=
  match getHoverPort s with
  | (some hoverPort, s) =>
    let s := s.record (.hoverLeave hoverPort)
    let s := setHoverPort none s
    setOverrideCursor .ArrowCursor s
  | (none, s) => s

/-- The function `Editor::handleHoverPort`. -/
def handleHoverPort (sc : Scene) (s : Editor) : Editor :=
  let port := QGraphicsItem.toPort (itemAt sc s.mousePos)
  let (hoverPort, s) := getHoverPort s
  let s := if hoverPort.isSome ∧ port ≠ hoverPort then releaseHoverPort s else s
  match port with
  | some port =>
    if (QGraphicsItem.port port).type = QNEPort.Type then
      let editedConn := getEditedConn s
      let s := releaseHoverPort s
      let s := setHoverPort (some port) s
      match editedConn with
      | some editedConn =>
        match editedConn.start with
        | some start =>
          if (QNEPort.output start).isOutput = port.isOutput then
            setOverrideCursor .ForbiddenCursor s
          else s
        | none => s
      | none => s
    else s
  | none => s

/-! ## Pointer handlers -/

/-- The function `Editor::mousePressEvt`: the handled flag and the new editor. -/
def mousePressEvt (sc : Scene) (mouseEvt : QGraphicsSceneMouseEvent) (s : Editor) :
    Option (Bool × Editor) :=
  let item := itemAt sc s.mousePos
  match item with
  | some (.port pressedPort) =>
    match getEditedConn s with
    | some editedConn => some (true, makeConnection sc (some editedConn) s)
    | none =>
      match pressedPort with
      | .output startPort => some (true, startNewConnection startPort s)
      | .input endPort =>
        if (endPort.connections s).length > 0 then
          (detachConnection endPort s).map (fun s => (true, s))
        else
          some (true, startNewConnectionIn endPort s)
  | _ =>
    if (getEditedConn s).isSome then
      some (false, deleteEditedConn s)
    else if item.isNone ∧ mouseEvt.button = .LeftButton then
      some (false, startSelectionRect s)
    else
      some (false, s)

/-- The function `Editor::resizeScene`: the scene rectangle grows to hold every element with
a margin of 10. The auto-scroll that follows reads a wall-clock timer and acts on the view
only; it is left out. -/
def resizeScene (s : Editor) : Editor :=
  if !s.elements.isEmpty then
    { s with
      sceneRect := s.elements.foldl
        (fun rect elm =>
          rect.united ((elm.boundingRect.translated elm.pos).adjusted (-10) (-10) 10 10))
        s.sceneRect }
  else s

/-- The function `Editor::mouseMoveEvt`. -/
def mouseMoveEvt (sc : Scene) (s : Editor) : Bool × Editor :=
  match getEditedConn s with
  | some editedConn =>
    if editedConn.start.isSome then
      (true, s.updateConn editedConn.id (fun c => c.setEndPos s.mousePos))
    else if editedConn.end_.isSome then
      (true, s.updateConn editedConn.id (fun c => c.setStartPos s.mousePos))
    else
      (true, deleteEditedConn s)
  | none =>
    if s.markingSelectionBox then
      let rect := (QRectF.ofPoints s.selectionStartPoint s.mousePos).normalized
      let s := { s with selectionRect := rect }
      (false, setSelectionArea sc rect s)
    else
      (false, { s with selectionRectVisible := false })

/-- The function `Editor::mouseReleaseEvt`; the event pointer may be null. -/
def mouseReleaseEvt (sc : Scene) (mouseEvt : Option QGraphicsSceneMouseEvent) (s : Editor) :
    Bool × Editor :=
  match mouseEvt with
  | none => (false, s)
  | some mouseEvt =>
    let s := { s with selectionRectVisible := false, markingSelectionBox := false }
    let s := if s.overrideCursor ≠ [] then setOverrideCursor .ArrowCursor s else s
    match getEditedConn s with
    | some editedConn =>
      if !mouseEvt.buttons.left then
        (true, makeConnection sc (some editedConn) s)
      else (false, s)
    | none => (false, s)

/-! ## Drops and the wheel -/

/-- Modelled from the spec: `ElementFactory::buildElement`: the element the factory
constructs for the type, with a fresh id; nothing for a type it cannot build. -/
def ElementFactory.buildElement (sc : Scene) (type : ElementType) (s : Editor) :
    Option (GraphicElement × Editor) :=
  (sc.buildElement type).map (fun e =>
    ({ e with id := s.nextId }, { s with nextId := s.nextId + 1 }))

/-- Applies `f` to the element named `id` (a write through a `GraphicElement*`). -/
def Editor.updateElement (s : Editor) (id : Nat) (f : GraphicElement → GraphicElement) :
    Editor :=
  { s with elements := s.elements.map (fun e => if e.id = id then f e else e) }

/-- Modelled from the spec: `receiveCommand( new AddItemsCommand( items, this ) )` for items
that are not in the scene yet (`commands.cpp` is outside `src/`): the command is pushed and
its first redo puts the items into the scene. A `Command` names items by id, so the records
of the new items are handed over beside it. -/
def receiveAddItems (items : List ItemWithId) (s : Editor) : Editor :=
  let s := receiveCommand (.AddItemsCommand (items.map ItemWithId.toItem)) s
  { s with
    elements := s.elements ++ items.filterMap ItemWithId.toElement
    conns := s.conns ++ items.filterMap ItemWithId.toConnection }

/-- The end of the new-element branch of `Editor::dropEvt`, once the element is built (and
loaded, for a box): the position is shifted by the width offset when that is positive, a
rotatable element that is not a node is rotated by 90, the add command is pushed, the
selection is cleared, the element is selected and moved to the position. -/
def dropEvt_place (pos : QPointF) (elm : GraphicElement) (s : Editor) : Bool × Editor :=
  let wdtOffset : Int := Int.tdiv (64 - elm.boundingRect.w) 2
  let pos := if wdtOffset > 0 then pos + ⟨wdtOffset, wdtOffset⟩ else pos
  let elm :=
    if elm.rotatable ∧ elm.elementType ≠ .NODE then { elm with rotation := 90 } else elm
  let s := receiveAddItems [.element elm] s
  let s := clearSelection s
  let s := setSelected (.element elm.id) s
  let s := s.updateElement elm.id (fun e => { e with pos := pos })
  (true, s)

/-- The loop of the serialized-items branch of `Editor::dropEvt` on one item: an element is
moved by the offset and selected; any other item is left alone. -/
def dropEvt_moveItem (offset : QPointF) (s : Editor) (item : ItemWithId) : Editor :=
  match item with
  | .element e =>
    let s := s.updateElement e.id (fun e => { e with pos := e.pos + offset })
    setSelected (.element e.id) s
  | .connection _ => s

/-- The function `Editor::dropEvt`. The deserializer is a collaborator: the items it builds
come with the event, and the factory counter moves past their ids. -/
def dropEvt (sc : Scene) (dde : QGraphicsSceneDragDropEvent) (s : Editor) : Bool × Editor :=
  match dde.mimeData.dnditemdata with
  | some data =>
    let pos := dde.scenePos - data.offset
    let s := s.record .accept
    match ElementFactory.buildElement sc data.type s with
    | none => (false, s)
    | some (elm, s) =>
      if elm.elementType = .BOX then
        match sc.loadBox data.label_auxData with
        | .loaded inputSize outputSize boundingRect =>
          dropEvt_place pos
            { elm with inputSize := inputSize, outputSize := outputSize,
                       boundingRect := boundingRect } s
        | .failed => (false, s)
        | .threw what => (false, s.record (.warning what))
      else dropEvt_place pos elm s
  | none =>
    match dde.mimeData.ctrlDragData with
    | some data =>
      let offset := dde.scenePos - data.offset
      let s := s.record .accept
      let s := { s with
        nextId := (data.itemList.map ItemWithId.id).foldl (fun n id => max n (id + 1))
          s.nextId }
      let s := receiveAddItems data.itemList s
      let s := clearSelection s
      let s := data.itemList.foldl (dropEvt_moveItem offset) s
      let s := resizeScene s
      (true, s)
    | none => (false, s)

/-- The function `Editor::dragMoveEvt`. -/
def dragMoveEvt (dde : QGraphicsSceneDragDropEvent) : Bool :=
  if dde.mimeData.dnditemdata.isSome then true
  else if dde.mimeData.ctrlDragData.isSome then true
  else false

/-- The function `Editor::wheelEvt`; the event pointer is null when the cast to
`QWheelEvent*` fails. -/
def wheelEvt (wEvt : Option QWheelEvent) (s : Editor) : Bool × Editor :=
  match wEvt with
  | some w =>
    let numDegrees := Int.tdiv w.delta 8
    let numSteps := Int.tdiv numDegrees 15
    let s := if w.horizontal then s.record (.scroll numSteps 0)
      else s.record (.scroll 0 numSteps)
    (true, s.record .accept)
  | none => (false, s)

/-! ## The event filter -/

/-- The function `Editor::contextMenu`: its effect on the selection; the menus themselves
are recorded as one call. -/
def contextMenu (sc : Scene) (screenPos : QPointF) (s : Editor) : Editor :=
  match itemAt sc s.mousePos with
  | some item =>
    if s.selected.contains item then
      s.record (.contextMenu screenPos)
    else if item.type = GraphicElement.Type then
      (setSelected item (clearSelection s)).record (.contextMenu screenPos)
    else s
  | none => s.record (.contextMenu screenPos)

/-- The function `Editor::ctrlDrag`: with a non-empty element selection, one native drag
carrying the serialized selection is run. -/
def ctrlDrag (pos : QPointF) (s : Editor) : Editor :=
  if !(selectedElements s).isEmpty then s.record (.dragExec pos s.selected) else s

/-- The loop of the release block of `Editor::eventFilter`: whether some dragged element is
away from its snapshot; `none` when the loop reads past the end of `oldPositions` or reads an
element that is no longer in the scene. -/
def anyMoved (s : Editor) : List Nat → List QPointF → Option Bool
  | [], _ => some false
  | _ :: _, [] => none
  | e :: es, p :: ps =>
    match s.elementPos e with
    | none => none
    | some q => if q ≠ p then some true else anyMoved s es ps

/-- Result of the event filter: the returned flag, the event as passed on, the editor. -/
structure FilterResult where
  ret : Bool
  evt : QEvent
  editor : Editor
deriving DecidableEq

/-- The press block of `Editor::eventFilter` (mouse press or double click): either the
filter returns at once (`Sum.inl`) or goes on with the updated editor (`Sum.inr`). -/
def eventFilter_press (sc : Scene) (mouseEvt : QGraphicsSceneMouseEvent) (s : Editor) :
    Editor ⊕ Editor :=
  match itemAt sc s.mousePos with
  | some item =>
    if mouseEvt.button = .LeftButton then
      if mouseEvt.modifiers.control ∧ item.type = GraphicElement.Type then
        .inl (ctrlDrag mouseEvt.scenePos (setSelected item s))
      else
        let s := { s with draggingElement := true }
        let list := s.selected ++ itemsAt sc s.mousePos
        let elms := list.filterMap (fun it =>
          match it.toElement with
          | some id => (s.elements.find? (fun e => e.id == id))
          | none => none)
        .inr { s with
          movedElements := elms.map (fun e => e.id)
          oldPositions := elms.map (fun e => e.pos) }
    else if mouseEvt.button = .RightButton then
      .inr (contextMenu sc mouseEvt.screenPos s)
    else .inr s
  | none =>
    if mouseEvt.button = .RightButton then
      .inr (contextMenu sc mouseEvt.screenPos s)
    else .inr s

/-- The release block of `Editor::eventFilter` (mouse release). -/
def eventFilter_release (mouseEvt : QGraphicsSceneMouseEvent) (s : Editor) : Option Editor :=
  if s.draggingElement ∧ mouseEvt.button = .LeftButton then
    let moved : Option Editor :=
      if !s.movedElements.isEmpty then
        match anyMoved s s.movedElements s.oldPositions with
        | none => none
        | some valid =>
          if valid then some (receiveCommand (.MoveCommand s.movedElements s.oldPositions) s)
          else some s
      else some s
    moved.map (fun s => { s with draggingElement := false, movedElements := [] })
  else some s

/-- The opening of the mouse branch of `Editor::eventFilter`: the cursor position is stored,
the scene rectangle is resized and the hovered port is tracked. -/
def eventFilter_track (sc : Scene) (mouseEvt : QGraphicsSceneMouseEvent) (s : Editor) :
    Editor :=
  let s := { s with mousePos := mouseEvt.scenePos }
  let s := resizeScene s
  handleHoverPort sc s

/-- The double-click case of `Editor::eventFilter`: over a connection the event is accepted
and consumed, and a fully formed connection is split at the cursor. -/
def eventFilter_doubleClick (sc : Scene) (s : Editor) : Bool × Editor :=
  match itemAt sc s.mousePos with
  | some (.connection id) =>
    let s :=
      match ElementFactory.getConnectionById s id with
      | some connection =>
        if connection.start.isSome ∧ connection.end_.isSome then
          receiveCommand (.SplitCommand id s.mousePos) s
        else s
      | none => s
    (true, s.record .accept)
  | _ => (false, s)

/-- The key-press case of `Editor::eventFilter`. -/
def eventFilter_keyPress (keyEvt : QKeyEvent) (s : Editor) : Editor :=
  if !keyEvt.modifiers.control then
    { s with
      elements := s.elements.map (fun elm =>
        if elm.hasTrigger ∧ !elm.trigger.isEmpty then
          if elm.isInput ∧ elm.trigger.matches (QKeySequence.ofKey keyEvt.key) ≠ .NoMatch then
            if elm.elementType = .SWITCH then elm.setOn (!elm.getOn) else elm.setOn true
          else elm
        else elm) }
  else s

/-- The key-release case of `Editor::eventFilter`. -/
def eventFilter_keyRelease (keyEvt : QKeyEvent) (s : Editor) : Editor :=
  if !keyEvt.modifiers.control then
    { s with
      elements := s.elements.map (fun elm =>
        if elm.hasTrigger ∧ !elm.trigger.isEmpty then
          if elm.isInput ∧ elm.trigger.matches (QKeySequence.ofKey keyEvt.key) = .ExactMatch then
            if elm.elementType ≠ .SWITCH then elm.setOn false else elm
          else elm
        else elm) }
  else s

/-- The function `Editor::eventFilter` on an event of the scene; `none` when a list is read
outside its bounds on the way. -/
def eventFilter (sc : Scene) (evt : QEvent) (s : Editor) : Option FilterResult :=
  match evt with
  | .mouse type mouseEvt =>
    let s := eventFilter_track sc mouseEvt s
    if mouseEvt.modifiers.shift then
      some ⟨false, .mouse type { mouseEvt with modifiers := ControlModifier }, s⟩
    else
      let pressed : Editor ⊕ Editor :=
        if type = .GraphicsSceneMousePress ∨ type = .GraphicsSceneMouseDoubleClick then
          eventFilter_press sc mouseEvt s
        else .inr s
      match pressed with
      | .inl s => some ⟨true, evt, s⟩
      | .inr s =>
        let released : Option Editor :=
          if type = .GraphicsSceneMouseRelease then eventFilter_release mouseEvt s else some s
        match released with
        | none => none
        | some s =>
          match type with
          | .GraphicsSceneMousePress =>
            (mousePressEvt sc mouseEvt s).map (fun r => ⟨r.1, evt, r.2⟩)
          | .GraphicsSceneMouseMove =>
            let r := mouseMoveEvt sc s
            some ⟨r.1, evt, r.2⟩
          | .GraphicsSceneMouseRelease =>
            let r := mouseReleaseEvt sc (some mouseEvt) s
            some ⟨r.1, evt, r.2⟩
          | .GraphicsSceneMouseDoubleClick =>
            let r := eventFilter_doubleClick sc s
            some ⟨r.1, evt, r.2⟩
  | .dragDrop type dde =>
    match type with
    | .GraphicsSceneDrop =>
      let r := dropEvt sc dde s
      some ⟨r.1, evt, r.2⟩
    | .GraphicsSceneDragMove => some ⟨dragMoveEvt dde, evt, s⟩
    | .GraphicsSceneDragEnter => some ⟨dragMoveEvt dde, evt, s⟩
  | .wheel wEvt =>
    let r := wheelEvt wEvt s
    some ⟨r.1, evt, r.2⟩
  | .key type keyEvt =>
    match type with
    | .KeyPress => some ⟨false, evt, eventFilter_keyPress keyEvt s⟩
    | .KeyRelease => some ⟨false, evt, eventFilter_keyRelease keyEvt s⟩

/-! ## The simulation pause guard of the waveform dialog -/

/-- Calls to the simulation controller, recorded in the order they are made. -/
inductive SimCall where
  | stop
  | start
  | update
  | updateAll
deriving DecidableEq

/-- Modelled from the spec: the class `SimulationController` (outside `src/`), reduced to
whether the simulation is running and the record of the calls it receives: `stop` suspends
the simulation, `start` resumes it, the update calls do neither. -/
structure SimulationController where
  running : Bool := false
  calls : List SimCall := []
deriving DecidableEq

/-- Modelled from the spec: `SimulationController::isRunning`. -/
def SimulationController.isRunning (sc : SimulationController) : Bool := sc.running

/-- Modelled from the spec: `SimulationController::stop`. -/
def SimulationController.stop (sc : SimulationController) : SimulationController :=
  { running := false, calls := sc.calls ++ [.stop] }

/-- Modelled from the spec: `SimulationController::start`. -/
def SimulationController.start (sc : SimulationController) : SimulationController :=
  { running := true, calls := sc.calls ++ [.start] }

/-- Modelled from the spec: `SimulationController::update`. -/
def SimulationController.update (sc : SimulationController) : SimulationController :=
  { sc with calls := sc.calls ++ [.update] }

/-- Modelled from the spec: `SimulationController::updateAll`. -/
def SimulationController.updateAll (sc : SimulationController) : SimulationController :=
  { sc with calls := sc.calls ++ [.updateAll] }

/-- The class `SCStop`: the guard remembers whether it has to restart the simulation. -/
structure SCStop where
  restart : Bool := false
deriving DecidableEq

/-- The constructor `SCStop::SCStop`: a running simulation is stopped and marked for
restart. -/
def SCStop.new (sc : SimulationController) : SCStop × SimulationController :=
  if sc.isRunning then ({ restart := true }, sc.stop) else ({ restart := false }, sc)

/-- The function `SCStop::release`. -/
def SCStop.release (self : SCStop) (sc : SimulationController) : SimulationController :=
  if self.restart then sc.start else sc

/-- The destructor `SCStop::~SCStop`. -/
def SCStop.destroy (self : SCStop) (sc : SimulationController) : SimulationController :=
  self.release sc

/-- The simulation loop of `saveToTxt` and `showWaveform`: one `update` and one `updateAll`
per iteration, `2 ^ inputs` iterations. -/
def SimpleWaveform.simulate (inputs : Nat) (sc : SimulationController) :
    SimulationController :=
  (List.range (2 ^ inputs)).foldl (fun sc _ => sc.update.updateAll) sc

/-- The function `SimpleWaveform::saveToTxt`, reduced to its use of the guard: `elements`,
`inputs` and `outputs` are the sizes of the three vectors after `sortElements`. The guard
leaves scope after the explicit release. -/
def SimpleWaveform.saveToTxt (elements inputs outputs : Nat) (sc : SimulationController) :
    Bool × SimulationController :=
  if elements = 0 ∨ inputs = 0 ∨ outputs = 0 then (false, sc)
  else
    let (scst, sc) := SCStop.new sc
    let sc := SimpleWaveform.simulate inputs sc
    let sc := scst.release sc
    (true, scst.destroy sc)

/-- The function `SimpleWaveform::showWaveform`, reduced to its use of the guard: `elements`,
`inputs` and `outputs` are the sizes of the three vectors after `sortElements`. The guard
leaves scope at each early return and after the explicit release. -/
def SimpleWaveform.showWaveform (elements inputs outputs : Nat) (sc : SimulationController) :
    SimulationController :=
  let (scst, sc) := SCStop.new sc
  if elements = 0 then scst.destroy sc
  else if inputs = 0 then scst.destroy sc
  else if outputs = 0 then scst.destroy sc
  else if inputs > 8 then scst.destroy sc
  else
    let sc := SimpleWaveform.simulate inputs sc
    let sc := scst.release sc
    scst.destroy sc

/-- The suspend and resume calls among the recorded calls, in order. -/
def pauseCalls (sc : SimulationController) : List SimCall :=
  sc.calls.filter (fun c => c = .stop ∨ c = .start)

/-! ## Predicates used in the statements -/

/-- The list `itemAt` scans: exact-point items first, tolerance-rectangle items after. -/
def hitList (sc : Scene) (pos : QPointF) : List QGraphicsItem :=
  sc.items pos ++ sc.itemsIn (QRectF.ofSize (pos - ⟨4, 4⟩) 9 9).normalized

/-- The in-progress connection `c` is anchored at port `p`: `p` is its only bound end. -/
def QNEConnection.anchoredAt (c : QNEConnection) : QNEPort → Prop
  | .output o => c.start = some o ∧ c.end_ = none
  | .input i => c.start = none ∧ c.end_ = some i

instance (c : QNEConnection) (p : QNEPort) : Decidable (c.anchoredAt p) := by
  cases p <;> unfold QNEConnection.anchoredAt <;> infer_instance

/-- The connection `c` joins the ports `p` and `q`, one as its start and one as its end. -/
def QNEConnection.joins (c : QNEConnection) (p q : QNEPort) : Prop :=
  (c.start.map QNEPort.output = some p ∧ c.end_.map QNEPort.input = some q) ∨
  (c.start.map QNEPort.output = some q ∧ c.end_.map QNEPort.input = some p)

instance (c : QNEConnection) (p q : QNEPort) : Decidable (c.joins p q) := by
  unfold QNEConnection.joins; infer_instance

/-- The ports `p` and `q` are connected to each other by a connection of the scene. -/
def connectedPorts (s : Editor) (p q : QNEPort) : Prop :=
  ∃ c ∈ s.conns, c.joins p q

instance (s : Editor) (p q : QNEPort) : Decidable (connectedPorts s p q) := by
  unfold connectedPorts; infer_instance

/-- Some snapshotted element is away from its pre-drag position: an element of
`movedElements` whose current position differs from the entry of `oldPositions` at the same
index. -/
def Editor.someElementMoved (s : Editor) : Prop :=
  ∃ ep ∈ s.movedElements.zip s.oldPositions, s.elementPos ep.1 ≠ some ep.2

instance (s : Editor) : Decidable s.someElementMoved := by
  unfold Editor.someElementMoved; infer_instance

/-- The normalized rectangle spanned by two points: top-left corner at the smaller
coordinates, width and height the distances between the coordinates. -/
def spannedRect (a b : QPointF) : QRectF :=
  ⟨min a.x b.x, min a.y b.y, |b.x - a.x|, |b.y - a.y|⟩

/-- The items of a hit-test answer that can be selected: elements and connections. -/
def selectableItems (items : List QGraphicsItem) : List QGraphicsItem :=
  items.filter (fun item => item.type == GraphicElement.Type || item.type == QNEConnection.Type)

/-- The connection `c` runs from the output port `o` to the input port `i`. -/
def QNEConnection.wires (o : QNEOutputPort) (i : QNEInputPort) (c : QNEConnection) : Bool :=
  c.start == some o && c.end_ == some i

/-- Consistency of the connections of an editor: the factory ids are pairwise distinct and
below the factory counter, and no two connections run from the same output port to the same
input port. -/
def Editor.connInv (s : Editor) : Prop :=
  (s.conns.map (fun c => c.id)).Nodup ∧
  (∀ d ∈ s.conns, d.id < s.nextId) ∧
  ∀ o i, s.conns.countP (QNEConnection.wires o i) ≤ 1

/-- The position a dropped new element ends at: the drop point minus the payload offset,
shifted on both axes by `(64 - width) / 2` when that is positive. -/
def droppedAt (dropPoint offset : QPointF) (width : Int) : QPointF :=
  if 0 < (64 - width) / 2 then
    dropPoint - offset + ⟨(64 - width) / 2, (64 - width) / 2⟩
  else dropPoint - offset

/-- The rotation a dropped new element ends with: 90 for a rotatable element that is not a
node, its own rotation otherwise. -/
def droppedRotation (elm : GraphicElement) : Int :=
  if elm.rotatable ∧ elm.elementType ≠ .NODE then 90 else elm.rotation

/-- An input element whose non-empty trigger matches the key, tested as the key-release case
does. -/
def GraphicElement.triggeredBy (elm : GraphicElement) (key : Nat) : Prop :=
  elm.isInput = true ∧ elm.hasTrigger = true ∧ elm.trigger.isEmpty = false ∧
    elm.trigger.matches (QKeySequence.ofKey key) = .ExactMatch

instance (elm : GraphicElement) (key : Nat) : Decidable (elm.triggeredBy key) := by
  unfold GraphicElement.triggeredBy
  infer_instance

/-- Whether a recorded call is a hover notification to a port. -/
def Call.isHover : Call → Bool
  | .hoverEnter _ => true
  | .hoverLeave _ => true
  | _ => false

/-- The scene elements the press block of the filter snapshots, in order: those named by the
selection, then those named by the items around the cursor. -/
def snapshotElements (sc : Scene) (s : Editor) : List GraphicElement :=
  (s.selected ++ itemsAt sc s.mousePos).filterMap (fun it =>
    match it.toElement with
    | some id => s.elements.find? (fun e => e.id == id)
    | none => none)

/-- Whether a recorded call is hover feedback: a hover notification to a port or a change of
the override cursor. -/
def Call.isFeedback : Call → Bool
  | .hoverEnter _ => true
  | .hoverLeave _ => true
  | .setOverrideCursor _ => true
  | _ => false

/-- The editor `t` has recorded the calls of `s` followed by hover feedback only. -/
def Editor.feedbackOnly (s t : Editor) : Prop :=
  ∃ l : List Call, t.calls = s.calls ++ l ∧ ∀ c ∈ l, c.isFeedback = true

/-! ## Frames: what an operation may write -/

/-- The editor `t` differs from `s` at most in the hover reference, the override cursor and
the record of calls: what hover tracking may write. -/
def Editor.hoverFrame (s t : Editor) : Prop :=
  t = { s with
    _hoverPortElm_id := t._hoverPortElm_id
    _hoverPort_nbr := t._hoverPort_nbr
    overrideCursor := t.overrideCursor
    calls := t.calls }

/-- The editor `t` differs from `s` at most in what the opening of the mouse branch writes:
the cursor position, the scene rectangle, the hover reference, the override cursor and the
record of calls. -/
def Editor.trackFrame (s t : Editor) : Prop :=
  t = { s with
    mousePos := t.mousePos
    sceneRect := t.sceneRect
    _hoverPortElm_id := t._hoverPortElm_id
    _hoverPort_nbr := t._hoverPort_nbr
    overrideCursor := t.overrideCursor
    calls := t.calls }

/-- The editor `t` differs from `s` at most in what completing or discarding a connection
writes: the connections, the undo stack, the slot and the record of calls. -/
def Editor.connFrame (s t : Editor) : Prop :=
  t = { s with
    conns := t.conns
    undoStack := t.undoStack
    _editedConn_id := t._editedConn_id
    calls := t.calls }

/-- The editor `t` differs from `s` at most in what `mouseReleaseEvt` writes: the marquee
flag, the visibility of the selection rectangle, the override cursor, the connections, the
undo stack, the slot and the record of calls. -/
def Editor.releaseFrame (s t : Editor) : Prop :=
  t = { s with
    selectionRectVisible := t.selectionRectVisible
    markingSelectionBox := t.markingSelectionBox
    overrideCursor := t.overrideCursor
    conns := t.conns
    undoStack := t.undoStack
    _editedConn_id := t._editedConn_id
    calls := t.calls }

/-- The editor `t` differs from `s` at most in what the press block of the filter writes:
the selection, the dragging flag, the drag snapshot and the record of calls. -/
def Editor.pressFrame (s t : Editor) : Prop :=
  t = { s with
    selected := t.selected
    draggingElement := t.draggingElement
    movedElements := t.movedElements
    oldPositions := t.oldPositions
    calls := t.calls }

/-! ## Runs of events -/

/-- Runs a sequence of events through the filter, each with the scene geometry of its time;
`none` when a step reads a list outside its bounds. -/
def runEvents : List (Scene × QEvent) → Editor → Option Editor
  | [], s => some s
  | (sc, evt) :: rest, s =>
    match eventFilter sc evt s with
    | none => none
    | some r => runEvents rest r.editor

/-- Pointer gestures: press, move and release events. -/
def isGesture : QEvent → Bool
  | .mouse .GraphicsSceneMousePress _ => true
  | .mouse .GraphicsSceneMouseMove _ => true
  | .mouse .GraphicsSceneMouseRelease _ => true
  | .mouse .GraphicsSceneMouseDoubleClick _ => false
  | .dragDrop _ _ => false
  | .wheel _ => false
  | .key _ _ => false

/-! ## Concrete scenes, circuits and events -/

/-- Whether the rectangle `r` covers the point `p`. -/
def QRectF.covers (r : QRectF) (p : QPointF) : Bool :=
  decide (r.x ≤ p.x) && decide (p.x ≤ r.x + r.w) && decide (r.y ≤ p.y)
    && decide (p.y ≤ r.y + r.h)

/-- A scene whose hit test reports exactly the port `p`, at every point. -/
def sceneOverPort (p : QNEPort) : Scene :=
  { items := fun _ => [.port p], itemsIn := fun _ => [.port p] }

/-- A scene whose hit test reports nothing: empty background. -/
def sceneBackground : Scene :=
  { items := fun _ => [], itemsIn := fun _ => [] }

/-- A scene whose hit test reports exactly the element `id`, at every point. -/
def sceneOverElement (id : Nat) : Scene :=
  { items := fun _ => [.element id], itemsIn := fun _ => [.element id] }

/-- A scene with an element at the exact point and an input port of that element inside the
tolerance rectangle only. -/
def sceneElementThenPort : Scene :=
  { items := fun _ => [.element 1]
    itemsIn := fun _ => [.element 1, .port (.input ⟨1, 0⟩)] }

/-- Answer of the rectangle query of `sceneTwoElements`. -/
def twoElementsIn (r : QRectF) : List QGraphicsItem :=
  (if r.covers ⟨10, 10⟩ then [.element 1] else [])
    ++ (if r.covers ⟨110, 10⟩ then [.element 2] else [])

/-- A scene whose rectangle query reports element 1 when the rectangle covers the point
(10, 10) and element 2 when it covers the point (110, 10). -/
def sceneTwoElements : Scene :=
  { items := fun _ => [], itemsIn := twoElementsIn }

/-- Hit test of a scene that shows three ports only: the output of element 1 at (64, 32),
the output of element 2 at (164, 32) and the input of element 3 at (200, 32). -/
def threePortsIn (r : QRectF) : List QGraphicsItem :=
  (if r.covers ⟨64, 32⟩ then [.port (.output ⟨1, 0⟩)] else [])
    ++ (if r.covers ⟨164, 32⟩ then [.port (.output ⟨2, 0⟩)] else [])
    ++ (if r.covers ⟨200, 32⟩ then [.port (.input ⟨3, 0⟩)] else [])

/-- The scene of the three ports of `circuitNoWire`. -/
def sceneThreePorts : Scene :=
  { items := fun p => threePortsIn ⟨p.x, p.y, 0, 0⟩, itemsIn := threePortsIn }

/-- Three placed elements and no connection: elements 1 and 2 have one output each,
element 3 has one input. -/
def circuitNoWire : Editor :=
  { elements := [{ id := 1, outputSize := 1 }, { id := 2, pos := ⟨100, 0⟩, outputSize := 1 },
      { id := 3, pos := ⟨200, 0⟩, inputSize := 1 }]
    nextId := 4 }

/-- The circuit `circuitNoWire` with a connection in progress, anchored at the output of
element 1. -/
def circuitEditing : Editor :=
  { circuitNoWire with
    conns := [{ id := 4, start := some ⟨1, 0⟩ }]
    nextId := 5
    _editedConn_id := 4 }

/-- The circuit `circuitNoWire` with a wire from the output of element 2 to the input of
element 3 and a connection in progress anchored at the output of element 1. -/
def circuitWiredEditing : Editor :=
  { circuitNoWire with
    conns := [{ id := 4, start := some ⟨2, 0⟩, end_ := some ⟨3, 0⟩ },
      { id := 5, start := some ⟨1, 0⟩ }]
    nextId := 6
    _editedConn_id := 5 }

/-- The circuit `circuitNoWire` with a wire from the output of element 1 to the input of
element 3 and a second connection in progress anchored at the same output. -/
def circuitDuplicateEditing : Editor :=
  { circuitNoWire with
    conns := [{ id := 4, start := some ⟨1, 0⟩, end_ := some ⟨3, 0⟩ },
      { id := 5, start := some ⟨1, 0⟩ }]
    nextId := 6
    _editedConn_id := 5 }

/-- The circuit `circuitNoWire` with a wire from the output of element 2 to the input of
element 3 and no connection in progress. -/
def circuitWired : Editor :=
  { circuitNoWire with
    conns := [{ id := 4, start := some ⟨2, 0⟩, end_ := some ⟨3, 0⟩ }]
    nextId := 5 }

/-- Elements 1 and 2 are being dragged: both were snapshotted at their positions in
`circuitNoWire`, and element 2 has since been moved from (100, 0) to (130, 20). -/
def circuitDragged : Editor :=
  { circuitNoWire with
    elements := [{ id := 1, outputSize := 1 }, { id := 2, pos := ⟨130, 20⟩, outputSize := 1 },
      { id := 3, pos := ⟨200, 0⟩, inputSize := 1 }]
    selected := [.element 1, .element 2]
    draggingElement := true
    movedElements := [1, 2]
    oldPositions := [⟨0, 0⟩, ⟨100, 0⟩] }

/-- A marquee gesture in progress, anchored at (50, 50), with element 3 selected before. -/
def circuitMarquee : Editor :=
  { circuitNoWire with
    selected := [.element 3]
    markingSelectionBox := true
    selectionStartPoint := ⟨50, 50⟩
    selectionRect := ⟨50, 50, 0, 0⟩
    selectionRectVisible := true
    mousePos := ⟨50, 50⟩ }

/-- A move event to `pos` with no modifier and the left button held. -/
def moveTo (sc : Scene) (pos : QPointF) : Scene × QEvent :=
  (sc, .mouse .GraphicsSceneMouseMove { scenePos := pos, buttons := { left := true } })

/-- A left-button press at `pos` on `sceneThreePorts`. -/
def pressAt (pos : QPointF) : Scene × QEvent :=
  (sceneThreePorts, .mouse .GraphicsSceneMousePress
    { scenePos := pos, button := .LeftButton, buttons := { left := true } })

/-- A left-button release at `pos` on `sceneThreePorts`. -/
def releaseAt (pos : QPointF) : Scene × QEvent :=
  (sceneThreePorts, .mouse .GraphicsSceneMouseRelease
    { scenePos := pos, button := .LeftButton })

/-- Two intermediate move events of a marquee sweep: to (200, 200) and to (120, 0). -/
def marqueeSweep : List (Scene × QGraphicsSceneMouseEvent) :=
  [(sceneTwoElements, { scenePos := ⟨200, 200⟩ }), (sceneTwoElements, { scenePos := ⟨120, 0⟩ })]

/-- The last move event of the marquee sweep: to (0, 0). -/
def marqueeLastMove : QGraphicsSceneMouseEvent := { scenePos := ⟨0, 0⟩ }

/-- Two wiring gestures: drag from the output of element 1 to the input of element 3, then
drag from the output of element 2 to the same input. -/
def doubleWireGesture : List (Scene × QEvent) :=
  [pressAt ⟨64, 32⟩, moveTo sceneThreePorts ⟨120, 40⟩, releaseAt ⟨200, 32⟩,
    pressAt ⟨164, 32⟩, moveTo sceneThreePorts ⟨180, 30⟩, releaseAt ⟨200, 32⟩]

/-- A scene whose hit test reports exactly the connection `id`, at every point. -/
def sceneOverConnection (id : Nat) : Scene :=
  { items := fun _ => [.connection id], itemsIn := fun _ => [.connection id] }

/-- A factory that builds an output element of category 7, 32 wide and 32 high with one
input, and a box with no port yet; a box manager that loads the file `ok.panda` as a box
with two inputs and one output and throws on the file `broken.panda`. -/
def sceneFactory : Scene :=
  { items := fun _ => []
    itemsIn := fun _ => []
    buildElement := fun t =>
      if t = .other 7 then
        some { id := 0, boundingRect := ⟨0, 0, 32, 32⟩, inputSize := 1, elementType := .other 7 }
      else if t = .BOX then some { id := 0, elementType := .BOX }
      else none
    loadBox := fun fname =>
      if fname = "ok.panda" then .loaded 2 1 ⟨0, 0, 64, 64⟩
      else if fname = "broken.panda" then .threw "box not found"
      else .failed }

/-- A drop at (100, 100) of a new element of category 7, picked up at offset (32, 32). -/
def dropNewElement : QGraphicsSceneDragDropEvent :=
  { scenePos := ⟨100, 100⟩
    mimeData := { dnditemdata := some { offset := ⟨32, 32⟩, type := .other 7 } } }

/-- A serialized group picked up at (50, 40): elements 10 and 11 and the wire 12 from the
output of 10 to the input of 11. -/
def clonePayload : CtrlDragData :=
  { offset := ⟨50, 40⟩
    ctr := ⟨82, 32⟩
    itemList := [ItemWithId.element { id := 10, pos := ⟨50, 0⟩, outputSize := 1 },
      ItemWithId.element { id := 11, pos := ⟨150, 0⟩, inputSize := 1 },
      ItemWithId.connection { id := 12, start := some ⟨10, 0⟩, end_ := some ⟨11, 0⟩ }] }

/-- A drop of `clonePayload` at (300, 200). -/
def dropClone : QGraphicsSceneDragDropEvent :=
  { scenePos := ⟨300, 200⟩, mimeData := { ctrlDragData := some clonePayload } }

/-- A new box whose file `broken.panda` the box manager throws on. -/
def brokenBoxPayload : NewElementData :=
  { offset := ⟨32, 32⟩, type := .BOX, label_auxData := "broken.panda" }

/-- A drop of `brokenBoxPayload` at (100, 100). -/
def dropBrokenBox : QGraphicsSceneDragDropEvent :=
  { scenePos := ⟨100, 100⟩, mimeData := { dnditemdata := some brokenBoxPayload } }

/-- Five elements: a switch that is on and three push buttons (off, on, on), bound to the
keys 65, 65, 65 and 66, and an output element with no trigger. -/
def circuitInputs : Editor :=
  { elements :=
      [{ id := 1, elementType := .SWITCH, isInput := true, getOn := true, hasTrigger := true,
         trigger := { keys := [65] } },
       { id := 2, elementType := .other 1, isInput := true, getOn := false, hasTrigger := true,
         trigger := { keys := [65] } },
       { id := 3, elementType := .other 1, isInput := true, getOn := true, hasTrigger := true,
         trigger := { keys := [65] } },
       { id := 4, elementType := .other 1, isInput := true, getOn := true, hasTrigger := true,
         trigger := { keys := [66] } },
       { id := 5, elementType := .other 7 }]
    nextId := 6 }

/-- The circuit `circuitNoWire` with the cursor at (60, 16) and the hover reference on the
output port of element 1. -/
def circuitHovering : Editor :=
  { circuitNoWire with mousePos := ⟨60, 16⟩, _hoverPortElm_id := 1, _hoverPort_nbr := 0 }

/-- The circuit `circuitNoWire` with a fourth element that has one input, and the cursor at
(200, 16). -/
def circuitTwoInputs : Editor :=
  { circuitNoWire with
    elements := circuitNoWire.elements ++ [{ id := 4, pos := ⟨200, 100⟩, inputSize := 1 }]
    nextId := 5
    mousePos := ⟨200, 16⟩ }

/-- The circuit `circuitTwoInputs` after a connection was started at the input of element 3:
connection 5 is in progress, anchored at that input port. -/
def circuitEditingFromInput : Editor :=
  startNewConnectionIn ⟨3, 0⟩ circuitTwoInputs

/-- The circuit `circuitNoWire` with elements 1 and 2 selected and a drag snapshot left by an
earlier gesture. -/
def circuitSelected : Editor :=
  { circuitNoWire with
    selected := [.element 1, .element 2]
    movedElements := [3]
    oldPositions := [⟨7, 7⟩] }

/-- A left press at point `p` with Control held. -/
def ctrlPressAt (p : QPointF) : QGraphicsSceneMouseEvent :=
  { scenePos := p, button := .LeftButton, buttons := { left := true },
    modifiers := ControlModifier }

/-- A scene that shows one port, the output of element 1, at the point `q`. -/
def scenePortAt (q : QPointF) : Scene :=
  { items := fun p => if (QRectF.mk p.x p.y 0 0).covers q then [.port (.output ⟨1, 0⟩)] else []
    itemsIn := fun r => if r.covers q then [.port (.output ⟨1, 0⟩)] else [] }

/-- One element, id 7, with two inputs and three outputs. -/
def circuitGate : Editor :=
  { elements := [{ id := 7, inputSize := 2, outputSize := 3 }], nextId := 8 }

/-- The circuit `circuitNoWire` with a stray connection 4 bound to the input of element 3
only, and no connection in progress. -/
def circuitHalfWire : Editor :=
  { circuitNoWire with conns := [{ id := 4, end_ := some ⟨3, 0⟩ }], nextId := 5 }

/-- A left-button release at `p` with Shift held. -/
def shiftReleaseAt (p : QPointF) : QGraphicsSceneMouseEvent :=
  { scenePos := p, button := .LeftButton, modifiers := { shift := true } }

/-! # Theorems -/

/-- An item is ranked as a port exactly when it is a port. -/
theorem type_eq_port_iff (it : QGraphicsItem) :
    it.type = QNEPort.Type ↔ ∃ p, it = .port p := by
  cases it with
  | port p => simp [QGraphicsItem.type]
  | connection id => simp [QGraphicsItem.type, QNEPort.Type, QNEConnection.Type]
  | element id => simp [QGraphicsItem.type, QNEPort.Type, GraphicElement.Type]
  | other rank =>
    have := rank.isLt
    simp [QGraphicsItem.type, QNEPort.Type, UserType]
    omega

/-- C5: `itemAt` scans the exact-point items followed by the tolerance-rectangle items.
(1) If a port occurs anywhere in that list, the first port is returned, whatever non-port
items precede it. (2) If no port occurs, the first item whose type rank exceeds `UserType`
is returned. (3) If no item has a rank above `UserType`, nothing is returned. -/
theorem itemAt_priority (sc : Scene) (pos : QPointF) :
    (∀ l1 p l2, hitList sc pos = l1 ++ QGraphicsItem.port p :: l2 →
        (∀ it ∈ l1, ∀ q, it ≠ QGraphicsItem.port q) →
        itemAt sc pos = some (.port p)) ∧
    (∀ l1 it l2, (∀ q, QGraphicsItem.port q ∉ hitList sc pos) →
        hitList sc pos = l1 ++ it :: l2 →
        (∀ j ∈ l1, j.type ≤ UserType) → UserType < it.type →
        itemAt sc pos = some it) ∧
    ((∀ it ∈ hitList sc pos, it.type ≤ UserType) → itemAt sc pos = none) := by
  refine ⟨?_, ?_, ?_⟩
  · intro l1 p l2 h hl1
    have hfind : (hitList sc pos).find? (fun item => item.type == QNEPort.Type)
        = some (.port p) := by
      rw [h, List.find?_append]
      have : l1.find? (fun item => item.type == QNEPort.Type) = none := by
        rw [List.find?_eq_none]
        intro x hx
        simp only [beq_iff_eq, type_eq_port_iff]
        rintro ⟨q, rfl⟩
        exact hl1 _ hx q rfl
      have hp : ((QGraphicsItem.port p).type == QNEPort.Type) = true := by
        simp [QGraphicsItem.type]
      rw [this, Option.none_or, List.find?_cons, hp]
    unfold itemAt itemsAt
    simp only [hitList] at hfind
    simp [hfind]
  · intro l1 it l2 hnp h hl1 hit
    have hfind : (hitList sc pos).find? (fun item => item.type == QNEPort.Type) = none := by
      rw [List.find?_eq_none]
      intro x hx
      simp only [beq_iff_eq, type_eq_port_iff]
      rintro ⟨q, rfl⟩
      exact hnp q hx
    have hfind2 : (hitList sc pos).find? (fun item => decide (item.type > UserType))
        = some it := by
      rw [h, List.find?_append]
      have : l1.find? (fun item => decide (item.type > UserType)) = none := by
        rw [List.find?_eq_none]
        intro x hx
        have := hl1 x hx
        simp
        omega
      have hp : decide (it.type > UserType) = true := by simpa using hit
      rw [this, Option.none_or, List.find?_cons, hp]
    unfold itemAt itemsAt
    simp only [hitList] at hfind hfind2
    simp [hfind, hfind2]
  · intro hall
    have hfind : (hitList sc pos).find? (fun item => item.type == QNEPort.Type) = none := by
      rw [List.find?_eq_none]
      intro x hx
      have := hall x hx
      simp [QNEPort.Type]
      omega
    have hfind2 : (hitList sc pos).find? (fun item => decide (item.type > UserType))
        = none := by
      rw [List.find?_eq_none]
      intro x hx
      have := hall x hx
      simp
      omega
    unfold itemAt itemsAt
    simp only [hitList] at hfind hfind2
    simp [hfind, hfind2]

/-- Witness for C5: the port in the tolerance rectangle wins over the element at the exact
point that precedes it. -/
theorem itemAt_priority_witness :
    itemAt sceneElementThenPort ⟨10, 10⟩ = some (.port (.input ⟨1, 0⟩)) :=
  (itemAt_priority sceneElementThenPort ⟨10, 10⟩).1
    [.element 1, .element 1] (.input ⟨1, 0⟩) [] rfl (by simp)

theorem getEditedConn_mem {s : Editor} {c : QNEConnection} (h : getEditedConn s = some c) :
    c ∈ s.conns ∧ c.id = s._editedConn_id := by
  unfold getEditedConn ElementFactory.getConnectionById at h
  exact ⟨List.mem_of_find?_eq_some h, by simpa using List.find?_some h⟩

theorem isConnected_iff (s : Editor) (o : QNEOutputPort) (i : QNEInputPort) :
    o.isConnected i s = true ↔ connectedPorts s (.output o) (.input i) := by
  unfold QNEOutputPort.isConnected QNEOutputPort.connections connectedPorts
    QNEConnection.joins
  simp only [List.any_eq_true, List.mem_filter, beq_iff_eq]
  constructor
  · rintro ⟨c, ⟨hc, hs⟩, he⟩
    exact ⟨c, hc, Or.inl (by simp [hs, he])⟩
  · rintro ⟨c, hc, h⟩
    rcases h with ⟨h1, h2⟩ | ⟨h1, h2⟩
    · refine ⟨c, ⟨hc, ?_⟩, ?_⟩
      · cases hs : c.start <;> simp_all
      · cases he : c.end_ <;> simp_all
    · cases hs : c.start <;> simp_all

theorem connectedPorts_comm (s : Editor) (p q : QNEPort) :
    connectedPorts s p q ↔ connectedPorts s q p := by
  unfold connectedPorts QNEConnection.joins
  constructor <;> rintro ⟨c, hc, h⟩ <;> exact ⟨c, hc, h.symm⟩

/-! ## Completing a connection -/

/-- The three outcomes of `makeConnection` over a port: completion. -/
theorem makeConnection_complete (sc : Scene) (s : Editor) (c : QNEConnection) (q : QNEPort)
    (o : QNEOutputPort) (i : QNEInputPort)
    (hq : itemAt sc s.mousePos = some (.port q))
    (hports : makeConnection_ports c q = (some o, some i))
    (helm : o.elm ≠ i.elm) (hconn : o.isConnected i s = false) :
    makeConnection sc (some c) s =
      { s with
        conns := s.conns.map (fun d => if d.id = c.id then (d.setStart o).setEnd i else d)
        undoStack := s.undoStack ++ [.AddItemsCommand [.connection c.id]]
        calls := s.calls ++ [.push (.AddItemsCommand [.connection c.id])]
        _editedConn_id := 0 } := by
  simp only [makeConnection, hq, QGraphicsItem.toPort, hports, helm, hconn, ne_eq,
    not_false_eq_true, Bool.not_false, and_self, if_true, setEditedConn, receiveCommand,
    Command.redo, Editor.record, Editor.updateConn, List.map_map]
  congr 1
  apply List.map_congr_left
  intro d _
  by_cases hd : d.id = c.id <;> simp [hd, QNEConnection.setStart]

/-- The three outcomes of `makeConnection` over a port: discard. -/
theorem makeConnection_discard (sc : Scene) (s : Editor) (c : QNEConnection) (q : QNEPort)
    (o : QNEOutputPort) (i : QNEInputPort)
    (hq : itemAt sc s.mousePos = some (.port q))
    (hports : makeConnection_ports c q = (some o, some i))
    (h : o.elm = i.elm ∨ o.isConnected i s = true) :
    makeConnection sc (some c) s = deleteEditedConn s := by
  have : ¬ (o.elm ≠ i.elm ∧ (!o.isConnected i s) = true) := by
    rcases h with h | h <;> simp [h]
  simp only [makeConnection, hq, QGraphicsItem.toPort, hports, this, if_false]

/-- The three outcomes of `makeConnection` over a port: nothing happens when the port under
the cursor cannot be cast to the missing direction. -/
theorem makeConnection_keep (sc : Scene) (s : Editor) (c : QNEConnection) (q : QNEPort)
    (hq : itemAt sc s.mousePos = some (.port q))
    (hports : (makeConnection_ports c q).1 = none ∨ (makeConnection_ports c q).2 = none) :
    makeConnection sc (some c) s = s := by
  simp only [makeConnection, hq, QGraphicsItem.toPort]
  rcases hp : makeConnection_ports c q with ⟨a, b⟩
  rw [hp] at hports
  rcases hports with h | h <;> simp only at h <;> subst h
  · rfl
  · cases a <;> rfl

/-- What `deleteEditedConn` leaves when the slot resolves to `c`. -/
theorem deleteEditedConn_eq (s : Editor) (c : QNEConnection) (hedit : getEditedConn s = some c) :
    deleteEditedConn s =
      { s with
        conns := s.conns.filter (fun d => d.id != c.id)
        calls := s.calls ++ [.removeItem (.connection c.id)]
        _editedConn_id := 0 } := by
  simp [deleteEditedConn, hedit, setEditedConn, Editor.record]

/-- For a connection anchored at `p` and a candidate `q` of the opposite direction,
`makeConnection` works with an output port and an input port: `p` and `q` in the order of
their directions. -/
theorem anchoredAt_ports_opposite {c : QNEConnection} {p q : QNEPort}
    (hanch : c.anchoredAt p) (hdir : p.isOutput ≠ q.isOutput) :
    ∃ o i, makeConnection_ports c q = (some o, some i) ∧
      ((p = .output o ∧ q = .input i) ∨ (p = .input i ∧ q = .output o)) := by
  cases p <;> cases q <;> simp [QNEPort.isOutput] at hdir <;> obtain ⟨h1, h2⟩ := hanch
  · rename_i o i
    exact ⟨o, i, by simp [makeConnection_ports, h1, QNEPort.toInput], Or.inl ⟨rfl, rfl⟩⟩
  · rename_i i o
    exact ⟨o, i, by simp [makeConnection_ports, h1, h2, QNEPort.toOutput], Or.inr ⟨rfl, rfl⟩⟩

/-- For a connection anchored at `p` and a candidate `q` of the same direction, the cast of
`q` to the missing direction fails. -/
theorem anchoredAt_ports_same {c : QNEConnection} {p q : QNEPort}
    (hanch : c.anchoredAt p) (hdir : p.isOutput = q.isOutput) :
    (makeConnection_ports c q).1 = none ∨ (makeConnection_ports c q).2 = none := by
  cases p <;> cases q <;> simp [QNEPort.isOutput] at hdir <;>
    obtain ⟨h1, h2⟩ := hanch <;>
    simp [makeConnection_ports, h1, h2, QNEPort.toInput, QNEPort.toOutput]

/-- The self-loop and duplicate-edge rules on a pair of ports, read on the output port and
the input port of the pair. -/
theorem ports_rules (s : Editor) {p q : QNEPort} {o : QNEOutputPort} {i : QNEInputPort}
    (hpq : (p = .output o ∧ q = .input i) ∨ (p = .input i ∧ q = .output o)) :
    (connectedPorts s p q ↔ o.isConnected i s = true) ∧
    (p.graphicElement ≠ q.graphicElement ↔ o.elm ≠ i.elm) := by
  rcases hpq with ⟨rfl, rfl⟩ | ⟨rfl, rfl⟩
  · exact ⟨(isConnected_iff s o i).symm, Iff.rfl⟩
  · exact ⟨(connectedPorts_comm _ _ _).trans (isConnected_iff s o i).symm,
      ⟨fun h e => h e.symm, fun h e => h e.symm⟩⟩

/-- The completed connection joins the two ports. -/
theorem joins_of_ports {c : QNEConnection} {p q : QNEPort} {o : QNEOutputPort}
    {i : QNEInputPort}
    (hpq : (p = .output o ∧ q = .input i) ∨ (p = .input i ∧ q = .output o)) :
    ((c.setStart o).setEnd i).joins p q := by
  rcases hpq with ⟨rfl, rfl⟩ | ⟨rfl, rfl⟩
  · exact Or.inl (by simp [QNEConnection.setStart, QNEConnection.setEnd])
  · exact Or.inr (by simp [QNEConnection.setStart, QNEConnection.setEnd])

/-- C1: for an in-progress connection `c` anchored at port `p` and a candidate port `q` under
the cursor, `makeConnection` succeeds (afterwards the connection joins `p` and `q`, the undo
stack has grown by exactly one add command for that connection, and the edited-connection
slot is empty) if and only if `p` and `q` have opposite directions, belong to different
elements, and are not already connected to each other. -/
theorem makeConnection_succeeds_iff (sc : Scene) (s : Editor) (c : QNEConnection)
    (p q : QNEPort)
    (hedit : getEditedConn s = some c) (hanch : c.anchoredAt p)
    (hq : itemAt sc s.mousePos = some (.port q)) :
    ((∃ c1 ∈ (makeConnection sc (some c) s).conns, c1.id = c.id ∧ c1.joins p q) ∧
      (makeConnection sc (some c) s).undoStack
        = s.undoStack ++ [.AddItemsCommand [.connection c.id]] ∧
      (makeConnection sc (some c) s)._editedConn_id = 0)
    ↔ (p.isOutput ≠ q.isOutput ∧ p.graphicElement ≠ q.graphicElement ∧
        ¬ connectedPorts s p q) := by
  obtain ⟨hmem, -⟩ := getEditedConn_mem hedit
  by_cases hdir : p.isOutput = q.isOutput
  · -- same direction: nothing is done
    rw [makeConnection_keep sc s c q hq (anchoredAt_ports_same hanch hdir)]
    simp [hdir]
  -- opposite directions: the pair resolves to an output and an input
  obtain ⟨o, i, hports, hpq⟩ := anchoredAt_ports_opposite hanch hdir
  obtain ⟨hcp, helm⟩ := ports_rules s hpq
  by_cases hok : o.elm ≠ i.elm ∧ o.isConnected i s = false
  · rw [makeConnection_complete sc s c q o i hq hports hok.1 hok.2]
    have : ¬ connectedPorts s p q := by rw [hcp, hok.2]; simp
    simp only [ne_eq, hdir, not_false_eq_true, helm.2 hok.1, this, and_self, iff_true,
      and_true]
    exact ⟨(c.setStart o).setEnd i, List.mem_map.2 ⟨c, hmem, by simp⟩,
      by simp [QNEConnection.setStart, QNEConnection.setEnd], joins_of_ports hpq⟩
  · have hbad : o.elm = i.elm ∨ o.isConnected i s = true := by
      by_cases h1 : o.elm = i.elm
      · exact Or.inl h1
      · right
        cases h : o.isConnected i s
        · exact absurd ⟨h1, h⟩ hok
        · rfl
    rw [makeConnection_discard sc s c q o i hq hports hbad, deleteEditedConn_eq s c hedit]
    have : ¬ (p.graphicElement ≠ q.graphicElement ∧ ¬ connectedPorts s p q) := by
      rw [helm, hcp]
      rcases hbad with h | h <;> simp [h]
    simp [this]

/-- Witness for C1: the connection anchored at the output of element 1 is completed on the
free input of element 3. -/
theorem makeConnection_succeeds_iff_witness :
    (∃ c1 ∈ (makeConnection (sceneOverPort (.input ⟨3, 0⟩))
          (some { id := 4, start := some ⟨1, 0⟩ }) circuitEditing).conns,
        c1.id = 4 ∧ c1.joins (.output ⟨1, 0⟩) (.input ⟨3, 0⟩)) ∧
      (makeConnection (sceneOverPort (.input ⟨3, 0⟩))
          (some { id := 4, start := some ⟨1, 0⟩ }) circuitEditing).undoStack
        = [.AddItemsCommand [.connection 4]] ∧
      (makeConnection (sceneOverPort (.input ⟨3, 0⟩))
          (some { id := 4, start := some ⟨1, 0⟩ }) circuitEditing)._editedConn_id = 0 :=
  (makeConnection_succeeds_iff (sceneOverPort (.input ⟨3, 0⟩)) circuitEditing
    { id := 4, start := some ⟨1, 0⟩ } (.output ⟨1, 0⟩) (.input ⟨3, 0⟩)
    (by decide) (by decide) (by decide)).2 (by decide)

/-- C2, counterexample: a connection is in progress from the output of element 1 and the
cursor is over the output of element 2, a candidate that violates the direction rule.
`makeConnection` does not discard the connection: the slot still holds it and it is still in
the scene. -/
theorem makeConnection_same_direction_not_discarded :
    getEditedConn circuitEditing = some { id := 4, start := some ⟨1, 0⟩ } ∧
    itemAt (sceneOverPort (.output ⟨2, 0⟩)) circuitEditing.mousePos
      = some (.port (.output ⟨2, 0⟩)) ∧
    (QNEPort.output ⟨1, 0⟩).isOutput = (QNEPort.output ⟨2, 0⟩).isOutput ∧
    (makeConnection (sceneOverPort (.output ⟨2, 0⟩)) (some { id := 4, start := some ⟨1, 0⟩ })
        circuitEditing)._editedConn_id = 4 ∧
    getEditedConn (makeConnection (sceneOverPort (.output ⟨2, 0⟩))
        (some { id := 4, start := some ⟨1, 0⟩ }) circuitEditing)
      = some { id := 4, start := some ⟨1, 0⟩ } := by
  decide

/-- C2, amended: for an in-progress connection `c` anchored at `p` and a candidate port `q`
under the cursor. (1) If `q` has the complementary direction but belongs to the element of
`p`, or is already connected to `p`, `makeConnection` discards `c`: it is removed from the
scene, the slot becomes empty, no command is pushed and nothing else changes. (2) If `q` has
the same direction as `p`, `makeConnection` changes nothing: the connection stays in
progress. -/
theorem makeConnection_violation (sc : Scene) (s : Editor) (c : QNEConnection)
    (p q : QNEPort)
    (hedit : getEditedConn s = some c) (hanch : c.anchoredAt p)
    (hq : itemAt sc s.mousePos = some (.port q)) :
    (p.isOutput ≠ q.isOutput →
      (p.graphicElement = q.graphicElement ∨ connectedPorts s p q) →
      makeConnection sc (some c) s =
        { s with
          conns := s.conns.filter (fun d => d.id != c.id)
          calls := s.calls ++ [.removeItem (.connection c.id)]
          _editedConn_id := 0 }) ∧
    (p.isOutput = q.isOutput → makeConnection sc (some c) s = s) := by
  constructor
  · intro hdir hbad
    obtain ⟨o, i, hports, hpq⟩ := anchoredAt_ports_opposite hanch hdir
    obtain ⟨hcp, helm⟩ := ports_rules s hpq
    rw [← deleteEditedConn_eq s c hedit]
    apply makeConnection_discard sc s c q o i hq hports
    rcases hbad with h | h
    · left
      by_contra hne
      exact helm.2 hne h
    · exact Or.inr (hcp.1 h)
  · intro hdir
    exact makeConnection_keep sc s c q hq (anchoredAt_ports_same hanch hdir)

/-- Witness for C2 (amended): the connection in progress from the output of element 1 is
dropped on the input of element 3, which that output already drives; it is discarded and
the existing wire stays. -/
theorem makeConnection_violation_witness :
    makeConnection (sceneOverPort (.input ⟨3, 0⟩)) (some { id := 5, start := some ⟨1, 0⟩ })
        circuitDuplicateEditing =
      { circuitDuplicateEditing with
        conns := [{ id := 4, start := some ⟨1, 0⟩, end_ := some ⟨3, 0⟩ }]
        calls := [.removeItem (.connection 5)]
        _editedConn_id := 0 } :=
  (makeConnection_violation (sceneOverPort (.input ⟨3, 0⟩)) circuitDuplicateEditing
    { id := 5, start := some ⟨1, 0⟩ } (.output ⟨1, 0⟩) (.input ⟨3, 0⟩)
    (by decide) (by decide) (by decide)).1 (by decide) (by decide)

/-! ## Releasing the pointer while a connection is in progress -/

/-- Two editors that hold the same connections resolve the same edited connection. -/
theorem getEditedConn_congr {s t : Editor} (hc : t.conns = s.conns)
    (hi : t._editedConn_id = s._editedConn_id) : getEditedConn t = getEditedConn s := by
  simp [getEditedConn, ElementFactory.getConnectionById, hc, hi]

/-- Two editors that hold the same connections answer `isConnected` alike. -/
theorem isConnected_congr {s t : Editor} (hc : t.conns = s.conns) (o : QNEOutputPort)
    (i : QNEInputPort) : o.isConnected i t = o.isConnected i s := by
  simp [QNEOutputPort.isConnected, QNEOutputPort.connections, hc]

/-- Two editors that hold the same connections have the same connected ports. -/
theorem connectedPorts_congr {s t : Editor} (hc : t.conns = s.conns) (p q : QNEPort) :
    connectedPorts t p q ↔ connectedPorts s p q := by
  simp [connectedPorts, hc]

/-- Nothing happens in `makeConnection` when the cursor is not over a port. -/
theorem makeConnection_noport (sc : Scene) (s : Editor) (c : Option QNEConnection)
    (h : QGraphicsItem.toPort (itemAt sc s.mousePos) = none) : makeConnection sc c s = s := by
  simp [makeConnection, h]

/-- With a connection `c` in progress and the left button up, `mouseReleaseEvt` reports the
event as handled and runs `makeConnection` on an editor that differs from the one before in
the marquee flag, the visibility of the selection rectangle and the override cursor only. -/
theorem mouseReleaseEvt_editing (sc : Scene) (s : Editor) (c : QNEConnection)
    (mouseEvt : QGraphicsSceneMouseEvent)
    (hedit : getEditedConn s = some c) (hleft : mouseEvt.buttons.left = false) :
    ∃ cur calls,
      mouseReleaseEvt sc (some mouseEvt) s =
        (true, makeConnection sc (some c)
          { s with selectionRectVisible := false, markingSelectionBox := false,
                   overrideCursor := cur, calls := calls }) := by
  have key : ∀ t : Editor, t.conns = s.conns → t._editedConn_id = s._editedConn_id →
      (match getEditedConn t with
        | some editedConn =>
          if !mouseEvt.buttons.left then (true, makeConnection sc (some editedConn) t)
          else (false, t)
        | none => (false, t)) = (true, makeConnection sc (some c) t) := by
    intro t hc hi
    rw [getEditedConn_congr hc hi, hedit]
    simp [hleft]
  by_cases hcur : s.overrideCursor = []
  · refine ⟨s.overrideCursor, s.calls, ?_⟩
    simp only [mouseReleaseEvt, ne_eq, hcur, not_true_eq_false, if_false]
    exact key _ rfl rfl
  · refine ⟨s.overrideCursor ++ [.ArrowCursor], s.calls ++ [.setOverrideCursor .ArrowCursor], ?_⟩
    simp only [mouseReleaseEvt, ne_eq, hcur, not_false_eq_true, if_true]
    exact key _ rfl rfl

/-- C3, counterexample: a connection is in progress from the output of element 1 and the
pointer is released, no button held, over empty background. After `mouseReleaseEvt` the
edited-connection slot still holds the connection. -/
theorem mouseReleaseEvt_background_keeps_connection :
    getEditedConn circuitEditing = some { id := 4, start := some ⟨1, 0⟩ } ∧
    itemAt sceneBackground circuitEditing.mousePos = none ∧
    (mouseReleaseEvt sceneBackground (some { scenePos := ⟨0, 0⟩, button := .LeftButton })
        circuitEditing).2._editedConn_id = 4 ∧
    getEditedConn (mouseReleaseEvt sceneBackground
        (some { scenePos := ⟨0, 0⟩, button := .LeftButton }) circuitEditing).2
      = some { id := 4, start := some ⟨1, 0⟩ } := by
  decide

/-- C3, amended: with a connection `c` in progress, anchored at `p`, and the left button no
longer held, `mouseReleaseEvt` reports the release as handled, and
(1) over a port `q` of the complementary direction on another element and not yet connected
to `p`, the slot is empty afterwards and exactly one add command for `c` was pushed;
(2) over a port `q` of the complementary direction on the same element, or already
connected to `p`, the slot is empty afterwards, `c` is gone from the scene and no command
was pushed;
(3) over a port of the same direction, over a non-port item or over empty background, the
slot still holds `c` afterwards and no command was pushed. -/
theorem mouseReleaseEvt_slot (sc : Scene) (s : Editor) (c : QNEConnection) (p : QNEPort)
    (mouseEvt : QGraphicsSceneMouseEvent)
    (hedit : getEditedConn s = some c) (hanch : c.anchoredAt p)
    (hleft : mouseEvt.buttons.left = false) :
    (mouseReleaseEvt sc (some mouseEvt) s).1 = true ∧
    (∀ q, itemAt sc s.mousePos = some (.port q) → p.isOutput ≠ q.isOutput →
      p.graphicElement ≠ q.graphicElement → ¬ connectedPorts s p q →
      (mouseReleaseEvt sc (some mouseEvt) s).2._editedConn_id = 0 ∧
      (mouseReleaseEvt sc (some mouseEvt) s).2.undoStack
        = s.undoStack ++ [.AddItemsCommand [.connection c.id]]) ∧
    (∀ q, itemAt sc s.mousePos = some (.port q) → p.isOutput ≠ q.isOutput →
      (p.graphicElement = q.graphicElement ∨ connectedPorts s p q) →
      (mouseReleaseEvt sc (some mouseEvt) s).2._editedConn_id = 0 ∧
      (mouseReleaseEvt sc (some mouseEvt) s).2.conns
        = s.conns.filter (fun d => d.id != c.id) ∧
      (mouseReleaseEvt sc (some mouseEvt) s).2.undoStack = s.undoStack) ∧
    ((∀ q, itemAt sc s.mousePos = some (.port q) → p.isOutput = q.isOutput) →
      getEditedConn (mouseReleaseEvt sc (some mouseEvt) s).2 = some c ∧
      (mouseReleaseEvt sc (some mouseEvt) s).2.undoStack = s.undoStack) := by
  obtain ⟨cur, calls, hr⟩ := mouseReleaseEvt_editing sc s c mouseEvt hedit hleft
  rw [hr]
  set s1 : Editor := { s with selectionRectVisible := false, markingSelectionBox := false,
                              overrideCursor := cur, calls := calls } with hs1
  have hedit1 : getEditedConn s1 = some c := by
    rw [← hedit]; exact getEditedConn_congr rfl rfl
  refine ⟨rfl, ?_, ?_, ?_⟩
  · intro q hq hdir helm hconn
    obtain ⟨o, i, hports, hpq⟩ := anchoredAt_ports_opposite hanch hdir
    obtain ⟨hcp, hel⟩ := ports_rules s hpq
    have hfree : o.isConnected i s1 = false := by
      rw [isConnected_congr (s := s) (t := s1) rfl o i]
      cases h : o.isConnected i s
      · rfl
      · exact absurd (hcp.2 h) hconn
    rw [makeConnection_complete sc s1 c q o i hq hports (hel.1 helm) hfree]
    exact ⟨rfl, rfl⟩
  · intro q hq hdir hbad
    obtain ⟨o, i, hports, hpq⟩ := anchoredAt_ports_opposite hanch hdir
    obtain ⟨hcp, hel⟩ := ports_rules s hpq
    have hbad1 : o.elm = i.elm ∨ o.isConnected i s1 = true := by
      rcases hbad with h | h
      · left
        by_contra hne
        exact hel.2 hne h
      · right
        rw [isConnected_congr (s := s) (t := s1) rfl o i]
        exact hcp.1 h
    rw [makeConnection_discard sc s1 c q o i hq hports hbad1, deleteEditedConn_eq s1 c hedit1]
    exact ⟨rfl, rfl, rfl⟩
  · intro hall
    have hkeep : makeConnection sc (some c) s1 = s1 := by
      cases hit : itemAt sc s.mousePos with
      | none => exact makeConnection_noport sc s1 _ (by
          show QGraphicsItem.toPort (itemAt sc s.mousePos) = none
          rw [hit]; rfl)
      | some it =>
        cases it with
        | port q =>
          exact makeConnection_keep sc s1 c q hit (anchoredAt_ports_same hanch (hall q hit))
        | connection id => exact makeConnection_noport sc s1 _ (by
            show QGraphicsItem.toPort (itemAt sc s.mousePos) = none
            rw [hit]; rfl)
        | element id => exact makeConnection_noport sc s1 _ (by
            show QGraphicsItem.toPort (itemAt sc s.mousePos) = none
            rw [hit]; rfl)
        | other rank => exact makeConnection_noport sc s1 _ (by
            show QGraphicsItem.toPort (itemAt sc s.mousePos) = none
            rw [hit]; rfl)
    rw [hkeep]
    exact ⟨hedit1, rfl⟩

/-- Witness for C3 (amended): released over the output of element 2, the connection in
progress from the output of element 1 stays in the slot. -/
theorem mouseReleaseEvt_slot_witness :
    getEditedConn (mouseReleaseEvt (sceneOverPort (.output ⟨2, 0⟩))
        (some { scenePos := ⟨0, 0⟩, button := .LeftButton }) circuitEditing).2
      = some { id := 4, start := some ⟨1, 0⟩ } ∧
    (mouseReleaseEvt (sceneOverPort (.output ⟨2, 0⟩))
        (some { scenePos := ⟨0, 0⟩, button := .LeftButton }) circuitEditing).2.undoStack
      = circuitEditing.undoStack :=
  (mouseReleaseEvt_slot (sceneOverPort (.output ⟨2, 0⟩)) circuitEditing
    { id := 4, start := some ⟨1, 0⟩ } (.output ⟨1, 0⟩)
    { scenePos := ⟨0, 0⟩, button := .LeftButton }
    (by decide) (by decide) (by decide)).2.2.2
    (by
      intro q hq
      have h0 : itemAt (sceneOverPort (.output ⟨2, 0⟩)) circuitEditing.mousePos
          = some (.port (.output ⟨2, 0⟩)) := by decide
      rw [h0] at hq
      cases hq
      rfl)

/-! ## Frame of hover tracking -/

theorem hoverFrame_refl (s : Editor) : s.hoverFrame s := rfl

theorem hoverFrame_trans {s t u : Editor} (h1 : s.hoverFrame t) (h2 : t.hoverFrame u) :
    s.hoverFrame u := by
  unfold Editor.hoverFrame at *
  rw [h2, h1]

theorem setHoverPort_frame (port : Option QNEPort) (s : Editor) :
    s.hoverFrame (setHoverPort port s) := by
  cases port with
  | none => rfl
  | some port =>
    simp only [setHoverPort]
    cases hE : ElementFactory.getElementById s port.graphicElement with
    | none => exact rfl
    | some hoverElm =>
      simp only []
      split
      · have key : ∀ (l : List Nat) (t : Editor), s.hoverFrame t →
            s.hoverFrame (l.foldl
              (fun s i =>
                if i < hoverElm.inputSize then
                  if port = hoverElm.input i then { s with _hoverPort_nbr := i } else s
                else if port = hoverElm.output (i - hoverElm.inputSize) then
                  { s with _hoverPort_nbr := i }
                else s) t) := by
          intro l
          induction l with
          | nil => intro t ht; exact ht
          | cons i l ih =>
            intro t ht
            rw [List.foldl_cons]
            apply ih
            refine hoverFrame_trans ht ?_
            split_ifs <;> exact rfl
        exact key _ _ rfl
      · exact rfl

theorem getHoverPort_frame (s : Editor) : s.hoverFrame (getHoverPort s).2 := by
  unfold getHoverPort
  simp only []
  split
  · exact rfl
  · exact setHoverPort_frame none s

theorem setOverrideCursor_frame (c : CursorShape) (s : Editor) :
    s.hoverFrame (setOverrideCursor c s) := rfl

theorem releaseHoverPort_frame (s : Editor) : s.hoverFrame (releaseHoverPort s) := by
  unfold releaseHoverPort
  have h := getHoverPort_frame s
  rcases hg : getHoverPort s with ⟨hp, t⟩
  rw [hg] at h
  cases hp with
  | none => exact h
  | some p =>
    simp only []
    refine hoverFrame_trans h ?_
    refine hoverFrame_trans (t := t.record (.hoverLeave p)) rfl ?_
    refine hoverFrame_trans (setHoverPort_frame none _) ?_
    exact setOverrideCursor_frame _ _

theorem handleHoverPort_frame (sc : Scene) (s : Editor) :
    s.hoverFrame (handleHoverPort sc s) := by
  unfold handleHoverPort
  have h := getHoverPort_frame s
  rcases hg : getHoverPort s with ⟨hp, t⟩
  rw [hg] at h
  simp only []
  have h2 : s.hoverFrame
      (if hp.isSome ∧ QGraphicsItem.toPort (itemAt sc s.mousePos) ≠ hp
        then releaseHoverPort t else t) := by
    split_ifs
    · exact hoverFrame_trans h (releaseHoverPort_frame t)
    · exact h
  generalize (if hp.isSome ∧ QGraphicsItem.toPort (itemAt sc s.mousePos) ≠ hp
        then releaseHoverPort t else t) = u at h2 ⊢
  cases QGraphicsItem.toPort (itemAt sc s.mousePos) with
  | none => exact h2
  | some port =>
    simp only []
    have h3 : s.hoverFrame (setHoverPort (some port) (releaseHoverPort u)) :=
      hoverFrame_trans h2 (hoverFrame_trans (releaseHoverPort_frame u) (setHoverPort_frame _ _))
    split_ifs
    · cases getEditedConn u with
      | none => exact h3
      | some editedConn =>
        simp only []
        cases editedConn.start with
        | none => exact h3
        | some start =>
          simp only []
          split_ifs
          · exact hoverFrame_trans h3 (setOverrideCursor_frame _ _)
          · exact h3
    · exact h2

theorem eventFilter_track_frame (sc : Scene) (mouseEvt : QGraphicsSceneMouseEvent)
    (s : Editor) :
    s.trackFrame (eventFilter_track sc mouseEvt s) ∧
    (eventFilter_track sc mouseEvt s).mousePos = mouseEvt.scenePos := by
  unfold eventFilter_track
  simp only []
  have h := handleHoverPort_frame sc (resizeScene { s with mousePos := mouseEvt.scenePos })
  generalize handleHoverPort sc (resizeScene { s with mousePos := mouseEvt.scenePos }) = t at h ⊢
  have hr : resizeScene { s with mousePos := mouseEvt.scenePos }
      = { s with mousePos := mouseEvt.scenePos,
                 sceneRect := (resizeScene { s with mousePos := mouseEvt.scenePos }).sceneRect } := by
    unfold resizeScene
    split_ifs <;> rfl
  unfold Editor.hoverFrame at h
  rw [hr] at h
  constructor
  · unfold Editor.trackFrame
    rw [h]
  · rw [h]

/-! ## Pressing on a port -/

/-- The first run of a delete command for one connection removes that connection and
nothing else. -/
theorem redo_delete_connection (s : Editor) (id : Nat) :
    (Command.DeleteItemsCommand [.connection id]).redo s
      = { s with conns := s.conns.filter (fun d => d.id != id) } := by
  have he : s.elements.filter (fun e => !([QGraphicsItem.connection id].contains
      (QGraphicsItem.element e.id))) = s.elements := by
    rw [List.filter_eq_self]
    intro e _
    simp
  have hc : s.conns.filter (fun c =>
      !([QGraphicsItem.connection id].contains (QGraphicsItem.connection c.id))
        && !(match c.start with
            | some p => [QGraphicsItem.connection id].contains (QGraphicsItem.element p.elm)
            | none => false)
        && !(match c.end_ with
            | some p => [QGraphicsItem.connection id].contains (QGraphicsItem.element p.elm)
            | none => false))
      = s.conns.filter (fun d => d.id != id) := by
    apply List.filter_congr
    intro c _
    cases c.start <;> cases c.end_ <;> simp [bne] <;>
      by_cases h : c.id = id <;> simp [h]
  simp only [Command.redo, he, hc]

/-- What `deleteEditedConn` leaves when the slot resolves to nothing. -/
theorem deleteEditedConn_none (s : Editor) (hedit : getEditedConn s = none) :
    deleteEditedConn s = { s with _editedConn_id := 0 } := by
  simp [deleteEditedConn, hedit, setEditedConn]

/-- The outcomes of `makeConnection`: nothing, a discard, or a completion. -/
theorem makeConnection_cases (sc : Scene) (c : QNEConnection) (s : Editor) :
    makeConnection sc (some c) s = s ∨
    makeConnection sc (some c) s = deleteEditedConn s ∨
    ∃ o i, o.isConnected i s = false ∧ makeConnection sc (some c) s =
      { s with
        conns := s.conns.map (fun d => if d.id = c.id then (d.setStart o).setEnd i else d)
        undoStack := s.undoStack ++ [.AddItemsCommand [.connection c.id]]
        calls := s.calls ++ [.push (.AddItemsCommand [.connection c.id])]
        _editedConn_id := 0 } := by
  cases hit : QGraphicsItem.toPort (itemAt sc s.mousePos) with
  | none => exact Or.inl (makeConnection_noport sc s _ hit)
  | some q =>
    have hq : itemAt sc s.mousePos = some (.port q) := by
      cases h : itemAt sc s.mousePos with
      | none => rw [h] at hit; cases hit
      | some it =>
        rw [h] at hit
        cases it <;> simp [QGraphicsItem.toPort] at hit
        rw [hit]
    rcases hp : makeConnection_ports c q with ⟨a, b⟩
    cases a with
    | none => exact Or.inl (makeConnection_keep sc s c q hq (Or.inl (by rw [hp])))
    | some o =>
      cases b with
      | none => exact Or.inl (makeConnection_keep sc s c q hq (Or.inr (by rw [hp])))
      | some i =>
        by_cases hok : o.elm ≠ i.elm ∧ o.isConnected i s = false
        · exact Or.inr (Or.inr ⟨o, i, hok.2,
            makeConnection_complete sc s c q o i hq hp hok.1 hok.2⟩)
        · refine Or.inr (Or.inl (makeConnection_discard sc s c q o i hq hp ?_))
          by_cases h1 : o.elm = i.elm
          · exact Or.inl h1
          · right
            cases h : o.isConnected i s
            · exact absurd ⟨h1, h⟩ hok
            · rfl

/-- No connection is created by `makeConnection`: the factory counter stays and every
connection left in the scene was there before. -/
theorem makeConnection_no_new (sc : Scene) (c : QNEConnection) (s : Editor) :
    (makeConnection sc (some c) s).nextId = s.nextId ∧
    ∀ d ∈ (makeConnection sc (some c) s).conns, ∃ d0 ∈ s.conns, d0.id = d.id := by
  rcases makeConnection_cases sc c s with h | h | ⟨o, i, -, h⟩
  · rw [h]
    exact ⟨rfl, fun d hd => ⟨d, hd, rfl⟩⟩
  · rw [h]
    cases he : getEditedConn s with
    | none =>
      rw [deleteEditedConn_none s he]
      exact ⟨rfl, fun d hd => ⟨d, hd, rfl⟩⟩
    | some e =>
      rw [deleteEditedConn_eq s e he]
      exact ⟨rfl, fun d hd => ⟨d, (List.mem_filter.1 hd).1, rfl⟩⟩
  · rw [h]
    refine ⟨rfl, fun d hd => ?_⟩
    obtain ⟨d0, hd0, rfl⟩ := List.mem_map.1 hd
    refine ⟨d0, hd0, ?_⟩
    by_cases hid : d0.id = c.id <;> simp [hid, QNEConnection.setStart, QNEConnection.setEnd]

/-- C6: a press whose hit-test result is a port is reported as handled, and
(1) with no connection in progress, on an output port a new connection anchored at that
port, its free end at the cursor, is added to the scene and stored in the slot;
(2) with no connection in progress, on an input port that carries a connection the press
runs `detachConnection` on that port, which yields a result;
(3) with no connection in progress, on an input port without connection a new connection
anchored at that port is added to the scene and stored in the slot;
(4) with a connection in progress the press runs `makeConnection` on it, and no new
connection is created. -/
theorem mousePressEvt_port (sc : Scene) (mouseEvt : QGraphicsSceneMouseEvent) (s : Editor)
    (port : QNEPort) (hq : itemAt sc s.mousePos = some (.port port)) :
    (getEditedConn s = none →
      (∀ o, port = .output o →
        mousePressEvt sc mouseEvt s = some (true,
          { s with
            conns := s.conns ++ [{ id := s.nextId, start := some o, endPos := s.mousePos }]
            nextId := s.nextId + 1
            _editedConn_id := s.nextId
            calls := s.calls ++ [.addItem (.connection s.nextId)] })) ∧
      (∀ i, port = .input i → i.connections s ≠ [] →
        ∃ s1, detachConnection i s = some s1 ∧
          mousePressEvt sc mouseEvt s = some (true, s1)) ∧
      (∀ i, port = .input i → i.connections s = [] →
        mousePressEvt sc mouseEvt s = some (true,
          { s with
            conns := s.conns ++ [{ id := s.nextId, end_ := some i, startPos := s.mousePos }]
            nextId := s.nextId + 1
            _editedConn_id := s.nextId
            calls := s.calls ++ [.addItem (.connection s.nextId)] }))) ∧
    (∀ c, getEditedConn s = some c →
      mousePressEvt sc mouseEvt s = some (true, makeConnection sc (some c) s) ∧
      (makeConnection sc (some c) s).nextId = s.nextId ∧
      ∀ d ∈ (makeConnection sc (some c) s).conns, ∃ d0 ∈ s.conns, d0.id = d.id) := by
  refine ⟨fun hnone => ⟨?_, ?_, ?_⟩, ?_⟩
  · rintro o rfl
    simp only [mousePressEvt, hq, hnone]
    rfl
  · rintro i rfl hne
    have hlen : (i.connections s).length > 0 := List.length_pos.2 hne
    simp only [mousePressEvt, hq, hnone, hlen, if_true]
    obtain ⟨c, hc⟩ : ∃ c, (i.connections s).getLast? = some c := by
      cases h : (i.connections s).getLast? with
      | none => exact absurd (List.getLast?_eq_none_iff.1 h) hne
      | some c => exact ⟨c, rfl⟩
    cases hs : c.start with
    | none =>
      refine ⟨s, ?_, ?_⟩ <;> simp [detachConnection, hc, hs]
    | some o =>
      refine ⟨startNewConnection o
        (receiveCommand (.DeleteItemsCommand [.connection c.id]) s), ?_, ?_⟩ <;>
        simp [detachConnection, hc, hs]
  · rintro i rfl hempty
    simp only [mousePressEvt, hq, hnone, hempty, List.length_nil, gt_iff_lt, lt_self_iff_false,
      if_false]
    rfl
  · intro c hc
    refine ⟨?_, makeConnection_no_new sc c s⟩
    simp only [mousePressEvt, hq, hc]

/-- Witness for C6: with no connection in progress, a press on the output of element 1
starts connection 4 there. -/
theorem mousePressEvt_port_witness :
    mousePressEvt (sceneOverPort (.output ⟨1, 0⟩)) { scenePos := ⟨0, 0⟩, button := .LeftButton }
        circuitNoWire
      = some (true,
          { circuitNoWire with
            conns := [{ id := 4, start := some ⟨1, 0⟩, endPos := ⟨0, 0⟩ }]
            nextId := 5
            _editedConn_id := 4
            calls := [.addItem (.connection 4)] }) :=
  ((mousePressEvt_port (sceneOverPort (.output ⟨1, 0⟩))
    { scenePos := ⟨0, 0⟩, button := .LeftButton } circuitNoWire (.output ⟨1, 0⟩)
    (by decide)).1 (by decide)).1 ⟨1, 0⟩ rfl

/-! ## Detach and rewire -/

/-- C7, counterexample: the input of element 3 carries wire 4 from the output of element 2
and no connection is in progress. A press on that input records the push of the delete
command for wire 4 first and adds the new connection 5 to the scene second: the deletion
precedes the start of the new connection. -/
theorem detach_records_deletion_first :
    (mousePressEvt (sceneOverPort (.input ⟨3, 0⟩))
        { scenePos := ⟨0, 0⟩, button := .LeftButton } circuitWired).map (fun r => r.2.calls)
      = some [.push (.DeleteItemsCommand [.connection 4]), .addItem (.connection 5)] := by
  decide

/-- C7, amended: for an input port `i` whose last attached connection `c` has source output
port `O`, a press on `i` with no connection in progress is handled; it first pushes exactly
one delete command for `c`, which removes `c`, and then starts a new connection anchored at
`O` with its free end at the cursor (deletion recorded first, new connection started
second); afterwards the edited-connection slot holds the new connection. -/
theorem mousePressEvt_detach (sc : Scene) (mouseEvt : QGraphicsSceneMouseEvent) (s : Editor)
    (i : QNEInputPort) (c : QNEConnection) (O : QNEOutputPort)
    (hq : itemAt sc s.mousePos = some (.port (.input i)))
    (hedit : getEditedConn s = none)
    (hlast : (i.connections s).getLast? = some c) (hstart : c.start = some O)
    (hfresh : ∀ d ∈ s.conns, d.id < s.nextId) :
    ∃ s1, mousePressEvt sc mouseEvt s = some (true, s1) ∧
      s1.undoStack = s.undoStack ++ [.DeleteItemsCommand [.connection c.id]] ∧
      s1.calls = s.calls ++
        [.push (.DeleteItemsCommand [.connection c.id]), .addItem (.connection s.nextId)] ∧
      s1.conns = s.conns.filter (fun d => d.id != c.id)
        ++ [{ id := s.nextId, start := some O, endPos := s.mousePos }] ∧
      getEditedConn s1 = some { id := s.nextId, start := some O, endPos := s.mousePos } := by
  have hne : i.connections s ≠ [] := by
    intro h
    rw [h] at hlast
    cases hlast
  have hlen : (i.connections s).length > 0 := List.length_pos.2 hne
  refine ⟨startNewConnection O (receiveCommand (.DeleteItemsCommand [.connection c.id]) s),
    ?_, ?_, ?_, ?_, ?_⟩
  · simp [mousePressEvt, hq, hedit, hlen, detachConnection, hlast, hstart]
  · simp only [startNewConnection, ElementFactory.buildConnection, addItem, setEditedConn,
      receiveCommand, redo_delete_connection, Editor.record]
  · simp only [startNewConnection, ElementFactory.buildConnection, addItem, setEditedConn,
      receiveCommand, redo_delete_connection, Editor.record, List.append_assoc,
      List.singleton_append, QNEConnection.setStart, QNEConnection.setEndPos]
  · simp only [startNewConnection, ElementFactory.buildConnection, addItem, setEditedConn,
      receiveCommand, redo_delete_connection, Editor.record, QNEConnection.setStart,
      QNEConnection.setEndPos]
  · simp only [startNewConnection, ElementFactory.buildConnection, addItem, setEditedConn,
      receiveCommand, redo_delete_connection, Editor.record, QNEConnection.setStart,
      QNEConnection.setEndPos, getEditedConn, ElementFactory.getConnectionById]
    rw [List.find?_append]
    have : (s.conns.filter (fun d => d.id != c.id)).find? (fun c => c.id == s.nextId)
        = none := by
      rw [List.find?_eq_none]
      intro d hd
      have := hfresh d (List.mem_filter.1 hd).1
      simp
      omega
    rw [this]
    simp

/-- Witness for C7 (amended): the press on the wired input of element 3 deletes wire 4 and
leaves connection 5, anchored at the output of element 2, in the slot. -/
theorem mousePressEvt_detach_witness :
    ∃ s1, mousePressEvt (sceneOverPort (.input ⟨3, 0⟩))
        { scenePos := ⟨0, 0⟩, button := .LeftButton } circuitWired = some (true, s1) ∧
      s1.undoStack = circuitWired.undoStack ++ [.DeleteItemsCommand [.connection 4]] ∧
      s1.calls = circuitWired.calls ++
        [.push (.DeleteItemsCommand [.connection 4]), .addItem (.connection 5)] ∧
      s1.conns = circuitWired.conns.filter (fun d => d.id != 4)
        ++ [{ id := 5, start := some ⟨2, 0⟩, endPos := circuitWired.mousePos }] ∧
      getEditedConn s1
        = some { id := 5, start := some ⟨2, 0⟩, endPos := circuitWired.mousePos } :=
  mousePressEvt_detach (sceneOverPort (.input ⟨3, 0⟩))
    { scenePos := ⟨0, 0⟩, button := .LeftButton } circuitWired ⟨3, 0⟩
    { id := 4, start := some ⟨2, 0⟩, end_ := some ⟨3, 0⟩ } ⟨2, 0⟩
    (by decide) (by decide) (by decide) rfl (by decide)

/-! ## Pressing on empty background -/

/-- C9, counterexample: no connection is in progress and the right button is pressed on
empty background at (30, 40). The editor does not enter marquee selection: the press
leaves the editor as it was, with the marquee flag down. -/
theorem mousePressEvt_right_button_no_marquee :
    itemAt sceneBackground ⟨30, 40⟩ = none ∧
    getEditedConn { circuitNoWire with mousePos := ⟨30, 40⟩ } = none ∧
    (mousePressEvt sceneBackground { scenePos := ⟨30, 40⟩, button := .RightButton }
        { circuitNoWire with mousePos := ⟨30, 40⟩ }).map (fun r => r.2.markingSelectionBox)
      = some false ∧
    mousePressEvt sceneBackground { scenePos := ⟨30, 40⟩, button := .RightButton }
        { circuitNoWire with mousePos := ⟨30, 40⟩ }
      = some (false, { circuitNoWire with mousePos := ⟨30, 40⟩ }) := by
  decide

/-- C9, amended: for a press on empty background (the hit test returns no object), with the
cursor position stored in `mousePos`:
(1) if no connection is in progress and the pressed button is the left button, the editor
enters marquee selection: the flag is set, the anchor is the press point and the selection
rectangle is shown with zero size at the press point;
(2) if no connection is in progress and the pressed button is not the left button, nothing
changes;
(3) if a connection `c` is in progress it is discarded (removed from the scene, slot
emptied) and marquee selection is not started: nothing else changes.
The press is not reported as handled in any of the three cases. -/
theorem mousePressEvt_background (sc : Scene) (mouseEvt : QGraphicsSceneMouseEvent)
    (s : Editor) (hq : itemAt sc s.mousePos = none) :
    (getEditedConn s = none → mouseEvt.button = .LeftButton →
      mousePressEvt sc mouseEvt s = some (false,
        { s with
          selectionStartPoint := s.mousePos
          markingSelectionBox := true
          selectionRect := ⟨s.mousePos.x, s.mousePos.y, 0, 0⟩
          selectionRectVisible := true })) ∧
    (getEditedConn s = none → mouseEvt.button ≠ .LeftButton →
      mousePressEvt sc mouseEvt s = some (false, s)) ∧
    (∀ c, getEditedConn s = some c →
      mousePressEvt sc mouseEvt s = some (false,
        { s with
          conns := s.conns.filter (fun d => d.id != c.id)
          calls := s.calls ++ [.removeItem (.connection c.id)]
          _editedConn_id := 0 })) := by
  refine ⟨?_, ?_, ?_⟩
  · intro hnone hleft
    simp [mousePressEvt, hq, hnone, hleft, startSelectionRect, QRectF.ofPoints]
  · intro hnone hleft
    simp [mousePressEvt, hq, hnone, hleft]
  · intro c hc
    simp only [mousePressEvt, hq, hc, Option.isSome_some, if_true]
    rw [deleteEditedConn_eq s c hc]

/-- Witness for C9 (amended): a left press on empty background at (30, 40) with no
connection in progress anchors a zero-size selection rectangle there. -/
theorem mousePressEvt_background_witness :
    mousePressEvt sceneBackground { scenePos := ⟨30, 40⟩, button := .LeftButton }
        { circuitNoWire with mousePos := ⟨30, 40⟩ }
      = some (false,
          { circuitNoWire with
            mousePos := ⟨30, 40⟩
            selectionStartPoint := ⟨30, 40⟩
            markingSelectionBox := true
            selectionRect := ⟨30, 40, 0, 0⟩
            selectionRectVisible := true }) :=
  (mousePressEvt_background sceneBackground { scenePos := ⟨30, 40⟩, button := .LeftButton }
    { circuitNoWire with mousePos := ⟨30, 40⟩ } (by decide)).1 (by decide) rfl

/-! ## Releasing an element drag -/

/-- The loop of the release block finds a moved element exactly when one exists, provided
the two snapshot lists have the same length and the snapshotted elements are in the
scene. -/
theorem anyMoved_spec (s : Editor) :
    ∀ (es : List Nat) (ps : List QPointF), es.length = ps.length →
      (∀ e ∈ es, (s.elementPos e).isSome) →
      anyMoved s es ps = some (decide (∃ ep ∈ es.zip ps, s.elementPos ep.1 ≠ some ep.2)) := by
  intro es
  induction es with
  | nil => intro ps _ _; simp [anyMoved]
  | cons e es ih =>
    intro ps hlen hlive
    cases ps with
    | nil => simp at hlen
    | cons p ps =>
      have hl : es.length = ps.length := by simpa using hlen
      have he := hlive e (List.mem_cons_self _ _)
      obtain ⟨q, hq⟩ := Option.isSome_iff_exists.1 he
      simp only [anyMoved, hq]
      by_cases hqp : q = p
      · subst hqp
        simp only [ne_eq, not_true_eq_false, if_false]
        rw [ih ps hl (fun x hx => hlive x (List.mem_cons_of_mem _ hx))]
        simp [hq]
      · simp [hqp, hq]

theorem makeConnection_frame (sc : Scene) (c : QNEConnection) (s : Editor) :
    s.connFrame (makeConnection sc (some c) s) ∧
    ((makeConnection sc (some c) s).undoStack = s.undoStack ∨
      (makeConnection sc (some c) s).undoStack
        = s.undoStack ++ [.AddItemsCommand [.connection c.id]]) := by
  rcases makeConnection_cases sc c s with h | h | ⟨o, i, -, h⟩
  · rw [h]; exact ⟨rfl, Or.inl rfl⟩
  · rw [h]
    cases he : getEditedConn s with
    | none => rw [deleteEditedConn_none s he]; exact ⟨rfl, Or.inl rfl⟩
    | some e => rw [deleteEditedConn_eq s e he]; exact ⟨rfl, Or.inl rfl⟩
  · rw [h]; exact ⟨rfl, Or.inr rfl⟩

/-- What `mouseReleaseEvt` may write: the marquee flag and the visibility of the selection
rectangle are cleared; the override cursor, the connections, the undo stack, the slot and
the record of calls may change; the undo stack grows by at most the add command of the
connection in progress, and stays as it is when no connection is in progress. -/
theorem mouseReleaseEvt_frame (sc : Scene) (mouseEvt : QGraphicsSceneMouseEvent)
    (s : Editor) :
    s.releaseFrame (mouseReleaseEvt sc (some mouseEvt) s).2 ∧
    (mouseReleaseEvt sc (some mouseEvt) s).2.selectionRectVisible = false ∧
    (mouseReleaseEvt sc (some mouseEvt) s).2.markingSelectionBox = false ∧
    ((mouseReleaseEvt sc (some mouseEvt) s).2.undoStack = s.undoStack ∨
      ∃ id, (mouseReleaseEvt sc (some mouseEvt) s).2.undoStack
        = s.undoStack ++ [.AddItemsCommand [.connection id]]) ∧
    (getEditedConn s = none →
      (mouseReleaseEvt sc (some mouseEvt) s).2.undoStack = s.undoStack ∧
      (mouseReleaseEvt sc (some mouseEvt) s).2.conns = s.conns ∧
      (mouseReleaseEvt sc (some mouseEvt) s).2._editedConn_id = s._editedConn_id ∧
      (mouseReleaseEvt sc (some mouseEvt) s).1 = false) := by
  have key : ∀ t : Editor, t.conns = s.conns → t._editedConn_id = s._editedConn_id →
      t.undoStack = s.undoStack →
      t = { s with selectionRectVisible := false, markingSelectionBox := false,
                   overrideCursor := t.overrideCursor, calls := t.calls } →
      ∀ r : Bool × Editor,
      r = (match getEditedConn t with
        | some editedConn =>
          if !mouseEvt.buttons.left then (true, makeConnection sc (some editedConn) t)
          else (false, t)
        | none => (false, t)) →
      s.releaseFrame r.2 ∧ r.2.selectionRectVisible = false ∧
      r.2.markingSelectionBox = false ∧
      (r.2.undoStack = s.undoStack ∨
        ∃ id, r.2.undoStack = s.undoStack ++ [.AddItemsCommand [.connection id]]) ∧
      (getEditedConn s = none →
        r.2.undoStack = s.undoStack ∧ r.2.conns = s.conns ∧
        r.2._editedConn_id = s._editedConn_id ∧ r.1 = false) := by
    intro t hc hi hu ht r hr
    have hg : getEditedConn t = getEditedConn s := getEditedConn_congr hc hi
    have htf : s.releaseFrame t := by
      unfold Editor.releaseFrame
      rw [ht]
    have hv : t.selectionRectVisible = false := by rw [ht]
    have hm : t.markingSelectionBox = false := by rw [ht]
    cases he : getEditedConn t with
    | none =>
      rw [he] at hr
      subst hr
      exact ⟨htf, hv, hm, Or.inl hu, fun _ => ⟨hu, hc, hi, rfl⟩⟩
    | some e =>
      rw [he] at hr
      by_cases hl : mouseEvt.buttons.left = true
      · simp only [hl, Bool.not_true, Bool.false_eq_true, if_false] at hr
        subst hr
        refine ⟨htf, hv, hm, Or.inl hu, fun hn => ?_⟩
        rw [← hg, he] at hn; cases hn
      · simp only [hl, Bool.not_false, if_true] at hr
        subst hr
        obtain ⟨hf, hundo⟩ := makeConnection_frame sc e t
        generalize makeConnection sc (some e) t = m at hf hundo ⊢
        refine ⟨?_, ?_, ?_, ?_, fun hn => ?_⟩
        · unfold Editor.connFrame at hf
          unfold Editor.releaseFrame at htf ⊢
          show m = _
          rw [hf, htf]
        · show m.selectionRectVisible = false
          unfold Editor.connFrame at hf
          rw [hf]; exact hv
        · show m.markingSelectionBox = false
          unfold Editor.connFrame at hf
          rw [hf]; exact hm
        · rcases hundo with h | h
          · exact Or.inl (h.trans hu)
          · exact Or.inr ⟨e.id, by show m.undoStack = _; rw [h, hu]⟩
        · rw [← hg, he] at hn; cases hn
  by_cases hcur : s.overrideCursor = []
  · refine key { s with selectionRectVisible := false, markingSelectionBox := false }
      rfl rfl rfl rfl _ ?_
    simp only [mouseReleaseEvt, ne_eq, hcur, not_true_eq_false, if_false]
  · refine key (setOverrideCursor .ArrowCursor
      { s with selectionRectVisible := false, markingSelectionBox := false })
      rfl rfl rfl rfl _ ?_
    simp only [mouseReleaseEvt, ne_eq, hcur, not_false_eq_true, if_true]

theorem anyMoved_congr {s t : Editor} (h : t.elements = s.elements) (es : List Nat)
    (ps : List QPointF) : anyMoved t es ps = anyMoved s es ps := by
  induction es generalizing ps with
  | nil => simp [anyMoved]
  | cons e es ih =>
    cases ps with
    | nil => simp [anyMoved]
    | cons p ps => simp only [anyMoved, Editor.elementPos, h, ih]

/-- The release block of the filter in dragging mode, left button: one move command for
the whole snapshot when some element moved, nothing otherwise; the mode is left. -/
theorem eventFilter_release_eq (mouseEvt : QGraphicsSceneMouseEvent) (t : Editor)
    (hbutton : mouseEvt.button = .LeftButton) (hdrag : t.draggingElement = true)
    (hlen : t.movedElements.length = t.oldPositions.length)
    (hlive : ∀ e ∈ t.movedElements, (t.elementPos e).isSome) :
    eventFilter_release mouseEvt t = some
      (if t.someElementMoved then
        { t with
          undoStack := t.undoStack ++ [.MoveCommand t.movedElements t.oldPositions]
          calls := t.calls ++ [.push (.MoveCommand t.movedElements t.oldPositions)]
          draggingElement := false
          movedElements := [] }
      else { t with draggingElement := false, movedElements := [] }) := by
  have hspec := anyMoved_spec t t.movedElements t.oldPositions hlen hlive
  simp only [eventFilter_release, hdrag, hbutton, and_self, if_true]
  by_cases hempty : t.movedElements = []
  · have : ¬ t.someElementMoved := by
      simp [Editor.someElementMoved, hempty]
    simp [hempty, this]
  · have hne : (!t.movedElements.isEmpty) = true := by
      cases h : t.movedElements with
      | nil => exact absurd h hempty
      | cons _ _ => rfl
    simp only [hne, if_true, hspec]
    by_cases hm : t.someElementMoved
    · have hd : decide (∃ ep ∈ t.movedElements.zip t.oldPositions,
          t.elementPos ep.1 ≠ some ep.2) = true := decide_eq_true hm
      simp only [hd, if_true, hm, Option.map_some', receiveCommand, Command.redo,
        Editor.record]
    · have hd : decide (∃ ep ∈ t.movedElements.zip t.oldPositions,
          t.elementPos ep.1 ≠ some ep.2) = false := decide_eq_false hm
      simp only [hd, hm, if_false, Option.map_some', Bool.false_eq_true]

/-- The whole filter on a left-button release in dragging mode, Shift not held: it returns a
result, the dragging mode is left, and the undo stack grows by the move command of the
release block (when some element moved) followed by at most the add command of a connection
that was in progress. -/
theorem eventFilter_release_filter (sc : Scene) (mouseEvt : QGraphicsSceneMouseEvent)
    (s : Editor)
    (hshift : mouseEvt.modifiers.shift = false)
    (hbutton : mouseEvt.button = .LeftButton)
    (hdrag : s.draggingElement = true)
    (hlen : s.movedElements.length = s.oldPositions.length)
    (hlive : ∀ e ∈ s.movedElements, (s.elementPos e).isSome) :
    ∃ r rest, eventFilter sc (.mouse .GraphicsSceneMouseRelease mouseEvt) s = some r ∧
      r.editor.draggingElement = false ∧
      (rest = [] ∨ ∃ id, rest = [.AddItemsCommand [.connection id]]) ∧
      (getEditedConn s = none → rest = []) ∧
      (s.someElementMoved →
        r.editor.undoStack
          = s.undoStack ++ [.MoveCommand s.movedElements s.oldPositions] ++ rest) ∧
      (¬ s.someElementMoved → r.editor.undoStack = s.undoStack ++ rest) := by
  obtain ⟨hf, -⟩ := eventFilter_track_frame sc mouseEvt s
  unfold Editor.trackFrame at hf
  generalize ht : eventFilter_track sc mouseEvt s = t at hf
  have hdrag1 : t.draggingElement = true := by rw [hf]; exact hdrag
  have hme : t.movedElements = s.movedElements := by rw [hf]
  have hop : t.oldPositions = s.oldPositions := by rw [hf]
  have hel : t.elements = s.elements := by rw [hf]
  have hun : t.undoStack = s.undoStack := by rw [hf]
  have hco : t.conns = s.conns := by rw [hf]
  have hid : t._editedConn_id = s._editedConn_id := by rw [hf]
  have hlen1 : t.movedElements.length = t.oldPositions.length := by rw [hme, hop]; exact hlen
  have hlive1 : ∀ e ∈ t.movedElements, (t.elementPos e).isSome := by
    intro e he
    rw [hme] at he
    simpa [Editor.elementPos, hel] using hlive e he
  have hmoved : t.someElementMoved ↔ s.someElementMoved := by
    simp only [Editor.someElementMoved, Editor.elementPos, hme, hop, hel]
  have hrel := eventFilter_release_eq mouseEvt t hbutton hdrag1 hlen1 hlive1
  generalize hr1 : (if t.someElementMoved then
        ({ t with
          undoStack := t.undoStack ++ [.MoveCommand t.movedElements t.oldPositions]
          calls := t.calls ++ [.push (.MoveCommand t.movedElements t.oldPositions)]
          draggingElement := false
          movedElements := [] } : Editor)
      else { t with draggingElement := false, movedElements := [] }) = r1 at hrel
  have hr1d : r1.draggingElement = false := by
    rw [← hr1]; split_ifs <;> rfl
  have hr1c : r1.conns = s.conns := by
    rw [← hr1]; split_ifs <;> exact hco
  have hr1i : r1._editedConn_id = s._editedConn_id := by
    rw [← hr1]; split_ifs <;> exact hid
  have hr1u : r1.undoStack = if s.someElementMoved
      then s.undoStack ++ [.MoveCommand s.movedElements s.oldPositions] else s.undoStack := by
    rw [← hr1]
    by_cases hm : s.someElementMoved
    · simp only [hmoved.2 hm, hm, if_true, hun, hme, hop]
    · have : ¬ t.someElementMoved := fun h => hm (hmoved.1 h)
      simp only [this, hm, if_false, hun]
  obtain ⟨hfr, -, -, hundo, hnone⟩ := mouseReleaseEvt_frame sc mouseEvt r1
  have hev : eventFilter sc (.mouse .GraphicsSceneMouseRelease mouseEvt) s
      = some ⟨(mouseReleaseEvt sc (some mouseEvt) r1).1,
          .mouse .GraphicsSceneMouseRelease mouseEvt,
          (mouseReleaseEvt sc (some mouseEvt) r1).2⟩ := by
    simp [eventFilter, ht, hshift, hrel]
  generalize (mouseReleaseEvt sc (some mouseEvt) r1) = res at hfr hundo hnone hev
  have hfd : res.2.draggingElement = false := by
    unfold Editor.releaseFrame at hfr
    rw [hfr]; exact hr1d
  rcases hundo with hu | ⟨id, hu⟩
  · refine ⟨_, [], hev, hfd, Or.inl rfl, fun _ => rfl, ?_, ?_⟩
    · intro hm
      simp only [hu, hr1u, hm, if_true, List.append_nil]
    · intro hm
      simp only [hu, hr1u, hm, if_false, List.append_nil]
  · have hedit : getEditedConn s ≠ none := by
      intro hn
      have hn1 : getEditedConn r1 = none := by
        rw [getEditedConn_congr hr1c hr1i]; exact hn
      have := (hnone hn1).1
      rw [hu] at this
      simpa using congrArg List.length this
    refine ⟨_, [.AddItemsCommand [.connection id]], hev, hfd, Or.inr ⟨id, rfl⟩,
      fun hn => absurd hn hedit, ?_, ?_⟩
    · intro hm
      simp only [hu, hr1u, hm, if_true]
    · intro hm
      simp only [hu, hr1u, hm, if_false]

/-- C8: a left-button release handled by the release block of `eventFilter` while the
editor is in dragging mode, with a drag snapshot whose two lists have the same length and
whose elements are in the scene. (1) The block yields a result in which the dragging mode
is left. (2) If at least one snapshotted element is away from its pre-drag position, the
block pushes exactly one move command, carrying the whole list of dragged elements and the
whole list of original positions. (3) If none is, the block pushes no command. (4) The
block is what the filter runs on such a release when Shift is not held: the filter then
returns a result with the dragging mode left, and its undo stack is that of the block
followed by at most the add command of a connection that was in progress, and by nothing
when no connection was in progress. -/
theorem eventFilter_release_drag (mouseEvt : QGraphicsSceneMouseEvent) (s : Editor)
    (hbutton : mouseEvt.button = .LeftButton)
    (hdrag : s.draggingElement = true)
    (hlen : s.movedElements.length = s.oldPositions.length)
    (hlive : ∀ e ∈ s.movedElements, (s.elementPos e).isSome) :
    ∃ s1, eventFilter_release mouseEvt s = some s1 ∧
      s1.draggingElement = false ∧
      (s.someElementMoved →
        s1.undoStack = s.undoStack ++ [.MoveCommand s.movedElements s.oldPositions] ∧
        s1.calls = s.calls ++ [.push (.MoveCommand s.movedElements s.oldPositions)]) ∧
      (¬ s.someElementMoved → s1.undoStack = s.undoStack ∧ s1.calls = s.calls) ∧
      ∀ sc : Scene, mouseEvt.modifiers.shift = false →
        ∃ r rest, eventFilter sc (.mouse .GraphicsSceneMouseRelease mouseEvt) s = some r ∧
          r.editor.draggingElement = false ∧
          r.editor.undoStack = s1.undoStack ++ rest ∧
          (rest = [] ∨ ∃ id, rest = [.AddItemsCommand [.connection id]]) ∧
          (getEditedConn s = none → rest = []) := by
  have hblock := eventFilter_release_eq mouseEvt s hbutton hdrag hlen hlive
  by_cases hm : s.someElementMoved
  · simp only [hm, if_true] at hblock
    refine ⟨_, hblock, rfl, fun _ => ⟨rfl, rfl⟩, fun h => absurd hm h, ?_⟩
    intro sc hshift
    obtain ⟨r, rest, hr, hd, hrest, hnone, hmv, -⟩ :=
      eventFilter_release_filter sc mouseEvt s hshift hbutton hdrag hlen hlive
    exact ⟨r, rest, hr, hd, hmv hm, hrest, hnone⟩
  · simp only [hm, if_false] at hblock
    refine ⟨_, hblock, rfl, fun h => absurd h hm, fun _ => ⟨rfl, rfl⟩, ?_⟩
    intro sc hshift
    obtain ⟨r, rest, hr, hd, hrest, hnone, -, hnm⟩ :=
      eventFilter_release_filter sc mouseEvt s hshift hbutton hdrag hlen hlive
    exact ⟨r, rest, hr, hd, hnm hm, hrest, hnone⟩

/-- Witness for C8: elements 1 and 2 were dragged and element 2 moved; the release block
pushes one move command with both elements and both original positions, and the dragging
mode is left. -/
theorem eventFilter_release_drag_witness :
    ∃ s1, eventFilter_release { scenePos := ⟨130, 20⟩, button := .LeftButton } circuitDragged
        = some s1 ∧
      s1.draggingElement = false ∧
      s1.undoStack = [.MoveCommand [1, 2] [⟨0, 0⟩, ⟨100, 0⟩]] := by
  obtain ⟨s1, h1, h2, h3, -, -⟩ := eventFilter_release_drag
    { scenePos := ⟨130, 20⟩, button := .LeftButton } circuitDragged rfl rfl rfl (by decide)
  exact ⟨s1, h1, h2, (h3 (by decide)).1⟩

/-! ## Marquee selection -/

/-- The rectangle `QRectF( a, b ).normalized( )` is the rectangle spanned by `a` and `b`. -/
theorem normalized_ofPoints (a b : QPointF) :
    (QRectF.ofPoints a b).normalized = spannedRect a b := by
  unfold QRectF.normalized QRectF.ofPoints spannedRect
  simp only []
  have hx : b.x - a.x < 0 ∨ 0 ≤ b.x - a.x := by omega
  have hy : b.y - a.y < 0 ∨ 0 ≤ b.y - a.y := by omega
  rcases hx with hx | hx <;> rcases hy with hy | hy
  · simp only [hx, hy, if_true, abs_of_neg hx, abs_of_neg hy, QRectF.mk.injEq]
    refine ⟨?_, ?_, trivial, trivial⟩ <;> omega
  · have hy2 : ¬ b.y - a.y < 0 := by omega
    simp only [hx, hy2, if_true, if_false, abs_of_neg hx, abs_of_nonneg hy, QRectF.mk.injEq]
    refine ⟨?_, ?_, trivial, trivial⟩ <;> omega
  · have hx2 : ¬ b.x - a.x < 0 := by omega
    simp only [hx2, hy, if_true, if_false, abs_of_nonneg hx, abs_of_neg hy, QRectF.mk.injEq]
    refine ⟨?_, ?_, trivial, trivial⟩ <;> omega
  · have hx2 : ¬ b.x - a.x < 0 := by omega
    have hy2 : ¬ b.y - a.y < 0 := by omega
    simp only [hx2, hy2, if_false, abs_of_nonneg hx, abs_of_nonneg hy, QRectF.mk.injEq]
    refine ⟨?_, ?_, trivial, trivial⟩ <;> omega

/-- One move event in marquee mode, Shift not held and no connection in progress: the
filter hands the rectangle spanned by the anchor and the cursor to the scene, the selection
becomes what the scene reports in that rectangle, and the mode, the anchor, the dragging
flag and the connections stay as they are. -/
theorem eventFilter_move_marquee (sc : Scene) (mouseEvt : QGraphicsSceneMouseEvent)
    (s : Editor)
    (hshift : mouseEvt.modifiers.shift = false)
    (hmark : s.markingSelectionBox = true) (hedit : getEditedConn s = none) :
    ∃ r, eventFilter sc (.mouse .GraphicsSceneMouseMove mouseEvt) s = some r ∧
      r.editor.selectionArea = some (spannedRect s.selectionStartPoint mouseEvt.scenePos) ∧
      r.editor.selectionRect = spannedRect s.selectionStartPoint mouseEvt.scenePos ∧
      r.editor.selected
        = selectableItems (sc.itemsIn (spannedRect s.selectionStartPoint mouseEvt.scenePos)) ∧
      r.editor.calls.getLast?
        = some (.setSelectionArea (spannedRect s.selectionStartPoint mouseEvt.scenePos)) ∧
      r.editor.markingSelectionBox = true ∧
      r.editor.selectionStartPoint = s.selectionStartPoint ∧
      r.editor.draggingElement = s.draggingElement ∧
      getEditedConn r.editor = none := by
  obtain ⟨hf, hpos⟩ := eventFilter_track_frame sc mouseEvt s
  unfold Editor.trackFrame at hf
  generalize ht : eventFilter_track sc mouseEvt s = t at hf hpos
  have hmark1 : t.markingSelectionBox = true := by rw [hf]; exact hmark
  have hst : t.selectionStartPoint = s.selectionStartPoint := by rw [hf]
  have hdr : t.draggingElement = s.draggingElement := by rw [hf]
  have hedit1 : getEditedConn t = none := by
    rw [← hedit]
    exact getEditedConn_congr (by rw [hf]) (by rw [hf])
  refine ⟨⟨false, .mouse .GraphicsSceneMouseMove mouseEvt,
    setSelectionArea sc (spannedRect s.selectionStartPoint mouseEvt.scenePos)
      { t with selectionRect := spannedRect s.selectionStartPoint mouseEvt.scenePos }⟩,
    ?_, rfl, rfl, rfl, ?_, hmark1, hst, hdr, ?_⟩
  · simp [eventFilter, ht, hshift, eventFilter_release, mouseMoveEvt, hedit1, hmark1,
      normalized_ofPoints, hst, hpos]
  · simp [setSelectionArea, Editor.record]
  · rw [← hedit1]
    exact getEditedConn_congr rfl rfl

/-- A release outside dragging mode, Shift not held: the selection rectangle is hidden, the
marquee mode is left, and the selection and the selection area are those of before. -/
theorem eventFilter_release_marquee (sc : Scene) (mouseEvt : QGraphicsSceneMouseEvent)
    (s : Editor)
    (hshift : mouseEvt.modifiers.shift = false) (hdrag : s.draggingElement = false) :
    ∃ r, eventFilter sc (.mouse .GraphicsSceneMouseRelease mouseEvt) s = some r ∧
      r.editor.selectionRectVisible = false ∧ r.editor.markingSelectionBox = false ∧
      r.editor.selected = s.selected ∧ r.editor.selectionArea = s.selectionArea := by
  obtain ⟨hf, -⟩ := eventFilter_track_frame sc mouseEvt s
  unfold Editor.trackFrame at hf
  generalize ht : eventFilter_track sc mouseEvt s = t at hf
  have hdr : t.draggingElement = false := by rw [hf]; exact hdrag
  have hsel : t.selected = s.selected := by rw [hf]
  have hsa : t.selectionArea = s.selectionArea := by rw [hf]
  obtain ⟨hfr, hv, hm, -, -⟩ := mouseReleaseEvt_frame sc mouseEvt t
  refine ⟨⟨(mouseReleaseEvt sc (some mouseEvt) t).1,
    .mouse .GraphicsSceneMouseRelease mouseEvt, (mouseReleaseEvt sc (some mouseEvt) t).2⟩,
    ?_, hv, hm, ?_, ?_⟩
  · simp [eventFilter, ht, hshift, eventFilter_release, hdr]
  · unfold Editor.releaseFrame at hfr
    generalize (mouseReleaseEvt sc (some mouseEvt) t).2 = u at hfr
    show u.selected = _
    rw [hfr]; exact hsel
  · unfold Editor.releaseFrame at hfr
    generalize (mouseReleaseEvt sc (some mouseEvt) t).2 = u at hfr
    show u.selectionArea = _
    rw [hfr]; exact hsa

/-- A run of move events in marquee mode (Shift not held, no connection in progress, not
dragging) that ends with the cursor at `B`: the selection area and the selection are those
of the last move, and a release that follows hides the rectangle, leaves the mode and keeps
the selection. -/
theorem runEvents_marquee (A B : QPointF) (scB : Scene) (eB : QGraphicsSceneMouseEvent)
    (hshiftB : eB.modifiers.shift = false) (hB : eB.scenePos = B)
    (moves : List (Scene × QGraphicsSceneMouseEvent))
    (hshift : ∀ m ∈ moves, m.2.modifiers.shift = false)
    (s : Editor)
    (hmark : s.markingSelectionBox = true) (hA : s.selectionStartPoint = A)
    (hedit : getEditedConn s = none) (hdrag : s.draggingElement = false) :
    ∃ s1,
      runEvents ((moves ++ [(scB, eB)]).map
        (fun m => (m.1, QEvent.mouse .GraphicsSceneMouseMove m.2))) s = some s1 ∧
      s1.selectionArea = some (spannedRect A B) ∧
      s1.calls.getLast? = some (.setSelectionArea (spannedRect A B)) ∧
      s1.selected = selectableItems (scB.itemsIn (spannedRect A B)) ∧
      ∀ (scR : Scene) (eR : QGraphicsSceneMouseEvent), eR.modifiers.shift = false →
        ∃ r, eventFilter scR (.mouse .GraphicsSceneMouseRelease eR) s1 = some r ∧
          r.editor.selectionRectVisible = false ∧ r.editor.markingSelectionBox = false ∧
          r.editor.selected = s1.selected ∧ r.editor.selectionArea = s1.selectionArea := by
  induction moves generalizing s with
  | nil =>
    obtain ⟨r, hr, ha, -, hs, hc, -, -, hd, -⟩ :=
      eventFilter_move_marquee scB eB s hshiftB hmark hedit
    refine ⟨r.editor, ?_, ?_, ?_, ?_, ?_⟩
    · simp [runEvents, hr]
    · rw [ha, hA, hB]
    · rw [hc, hA, hB]
    · rw [hs, hA, hB]
    · intro scR eR hR
      exact eventFilter_release_marquee scR eR r.editor hR (by rw [hd, hdrag])
  | cons m moves ih =>
    obtain ⟨r, hr, -, -, -, -, hm1, hst, hd, he⟩ :=
      eventFilter_move_marquee m.1 m.2 s (hshift m (List.mem_cons_self _ _)) hmark hedit
    obtain ⟨s1, hrun, h⟩ := ih (fun x hx => hshift x (List.mem_cons_of_mem _ hx)) r.editor
      hm1 (by rw [hst, hA]) he (by rw [hd, hdrag])
    refine ⟨s1, ?_, h⟩
    simp only [List.cons_append, List.map_cons, runEvents, hr]
    exact hrun

/-- C10. (1) In marquee mode with no connection in progress, `mouseMoveEvt` hands to the
scene exactly the normalized rectangle spanned by the anchor and the cursor, the selection
becomes what the scene reports in that rectangle, and the mode and the anchor stay: the
outcome of a move depends on the anchor and the cursor only, not on earlier moves or on the
selection before. (2) `mouseReleaseEvt` with no connection in progress hides the rectangle,
leaves the marquee mode and changes neither the selection nor the selection area.
(3) Through the filter: in a marquee gesture anchored at `A`, after any sequence of move
events (Shift not held) that ends with the cursor at `B`, the selection area last handed to
the scene is the rectangle spanned by `A` and `B` and the selection is what the scene
reports in it at the last move; the following release hides the rectangle, leaves the mode
and keeps the selection. -/
theorem marquee_selection (A B : QPointF) (scB : Scene) (eB : QGraphicsSceneMouseEvent)
    (hB : eB.scenePos = B) (moves : List (Scene × QGraphicsSceneMouseEvent))
    (s : Editor)
    (hmark : s.markingSelectionBox = true) (hA : s.selectionStartPoint = A)
    (hedit : getEditedConn s = none) :
    (∀ (sc : Scene) (t : Editor), t.markingSelectionBox = true → getEditedConn t = none →
      (mouseMoveEvt sc t).2.selectionArea
        = some (spannedRect t.selectionStartPoint t.mousePos) ∧
      (mouseMoveEvt sc t).2.calls
        = t.calls ++ [.setSelectionArea (spannedRect t.selectionStartPoint t.mousePos)] ∧
      (mouseMoveEvt sc t).2.selected
        = selectableItems (sc.itemsIn (spannedRect t.selectionStartPoint t.mousePos)) ∧
      (mouseMoveEvt sc t).2.markingSelectionBox = true ∧
      (mouseMoveEvt sc t).2.selectionStartPoint = t.selectionStartPoint ∧
      getEditedConn (mouseMoveEvt sc t).2 = none) ∧
    (∀ (sc : Scene) (e : QGraphicsSceneMouseEvent) (t : Editor),
      (mouseReleaseEvt sc (some e) t).2.selectionRectVisible = false ∧
      (mouseReleaseEvt sc (some e) t).2.markingSelectionBox = false ∧
      (mouseReleaseEvt sc (some e) t).2.selected = t.selected ∧
      (mouseReleaseEvt sc (some e) t).2.selectionArea = t.selectionArea) ∧
    ((∀ m ∈ moves, m.2.modifiers.shift = false) → eB.modifiers.shift = false →
      s.draggingElement = false →
      ∃ s1,
        runEvents ((moves ++ [(scB, eB)]).map
          (fun m => (m.1, QEvent.mouse .GraphicsSceneMouseMove m.2))) s = some s1 ∧
        s1.selectionArea = some (spannedRect A B) ∧
        s1.calls.getLast? = some (.setSelectionArea (spannedRect A B)) ∧
        s1.selected = selectableItems (scB.itemsIn (spannedRect A B)) ∧
        ∀ (scR : Scene) (eR : QGraphicsSceneMouseEvent), eR.modifiers.shift = false →
          ∃ r, eventFilter scR (.mouse .GraphicsSceneMouseRelease eR) s1 = some r ∧
            r.editor.selectionRectVisible = false ∧ r.editor.markingSelectionBox = false ∧
            r.editor.selected = s1.selected ∧
            r.editor.selectionArea = s1.selectionArea) := by
  refine ⟨?_, ?_, ?_⟩
  · intro sc t hm he
    simp only [mouseMoveEvt, he, hm, if_true, normalized_ofPoints]
    refine ⟨rfl, rfl, rfl, rfl, rfl, ?_⟩
    rw [← he]
    exact getEditedConn_congr rfl rfl
  · intro sc e t
    obtain ⟨hfr, hv, hm, -, -⟩ := mouseReleaseEvt_frame sc e t
    unfold Editor.releaseFrame at hfr
    generalize (mouseReleaseEvt sc (some e) t).2 = u at hfr hv hm
    refine ⟨hv, hm, ?_, ?_⟩
    · rw [hfr]
    · rw [hfr]
  · intro hshift hshiftB hdrag
    exact runEvents_marquee A B scB eB hshiftB hB moves hshift s hmark hA hedit hdrag

/-- Witness for C10: anchored at (50, 50) with element 3 selected, the cursor sweeps over
(200, 200) and (120, 0) and ends at (0, 0); the selection area is the rectangle from
(0, 0) with width and height 50 and the selection is element 1 alone. -/
theorem marquee_selection_witness :
    ∃ s1,
      runEvents ((marqueeSweep ++ [(sceneTwoElements, marqueeLastMove)]).map
        (fun m => (m.1, QEvent.mouse .GraphicsSceneMouseMove m.2))) circuitMarquee
        = some s1 ∧
      s1.selectionArea = some ⟨0, 0, 50, 50⟩ ∧
      s1.selected = [.element 1] := by
  obtain ⟨s1, h1, h2, -, h4, -⟩ := (marquee_selection ⟨50, 50⟩ ⟨0, 0⟩ sceneTwoElements
    marqueeLastMove rfl marqueeSweep circuitMarquee rfl rfl (by decide)).2.2
    (by decide) rfl rfl
  refine ⟨s1, h1, ?_, ?_⟩
  · rw [h2]; decide
  · rw [h4]; decide

/-! ## Connections of the reachable states -/

/-- C4, counterexample: from the circuit `circuitNoWire`, which has no connection, two
press-move-release gestures wire the output of element 1 and then the output of element 2
to the input of element 3. Both completions succeed (two add commands are pushed), and the
input port ends up carrying two connections. The second completion alone shows the same:
with a wire from the output of element 2 to the input of element 3 in place, completing a
connection anchored at the output of element 1 onto that input leaves it with two
connections. -/
theorem input_port_with_two_connections :
    circuitNoWire.conns = [] ∧
    (∀ e ∈ doubleWireGesture, isGesture e.2 = true) ∧
    (runEvents doubleWireGesture circuitNoWire).map
        (fun s => ((QNEInputPort.mk 3 0).connections s).map
          (fun c => (c.id, c.start, c.end_)))
      = some [(4, some ⟨1, 0⟩, some ⟨3, 0⟩), (5, some ⟨2, 0⟩, some ⟨3, 0⟩)] ∧
    (runEvents doubleWireGesture circuitNoWire).map (fun s => s.undoStack)
      = some [.AddItemsCommand [.connection 4], .AddItemsCommand [.connection 5]] ∧
    ((QNEInputPort.mk 3 0).connections circuitWiredEditing).length = 1 ∧
    ((QNEInputPort.mk 3 0).connections
      (makeConnection (sceneOverPort (.input ⟨3, 0⟩)) (some { id := 5, start := some ⟨1, 0⟩ })
        circuitWiredEditing)).length = 2 := by
  decide

theorem connInv_congr {s t : Editor} (hc : t.conns = s.conns) (hn : t.nextId = s.nextId)
    (h : s.connInv) : t.connInv := by
  unfold Editor.connInv at *
  rw [hc, hn]
  exact h

/-- A connection with a fresh id and a free end keeps the connections consistent. -/
theorem connInv_append {s t : Editor} (c : QNEConnection)
    (hc : t.conns = s.conns ++ [c]) (hn : t.nextId = s.nextId + 1)
    (hid : c.id = s.nextId) (hfree : c.start = none ∨ c.end_ = none)
    (h : s.connInv) : t.connInv := by
  obtain ⟨h1, h2, h3⟩ := h
  refine ⟨?_, ?_, ?_⟩
  · rw [hc, List.map_append, List.nodup_append]
    refine ⟨h1, by simp, ?_⟩
    intro a ha hb
    simp only [List.map_cons, List.map_nil, List.mem_singleton] at hb
    obtain ⟨d, hd, rfl⟩ := List.mem_map.1 ha
    have := h2 d hd
    omega
  · intro d hd
    rw [hc, List.mem_append, List.mem_singleton] at hd
    rw [hn]
    rcases hd with hd | rfl
    · have := h2 d hd; omega
    · omega
  · intro o i
    rw [hc, List.countP_append]
    have : [c].countP (QNEConnection.wires o i) = 0 := by
      rcases hfree with hf | hf <;> simp [List.countP_cons, QNEConnection.wires, hf]
    rw [this]
    exact h3 o i

/-- Removing connections keeps the connections consistent. -/
theorem connInv_filter {s t : Editor} (p : QNEConnection → Bool)
    (hc : t.conns = s.conns.filter p) (hn : t.nextId = s.nextId)
    (h : s.connInv) : t.connInv := by
  obtain ⟨h1, h2, h3⟩ := h
  have hsub : List.Sublist (s.conns.filter p) s.conns := List.filter_sublist _
  refine ⟨?_, ?_, ?_⟩
  · rw [hc]
    exact List.Nodup.sublist (List.Sublist.map _ hsub) h1
  · intro d hd
    rw [hc] at hd
    rw [hn]
    exact h2 d (List.mem_filter.1 hd).1
  · intro o i
    rw [hc]
    exact le_trans (List.Sublist.countP_le _ hsub) (h3 o i)

/-- Rewriting connections without touching ids and bound ports keeps them consistent. -/
theorem connInv_map {s t : Editor} (f : QNEConnection → QNEConnection)
    (hf : ∀ d, (f d).id = d.id ∧ (f d).start = d.start ∧ (f d).end_ = d.end_)
    (hc : t.conns = s.conns.map f) (hn : t.nextId = s.nextId)
    (h : s.connInv) : t.connInv := by
  obtain ⟨h1, h2, h3⟩ := h
  refine ⟨?_, ?_, ?_⟩
  · rw [hc, List.map_map]
    have : ((fun c => c.id) ∘ f) = (fun c : QNEConnection => c.id) := by
      funext d; exact (hf d).1
    rw [this]; exact h1
  · intro d hd
    rw [hc] at hd
    obtain ⟨d0, hd0, rfl⟩ := List.mem_map.1 hd
    rw [hn, (hf d0).1]
    exact h2 d0 hd0
  · intro o i
    rw [hc, List.countP_map]
    have : (QNEConnection.wires o i ∘ f) = QNEConnection.wires o i := by
      funext d
      simp only [Function.comp, QNEConnection.wires, (hf d).2.1, (hf d).2.2]
    rw [this]; exact h3 o i

/-- Binding the connection named `id` to a pair of ports that no connection joins yet keeps
the connections consistent. -/
theorem connInv_complete {s t : Editor} (id : Nat) (o : QNEOutputPort) (i : QNEInputPort)
    (hc : t.conns = s.conns.map (fun d => if d.id = id then (d.setStart o).setEnd i else d))
    (hn : t.nextId = s.nextId) (hfree : o.isConnected i s = false)
    (h : s.connInv) : t.connInv := by
  obtain ⟨h1, h2, h3⟩ := h
  have hnone : ∀ d ∈ s.conns, QNEConnection.wires o i d = false := by
    intro d hd
    simp only [QNEOutputPort.isConnected, QNEOutputPort.connections, List.any_eq_false,
      List.mem_filter, beq_iff_eq, and_imp] at hfree
    cases hw : QNEConnection.wires o i d with
    | false => rfl
    | true =>
      simp only [QNEConnection.wires, Bool.and_eq_true, beq_iff_eq] at hw
      exact absurd hw.2 (hfree d hd hw.1)
  refine ⟨?_, ?_, ?_⟩
  · rw [hc, List.map_map]
    have : ((fun c => c.id) ∘ fun d : QNEConnection =>
        if d.id = id then (d.setStart o).setEnd i else d) = (fun c => c.id) := by
      funext d
      by_cases hd : d.id = id <;>
        simp [Function.comp, hd, QNEConnection.setStart, QNEConnection.setEnd]
    rw [this]; exact h1
  · intro d hd
    rw [hc] at hd
    obtain ⟨d0, hd0, rfl⟩ := List.mem_map.1 hd
    rw [hn]
    have := h2 d0 hd0
    by_cases hid : d0.id = id <;>
      simp [hid, QNEConnection.setStart, QNEConnection.setEnd] <;> omega
  · intro o1 i1
    rw [hc, List.countP_map]
    by_cases hpair : o1 = o ∧ i1 = i
    · obtain ⟨rfl, rfl⟩ := hpair
      have hle : s.conns.countP (QNEConnection.wires o1 i1 ∘ fun d =>
          if d.id = id then (d.setStart o1).setEnd i1 else d)
          ≤ s.conns.countP (fun d => d.id == id) := by
        apply List.countP_mono_left
        intro d hd hw
        by_cases hid : d.id = id
        · simp [hid]
        · simp only [Function.comp, hid, if_false] at hw
          rw [hnone d hd] at hw
          cases hw
      refine le_trans hle ?_
      have hcount : s.conns.countP (fun d => d.id == id)
          = (s.conns.map (fun c => c.id)).count id := by
        rw [List.count, List.countP_map]
        rfl
      rw [hcount]
      exact List.nodup_iff_count_le_one.1 h1 id
    · refine le_trans ?_ (h3 o1 i1)
      apply List.countP_mono_left
      intro d _ hw
      by_cases hid : d.id = id
      · exfalso
        simp only [Function.comp, hid, if_true, QNEConnection.wires, QNEConnection.setStart,
          QNEConnection.setEnd, Bool.and_eq_true, beq_iff_eq, Option.some.injEq] at hw
        exact hpair ⟨hw.1.symm, hw.2.symm⟩
      · simpa only [Function.comp, hid, if_false] using hw

theorem deleteEditedConn_connInv (s : Editor) (h : s.connInv) : (deleteEditedConn s).connInv := by
  cases he : getEditedConn s with
  | none => rw [deleteEditedConn_none s he]; exact connInv_congr rfl rfl h
  | some e => rw [deleteEditedConn_eq s e he]; exact connInv_filter _ rfl rfl h

theorem startNewConnection_connInv (o : QNEOutputPort) (s : Editor) (h : s.connInv) :
    (startNewConnection o s).connInv :=
  connInv_append (s := s) ((({ id := s.nextId } : QNEConnection).setStart o).setEndPos s.mousePos)
    rfl rfl rfl (Or.inr rfl) h

theorem startNewConnectionIn_connInv (i : QNEInputPort) (s : Editor) (h : s.connInv) :
    (startNewConnectionIn i s).connInv :=
  connInv_append (s := s) ((({ id := s.nextId } : QNEConnection).setEnd i).setStartPos s.mousePos)
    rfl rfl rfl (Or.inl rfl) h

theorem makeConnection_connInv (sc : Scene) (c : QNEConnection) (s : Editor)
    (h : s.connInv) : (makeConnection sc (some c) s).connInv := by
  rcases makeConnection_cases sc c s with hm | hm | ⟨o, i, hfree, hm⟩
  · rw [hm]; exact h
  · rw [hm]; exact deleteEditedConn_connInv s h
  · rw [hm]; exact connInv_complete c.id o i rfl rfl hfree h

theorem detachConnection_connInv (i : QNEInputPort) (s s1 : Editor)
    (hd : detachConnection i s = some s1) (h : s.connInv) : s1.connInv := by
  unfold detachConnection at hd
  cases hl : (i.connections s).getLast? with
  | none => rw [hl] at hd; cases hd
  | some c =>
    rw [hl] at hd
    cases hs : c.start with
    | none =>
      simp only [hs, Option.some.injEq] at hd
      rw [← hd]; exact h
    | some o =>
      simp only [hs, Option.some.injEq] at hd
      rw [← hd]
      apply startNewConnection_connInv
      simp only [receiveCommand, redo_delete_connection, Editor.record]
      exact connInv_filter _ rfl rfl h

theorem mousePressEvt_connInv (sc : Scene) (mouseEvt : QGraphicsSceneMouseEvent)
    (s : Editor) (r : Bool × Editor) (hr : mousePressEvt sc mouseEvt s = some r)
    (h : s.connInv) : r.2.connInv := by
  unfold mousePressEvt at hr
  simp only [] at hr
  split at hr
  · split at hr
    · cases hr; exact makeConnection_connInv sc _ s h
    · split at hr
      · cases hr; exact startNewConnection_connInv _ s h
      · split_ifs at hr
        · cases hd : detachConnection _ s with
          | none => rw [hd] at hr; cases hr
          | some s1 =>
            rw [hd] at hr
            cases hr
            exact detachConnection_connInv _ s s1 hd h
        · cases hr; exact startNewConnectionIn_connInv _ s h
  · split_ifs at hr
    · cases hr; exact deleteEditedConn_connInv s h
    · cases hr; exact connInv_congr rfl rfl h
    · cases hr; exact h

theorem mouseMoveEvt_connInv (sc : Scene) (s : Editor) (h : s.connInv) :
    (mouseMoveEvt sc s).2.connInv := by
  unfold mouseMoveEvt
  split
  · split_ifs
    · exact connInv_map (fun c => if c.id = _ then c.setEndPos s.mousePos else c)
        (fun d => by
          simp only []
          split_ifs <;> exact ⟨rfl, rfl, rfl⟩) rfl rfl h
    · exact connInv_map (fun c => if c.id = _ then c.setStartPos s.mousePos else c)
        (fun d => by
          simp only []
          split_ifs <;> exact ⟨rfl, rfl, rfl⟩) rfl rfl h
    · exact deleteEditedConn_connInv s h
  · split_ifs
    · exact connInv_congr rfl rfl h
    · exact connInv_congr rfl rfl h

theorem mouseReleaseEvt_connInv (sc : Scene) (mouseEvt : QGraphicsSceneMouseEvent)
    (s : Editor) (h : s.connInv) : (mouseReleaseEvt sc (some mouseEvt) s).2.connInv := by
  have key : ∀ t : Editor, t.connInv →
      (match getEditedConn t with
        | some editedConn =>
          if !mouseEvt.buttons.left then (true, makeConnection sc (some editedConn) t)
          else (false, t)
        | none => (false, t)).2.connInv := by
    intro t ht
    split
    · split_ifs
      · exact makeConnection_connInv sc _ t ht
      · exact ht
    · exact ht
  by_cases hcur : s.overrideCursor = []
  · simp only [mouseReleaseEvt, ne_eq, hcur, not_true_eq_false, if_false]
    exact key _ (connInv_congr rfl rfl h)
  · simp only [mouseReleaseEvt, ne_eq, hcur, not_false_eq_true, if_true]
    exact key _ (connInv_congr rfl rfl h)

theorem eventFilter_press_conns (sc : Scene) (mouseEvt : QGraphicsSceneMouseEvent)
    (s : Editor) :
    ∀ u, (eventFilter_press sc mouseEvt s = .inl u ∨ eventFilter_press sc mouseEvt s = .inr u) →
      u.conns = s.conns ∧ u.nextId = s.nextId := by
  intro u hu
  have hctx : ∀ p, (contextMenu sc p s).conns = s.conns ∧
      (contextMenu sc p s).nextId = s.nextId := by
    intro p
    unfold contextMenu
    split
    · split_ifs
      · exact ⟨rfl, rfl⟩
      · simp only [setSelected, clearSelection, Editor.record]
        split_ifs <;> exact ⟨rfl, rfl⟩
      · exact ⟨rfl, rfl⟩
    · exact ⟨rfl, rfl⟩
  unfold eventFilter_press at hu
  split at hu
  · split_ifs at hu
    · rcases hu with hu | hu
      · cases hu
        simp only [ctrlDrag, setSelected, Editor.record]
        split_ifs <;> exact ⟨rfl, rfl⟩
      · cases hu
    · rcases hu with hu | hu
      · cases hu
      · cases hu; exact ⟨rfl, rfl⟩
    · rcases hu with hu | hu
      · cases hu
      · cases hu; exact hctx _
    · rcases hu with hu | hu
      · cases hu
      · cases hu; exact ⟨rfl, rfl⟩
  · split_ifs at hu
    · rcases hu with hu | hu
      · cases hu
      · cases hu; exact hctx _
    · rcases hu with hu | hu
      · cases hu
      · cases hu; exact ⟨rfl, rfl⟩

theorem eventFilter_release_conns (mouseEvt : QGraphicsSceneMouseEvent) (s u : Editor)
    (hu : eventFilter_release mouseEvt s = some u) :
    u.conns = s.conns ∧ u.nextId = s.nextId := by
  unfold eventFilter_release at hu
  split_ifs at hu
  · cases ha : anyMoved s s.movedElements s.oldPositions with
    | none => simp [ha] at hu
    | some b =>
      cases b <;> simp [ha, receiveCommand, Command.redo, Editor.record] at hu <;>
        rw [← hu] <;> exact ⟨rfl, rfl⟩
  · simp at hu
    rw [← hu]; exact ⟨rfl, rfl⟩
  · cases hu; exact ⟨rfl, rfl⟩

/-- One gesture event through the filter keeps the connections consistent. -/
theorem eventFilter_connInv (sc : Scene) (evt : QEvent) (s : Editor) (r : FilterResult)
    (hg : isGesture evt = true) (hr : eventFilter sc evt s = some r) (h : s.connInv) :
    r.editor.connInv := by
  cases evt with
  | mouse type mouseEvt =>
    obtain ⟨hf, -⟩ := eventFilter_track_frame sc mouseEvt s
    unfold Editor.trackFrame at hf
    simp only [eventFilter] at hr
    generalize eventFilter_track sc mouseEvt s = t at hf hr
    have ht : t.connInv := connInv_congr (by rw [hf]) (by rw [hf]) h
    by_cases hshift : mouseEvt.modifiers.shift = true
    · simp only [hshift, if_true, Option.some.injEq] at hr
      rw [← hr]; exact ht
    · simp only [hshift, Bool.false_eq_true, if_false] at hr
      cases type with
      | GraphicsSceneMouseDoubleClick => cases hg
      | GraphicsSceneMousePress =>
        simp only [true_or, if_true, reduceCtorEq, if_false] at hr
        have hp := eventFilter_press_conns sc mouseEvt t
        cases hpr : eventFilter_press sc mouseEvt t with
        | inl u =>
          rw [hpr] at hr
          simp only [Option.some.injEq] at hr
          rw [← hr]
          obtain ⟨h1, h2⟩ := hp u (Or.inl hpr)
          exact connInv_congr h1 h2 ht
        | inr u =>
          rw [hpr] at hr
          obtain ⟨h1, h2⟩ := hp u (Or.inr hpr)
          have hu : u.connInv := connInv_congr h1 h2 ht
          simp only [] at hr
          cases hm : mousePressEvt sc mouseEvt u with
          | none => rw [hm] at hr; cases hr
          | some res =>
            rw [hm] at hr
            simp only [Option.map_some', Option.some.injEq] at hr
            rw [← hr]
            exact mousePressEvt_connInv sc mouseEvt u res hm hu
      | GraphicsSceneMouseMove =>
        simp only [reduceCtorEq, or_self, if_false, Option.some.injEq] at hr
        rw [← hr]
        exact mouseMoveEvt_connInv sc t ht
      | GraphicsSceneMouseRelease =>
        simp only [reduceCtorEq, or_self, if_false, if_true] at hr
        cases hrel : eventFilter_release mouseEvt t with
        | none => rw [hrel] at hr; cases hr
        | some u =>
          rw [hrel] at hr
          obtain ⟨h1, h2⟩ := eventFilter_release_conns mouseEvt t u hrel
          have hu : u.connInv := connInv_congr h1 h2 ht
          simp only [Option.some.injEq] at hr
          rw [← hr]
          exact mouseReleaseEvt_connInv sc mouseEvt u hu
  | dragDrop type dde => cases hg
  | wheel wEvt => cases hg
  | key type keyEvt => cases hg

/-- A run of gesture events keeps the connections consistent. -/
theorem runEvents_connInv (trace : List (Scene × QEvent)) (s0 s : Editor)
    (hg : ∀ e ∈ trace, isGesture e.2 = true) (hrun : runEvents trace s0 = some s)
    (h : s0.connInv) : s.connInv := by
  induction trace generalizing s0 with
  | nil =>
    simp only [runEvents, Option.some.injEq] at hrun
    rw [← hrun]; exact h
  | cons e trace ih =>
    obtain ⟨sc, evt⟩ := e
    simp only [runEvents] at hrun
    cases hr : eventFilter sc evt s0 with
    | none => rw [hr] at hrun; cases hrun
    | some r =>
      rw [hr] at hrun
      exact ih r.editor (fun x hx => hg x (List.mem_cons_of_mem _ hx)) hrun
        (eventFilter_connInv sc evt s0 r (hg (sc, evt) (List.mem_cons_self _ _)) hr h)

/-- C4, amended: in every state reached from a circuit without connections by press, move
and release events, no two connections run from the same output port to the same input
port: each input port carries at most one incoming connection from any one output port. -/
theorem reachable_no_duplicate_wire (trace : List (Scene × QEvent)) (s0 s : Editor)
    (h0 : s0.conns = [])
    (hg : ∀ e ∈ trace, isGesture e.2 = true) (hrun : runEvents trace s0 = some s)
    (o : QNEOutputPort) (i : QNEInputPort) :
    ((i.connections s).filter (fun c => c.start == some o)).length ≤ 1 := by
  have hinv : s0.connInv := by
    unfold Editor.connInv
    rw [h0]
    refine ⟨List.nodup_nil, ?_, ?_⟩
    · intro d hd
      simp at hd
    · intro _ _
      simp
  have h := (runEvents_connInv trace s0 s hg hrun hinv).2.2 o i
  unfold QNEInputPort.connections
  rw [List.filter_filter, ← List.countP_eq_length_filter]
  refine le_trans (le_of_eq ?_) h
  congr 1

/-- Witness for C4 (amended): after the two wiring gestures of `doubleWireGesture` the input
of element 3 carries at most one connection from the output of element 1. -/
theorem reachable_no_duplicate_wire_witness :
    ∃ s, runEvents doubleWireGesture circuitNoWire = some s ∧
      (((QNEInputPort.mk 3 0).connections s).filter
        (fun c => c.start == some (QNEOutputPort.mk 1 0))).length ≤ 1 := by
  cases h : runEvents doubleWireGesture circuitNoWire with
  | none => exact absurd h (by decide)
  | some s =>
    exact ⟨s, rfl, reachable_no_duplicate_wire doubleWireGesture circuitNoWire s rfl
      (by decide) h ⟨1, 0⟩ ⟨3, 0⟩⟩

/-! ## Double click on a connection -/

/-- The first run of a command leaves the undo stack, the record of calls, the cursor
position and the slot as they are. -/
theorem redo_frame (cmd : Command) (s : Editor) :
    (cmd.redo s).undoStack = s.undoStack ∧ (cmd.redo s).calls = s.calls ∧
    (cmd.redo s).mousePos = s.mousePos := by
  cases cmd with
  | AddItemsCommand items => exact ⟨rfl, rfl, rfl⟩
  | DeleteItemsCommand items => exact ⟨rfl, rfl, rfl⟩
  | MoveCommand m o => exact ⟨rfl, rfl, rfl⟩
  | SplitCommand cid point =>
    simp only [Command.redo]
    split
    · split <;> exact ⟨rfl, rfl, rfl⟩
    · exact ⟨rfl, rfl, rfl⟩

theorem receiveCommand_undoStack (cmd : Command) (s : Editor) :
    (receiveCommand cmd s).undoStack = s.undoStack ++ [cmd] ∧
    (receiveCommand cmd s).calls = s.calls ++ [.push cmd] ∧
    (receiveCommand cmd s).mousePos = s.mousePos := by
  unfold receiveCommand
  obtain ⟨h1, h2, h3⟩ := redo_frame cmd ({ s with undoStack := s.undoStack ++ [cmd] }.record
    (.push cmd))
  rw [h1, h2, h3]
  exact ⟨rfl, rfl, rfl⟩

theorem eventFilter_press_frame (sc : Scene) (mouseEvt : QGraphicsSceneMouseEvent)
    (s : Editor) :
    ∀ u, (eventFilter_press sc mouseEvt s = .inl u ∨ eventFilter_press sc mouseEvt s = .inr u) →
      s.pressFrame u := by
  intro u hu
  have hctx : ∀ p, s.pressFrame (contextMenu sc p s) := by
    intro p
    unfold contextMenu
    split
    · split_ifs
      · exact rfl
      · simp only [setSelected, clearSelection, Editor.record]
        split_ifs <;> exact rfl
      · exact rfl
    · exact rfl
  unfold eventFilter_press at hu
  split at hu
  · split_ifs at hu
    · rcases hu with hu | hu
      · cases hu
        simp only [ctrlDrag, setSelected, Editor.record]
        split_ifs <;> exact rfl
      · cases hu
    · rcases hu with hu | hu
      · cases hu
      · cases hu; exact rfl
    · rcases hu with hu | hu
      · cases hu
      · cases hu; exact hctx _
    · rcases hu with hu | hu
      · cases hu
      · cases hu; exact rfl
  · split_ifs at hu
    · rcases hu with hu | hu
      · cases hu
      · cases hu; exact hctx _
    · rcases hu with hu | hu
      · cases hu
      · cases hu; exact rfl

/-- Over an item that is not an element the press block never returns at once. -/
theorem eventFilter_press_inr (sc : Scene) (mouseEvt : QGraphicsSceneMouseEvent) (s : Editor)
    (item : QGraphicsItem) (hq : itemAt sc s.mousePos = some item)
    (hne : item.type ≠ GraphicElement.Type) :
    ∃ u, eventFilter_press sc mouseEvt s = .inr u := by
  unfold eventFilter_press
  rw [hq]
  simp only [hne, and_false, if_false]
  split_ifs <;> exact ⟨_, rfl⟩

/-- C11: a double click whose hit-test result is the connection `id`.
(1) The double-click case of the filter, run with the cursor position stored, consumes the
event; if the connection is fully formed it pushes exactly one split command for that
connection at the click point; if an end is unbound it pushes no command.
(2) Through the whole filter, Shift not held: the event is consumed, and the undo stack
grows by that one split command when the connection is fully formed and stays as it is when
an end is unbound. -/
theorem eventFilter_doubleClick_connection (sc : Scene)
    (mouseEvt : QGraphicsSceneMouseEvent) (id : Nat)
    (hq : itemAt sc mouseEvt.scenePos = some (.connection id)) :
    (∀ (t : Editor) (c : QNEConnection), t.mousePos = mouseEvt.scenePos →
      ElementFactory.getConnectionById t id = some c →
      (eventFilter_doubleClick sc t).1 = true ∧
      (c.start.isSome ∧ c.end_.isSome →
        (eventFilter_doubleClick sc t).2.undoStack
          = t.undoStack ++ [.SplitCommand id mouseEvt.scenePos]) ∧
      (c.start = none ∨ c.end_ = none →
        (eventFilter_doubleClick sc t).2.undoStack = t.undoStack)) ∧
    (∀ (s : Editor) (c : QNEConnection), mouseEvt.modifiers.shift = false →
      ElementFactory.getConnectionById s id = some c →
      ∃ r, eventFilter sc (.mouse .GraphicsSceneMouseDoubleClick mouseEvt) s = some r ∧
        r.ret = true ∧
        (c.start.isSome ∧ c.end_.isSome →
          r.editor.undoStack = s.undoStack ++ [.SplitCommand id mouseEvt.scenePos]) ∧
        (c.start = none ∨ c.end_ = none → r.editor.undoStack = s.undoStack)) := by
  have block : ∀ (t : Editor) (c : QNEConnection), t.mousePos = mouseEvt.scenePos →
      ElementFactory.getConnectionById t id = some c →
      (eventFilter_doubleClick sc t).1 = true ∧
      (c.start.isSome ∧ c.end_.isSome →
        (eventFilter_doubleClick sc t).2.undoStack
          = t.undoStack ++ [.SplitCommand id mouseEvt.scenePos]) ∧
      (c.start = none ∨ c.end_ = none →
        (eventFilter_doubleClick sc t).2.undoStack = t.undoStack) := by
    intro t c hpos hc
    have hq1 : itemAt sc t.mousePos = some (.connection id) := by rw [hpos]; exact hq
    simp only [eventFilter_doubleClick, hq1, hc]
    refine ⟨trivial, ?_, ?_⟩
    · intro hfull
      simp only [hfull, and_self, if_true, Editor.record]
      rw [(receiveCommand_undoStack _ t).1, hpos]
    · intro hopen
      have : ¬ (c.start.isSome = true ∧ c.end_.isSome = true) := by
        rcases hopen with h | h <;> simp [h]
      simp only [this, if_false, Editor.record]
  refine ⟨block, ?_⟩
  intro s c hshift hc
  obtain ⟨hf, hpos⟩ := eventFilter_track_frame sc mouseEvt s
  unfold Editor.trackFrame at hf
  generalize ht : eventFilter_track sc mouseEvt s = t at hf hpos
  have hq1 : itemAt sc t.mousePos = some (.connection id) := by rw [hpos]; exact hq
  obtain ⟨u, hu⟩ := eventFilter_press_inr sc mouseEvt t _ hq1
    (by simp [QGraphicsItem.type, QNEConnection.Type, GraphicElement.Type])
  have hpf := eventFilter_press_frame sc mouseEvt t u (Or.inr hu)
  unfold Editor.pressFrame at hpf
  have hupos : u.mousePos = mouseEvt.scenePos := by rw [hpf]; exact hpos
  have huc : ElementFactory.getConnectionById u id = some c := by
    rw [← hc]
    simp only [ElementFactory.getConnectionById]
    rw [hpf, hf]
  have huu : u.undoStack = s.undoStack := by rw [hpf, hf]
  obtain ⟨b1, b2, b3⟩ := block u c hupos huc
  refine ⟨⟨(eventFilter_doubleClick sc u).1, .mouse .GraphicsSceneMouseDoubleClick mouseEvt,
    (eventFilter_doubleClick sc u).2⟩, ?_, b1, ?_, ?_⟩
  · simp [eventFilter, ht, hshift, hu]
  · intro h; rw [b2 h, huu]
  · intro h; rw [b3 h, huu]

/-- Witness for C11: a double click at (130, 16) on wire 4 of `circuitWired`, which is fully
formed, pushes one split command for it at that point and is consumed. -/
theorem eventFilter_doubleClick_connection_witness :
    ∃ r, eventFilter (sceneOverConnection 4)
        (.mouse .GraphicsSceneMouseDoubleClick { scenePos := ⟨130, 16⟩, button := .LeftButton })
        circuitWired = some r ∧
      r.ret = true ∧
      r.editor.undoStack = [.SplitCommand 4 ⟨130, 16⟩] := by
  obtain ⟨r, h1, h2, h3, -⟩ := (eventFilter_doubleClick_connection (sceneOverConnection 4)
    { scenePos := ⟨130, 16⟩, button := .LeftButton } 4 (by decide)).2 circuitWired
    { id := 4, start := some ⟨2, 0⟩, end_ := some ⟨3, 0⟩ } rfl (by decide)
  exact ⟨r, h1, h2, h3 (by decide)⟩

/-! ## Drops -/

/-- The width offset of `dropEvt`, computed with a division that truncates, shifts the
position exactly as the division that rounds down does: both are positive together, and
equal then. -/
theorem dropEvt_shift (pos : QPointF) (w : Int) :
    (if Int.tdiv (64 - w) 2 > 0 then pos + ⟨Int.tdiv (64 - w) 2, Int.tdiv (64 - w) 2⟩ else pos)
      = if 0 < (64 - w) / 2 then pos + ⟨(64 - w) / 2, (64 - w) / 2⟩ else pos := by
  by_cases h : 0 ≤ 64 - w
  · rw [Int.tdiv_eq_ediv h (by omega)]
  · have h1 : ¬ Int.tdiv (64 - w) 2 > 0 := by
      have : Int.tdiv (64 - w) 2 ≤ 0 := by
        rw [show (64 - w) = -(w - 64) by ring, Int.neg_tdiv]
        have := Int.tdiv_nonneg (show 0 ≤ w - 64 by omega) (show (0 : Int) ≤ 2 by omega)
        omega
      omega
    have h2 : ¬ 0 < (64 - w) / 2 := by omega
    simp only [h1, h2, if_false]

/-- Outcome of the end of the new-element branch of `dropEvt` for a built element `elm`
whose id is fresh. -/
theorem dropEvt_place_eq (pos : QPointF) (elm : GraphicElement) (s : Editor)
    (hfresh : ∀ e ∈ s.elements, e.id ≠ elm.id) :
    dropEvt_place pos elm s = (true,
      { s with
        elements := s.elements ++ [{ elm with
          pos := if 0 < (64 - elm.boundingRect.w) / 2 then
              pos + ⟨(64 - elm.boundingRect.w) / 2, (64 - elm.boundingRect.w) / 2⟩
            else pos
          rotation := droppedRotation elm }]
        selected := [.element elm.id]
        undoStack := s.undoStack ++ [.AddItemsCommand [.element elm.id]]
        calls := s.calls ++ [.push (.AddItemsCommand [.element elm.id]), .clearSelection] }) := by
  have hmap : ∀ (f : GraphicElement → GraphicElement),
      s.elements.map (fun e => if e.id = elm.id then f e else e) = s.elements := by
    intro f
    conv_rhs => rw [← List.map_id s.elements]
    apply List.map_congr_left
    intro e he
    simp [hfresh e he]
  unfold dropEvt_place
  simp only [dropEvt_shift]
  by_cases hrot : elm.rotatable = true ∧ elm.elementType ≠ .NODE
  · simp [hrot, droppedRotation, receiveAddItems, receiveCommand, Command.redo,
      clearSelection, setSelected, Editor.updateElement, Editor.record, ItemWithId.toItem,
      ItemWithId.toElement, ItemWithId.toConnection, hmap]
  · simp [hrot, droppedRotation, receiveAddItems, receiveCommand, Command.redo,
      clearSelection, setSelected, Editor.updateElement, Editor.record, ItemWithId.toItem,
      ItemWithId.toElement, ItemWithId.toConnection, hmap]

/-- C12: a drop of a "new element" payload whose category the factory builds as `tpl` (for
a box, whose file loads), the counter id being fresh. With `built` the element the factory
hands out (for a box, with the loaded ports and bounds), `dropEvt` handles the drop, pushes
exactly one add command holding exactly the new element, adds that one element, of the
category the factory built, to the scene, leaves it selected and nothing else selected, and
places it at the drop point minus the payload offset, shifted on both axes by
`(64 - width) / 2` when that is positive. -/
theorem dropEvt_new_element (sc : Scene) (dde : QGraphicsSceneDragDropEvent) (s : Editor)
    (data : NewElementData) (tpl built : GraphicElement)
    (hdata : dde.mimeData.dnditemdata = some data)
    (hbuild : sc.buildElement data.type = some tpl)
    (hbuilt : (tpl.elementType ≠ .BOX ∧ built = { tpl with id := s.nextId }) ∨
      (tpl.elementType = .BOX ∧ ∃ i o r, sc.loadBox data.label_auxData = .loaded i o r ∧
        built = { tpl with id := s.nextId, inputSize := i, outputSize := o,
                           boundingRect := r }))
    (hfresh : ∀ e ∈ s.elements, e.id ≠ s.nextId) :
    ∃ t, dropEvt sc dde s = (true, t) ∧
      t.undoStack = s.undoStack ++ [.AddItemsCommand [.element s.nextId]] ∧
      t.elements = s.elements ++ [{ built with
        pos := droppedAt dde.scenePos data.offset built.boundingRect.w
        rotation := droppedRotation built }] ∧
      built.id = s.nextId ∧
      built.elementType = tpl.elementType ∧
      t.selected = [.element s.nextId] ∧
      t.conns = s.conns := by
  have hid : built.id = s.nextId := by
    rcases hbuilt with ⟨-, h⟩ | ⟨-, i, o, r, -, h⟩ <;> rw [h]
  have hty : built.elementType = tpl.elementType := by
    rcases hbuilt with ⟨-, h⟩ | ⟨-, i, o, r, -, h⟩ <;> rw [h]
  have hfresh1 : ∀ e ∈ (s.record .accept).elements, e.id ≠ built.id := by
    intro e he
    rw [hid]
    exact hfresh e he
  have hplace := dropEvt_place_eq (dde.scenePos - data.offset) built
    { s.record .accept with nextId := s.nextId + 1 } hfresh1
  have hdrop : dropEvt sc dde s = dropEvt_place (dde.scenePos - data.offset) built
      { s.record .accept with nextId := s.nextId + 1 } := by
    rcases hbuilt with ⟨hnb, h⟩ | ⟨hb, i, o, r, hload, h⟩
    · simp [dropEvt, hdata, ElementFactory.buildElement, hbuild, hnb, h, Editor.record]
    · simp [dropEvt, hdata, ElementFactory.buildElement, hbuild, hb, hload, h, Editor.record]
  rw [hdrop, hplace]
  refine ⟨_, rfl, ?_, ?_, hid, hty, ?_, rfl⟩
  · simp [Editor.record, hid]
  · simp [Editor.record, droppedAt]
  · simp [hid]

/-- Witness for C12: dropping a new element of category 7 (32 wide) at (100, 100), picked
up at offset (32, 32), into `circuitNoWire` adds element 4 at (84, 84), selected alone, with
one add command pushed. -/
theorem dropEvt_new_element_witness :
    ∃ t, dropEvt sceneFactory dropNewElement circuitNoWire = (true, t) ∧
      t.undoStack = [.AddItemsCommand [.element 4]] ∧
      t.elements.map (fun e => (e.id, e.pos)) =
        circuitNoWire.elements.map (fun e => (e.id, e.pos)) ++ [(4, ⟨84, 84⟩)] ∧
      t.selected = [.element 4] := by
  obtain ⟨t, h1, h2, h3, -, -, h4, -⟩ := dropEvt_new_element sceneFactory dropNewElement
    circuitNoWire { offset := ⟨32, 32⟩, type := .other 7 }
    { id := 0, boundingRect := ⟨0, 0, 32, 32⟩, inputSize := 1, elementType := .other 7 }
    { id := 4, boundingRect := ⟨0, 0, 32, 32⟩, inputSize := 1, elementType := .other 7 }
    rfl (by decide) (Or.inl ⟨by decide, by decide⟩) (by decide)
  refine ⟨t, h1, h2, ?_, h4⟩
  rw [h3]
  decide

/-- The loop of the serialized-items branch of `dropEvt`, over built items whose elements have
pairwise different ids, none selected yet: every scene element named by a built element is
moved by the offset, once, and the built elements are appended to the selection in order. -/
theorem dropEvt_moveItem_foldl (offset : QPointF) (items : List ItemWithId) :
    ∀ (u : Editor),
      ((items.filterMap ItemWithId.toElement).map (fun e => e.id)).Nodup →
      (∀ n ∈ items.filterMap ItemWithId.toElement, QGraphicsItem.element n.id ∉ u.selected) →
      items.foldl (dropEvt_moveItem offset) u =
        { u with
          elements := u.elements.map (fun e =>
            if e.id ∈ (items.filterMap ItemWithId.toElement).map (fun e => e.id) then
              { e with pos := e.pos + offset }
            else e)
          selected := u.selected ++
            (items.filterMap ItemWithId.toElement).map (fun e => .element e.id) } := by
  induction items with
  | nil =>
    intro u _ _
    simp
  | cons item rest ih =>
    intro u hnd hsel
    cases item with
    | connection c =>
      have hfm : List.filterMap ItemWithId.toElement (.connection c :: rest)
          = List.filterMap ItemWithId.toElement rest := List.filterMap_cons_none rfl
      rw [hfm] at hnd hsel
      rw [hfm, List.foldl_cons]
      exact ih u hnd hsel
    | element e =>
      have hfm : List.filterMap ItemWithId.toElement (.element e :: rest)
          = e :: List.filterMap ItemWithId.toElement rest := List.filterMap_cons_some rfl
      rw [hfm] at hnd hsel
      rw [hfm]
      generalize List.filterMap ItemWithId.toElement rest = new at hnd hsel ih ⊢
      rw [List.map_cons, List.nodup_cons] at hnd
      have hsele : QGraphicsItem.element e.id ∉ u.selected := hsel e (List.mem_cons_self _ _)
      have hstep : dropEvt_moveItem offset u (.element e) =
          { u with
            elements := u.elements.map (fun x =>
              if x.id = e.id then { x with pos := x.pos + offset } else x)
            selected := u.selected ++ [.element e.id] } := by
        simp [dropEvt_moveItem, setSelected, Editor.updateElement, hsele]
      have hsel1 : ∀ n ∈ new, QGraphicsItem.element n.id ∉
          (dropEvt_moveItem offset u (.element e)).selected := by
        intro n hn
        rw [hstep]
        simp only [List.mem_append, List.mem_singleton, not_or]
        refine ⟨hsel n (List.mem_cons_of_mem _ hn), ?_⟩
        intro heq
        injection heq with heq
        apply hnd.1
        rw [← heq]
        exact List.mem_map_of_mem (fun e => e.id) hn
      rw [List.foldl_cons, ih _ hnd.2 hsel1, hstep]
      simp only [List.map_map, List.map_cons, List.append_assoc, List.singleton_append]
      congr 1
      apply List.map_congr_left
      intro x _
      simp only [Function.comp, List.mem_cons]
      by_cases hx : x.id = e.id
      · simp [hx, hnd.1]
      · simp [hx]

/-- C13, counterexample: the serialized group `clonePayload` (elements 10 and 11 and the wire
12 between them) is dropped at (300, 200) into `circuitNoWire`. The drop is handled, the one
add command holds the three items and wire 12 is in the scene, yet only the two elements are
selected: the new connection is not. -/
theorem dropEvt_serialized_connection_not_selected :
    (dropEvt sceneBackground dropClone circuitNoWire).1 = true ∧
    (dropEvt sceneBackground dropClone circuitNoWire).2.undoStack
      = [.AddItemsCommand [.element 10, .element 11, .connection 12]] ∧
    (dropEvt sceneBackground dropClone circuitNoWire).2.conns.map (fun c => c.id) = [12] ∧
    (dropEvt sceneBackground dropClone circuitNoWire).2.selected = [.element 10, .element 11] ∧
    QGraphicsItem.connection 12 ∉ (dropEvt sceneBackground dropClone circuitNoWire).2.selected := by
  decide

/-- C13, amended: a drop at point `D` of a "serialized items" payload (and no "new element"
payload) with recorded point `P`, whose deserialized elements have pairwise different ids
that no scene element carries. `dropEvt` handles the drop, pushes exactly one add command
holding all deserialized items, adds the deserialized elements, each translated by `D - P`,
and the deserialized connections to the scene, and leaves exactly the deserialized elements
selected: the deserialized connections are not selected. -/
theorem dropEvt_serialized_items (sc : Scene) (dde : QGraphicsSceneDragDropEvent) (s : Editor)
    (data : CtrlDragData)
    (hnone : dde.mimeData.dnditemdata = none)
    (hdata : dde.mimeData.ctrlDragData = some data)
    (hnodup : ((data.itemList.filterMap ItemWithId.toElement).map (fun e => e.id)).Nodup)
    (hfresh : ∀ e ∈ s.elements, ∀ n ∈ data.itemList.filterMap ItemWithId.toElement,
      e.id ≠ n.id) :
    ∃ t, dropEvt sc dde s = (true, t) ∧
      t.undoStack = s.undoStack ++ [.AddItemsCommand (data.itemList.map ItemWithId.toItem)] ∧
      t.elements = s.elements ++ (data.itemList.filterMap ItemWithId.toElement).map
        (fun e => { e with pos := e.pos + (dde.scenePos - data.offset) }) ∧
      t.conns = s.conns ++ data.itemList.filterMap ItemWithId.toConnection ∧
      t.selected = (data.itemList.filterMap ItemWithId.toElement).map
        (fun e => .element e.id) ∧
      (∀ c ∈ data.itemList.filterMap ItemWithId.toConnection,
        QGraphicsItem.connection c.id ∉ t.selected) := by
  have hfold := dropEvt_moveItem_foldl (dde.scenePos - data.offset) data.itemList
    (clearSelection (receiveAddItems data.itemList
      { s.record .accept with
        nextId := (data.itemList.map ItemWithId.id).foldl (fun n id => max n (id + 1))
          s.nextId }))
    hnodup (by intro n _; simp [clearSelection, Editor.record])
  have hdrop : dropEvt sc dde s = (true, resizeScene (data.itemList.foldl
      (dropEvt_moveItem (dde.scenePos - data.offset))
      (clearSelection (receiveAddItems data.itemList
        { s.record .accept with
          nextId := (data.itemList.map ItemWithId.id).foldl (fun n id => max n (id + 1))
            s.nextId })))) := by
    simp [dropEvt, hnone, hdata, Editor.record]
  rw [hdrop, hfold]
  have hsel : ∀ (u : Editor), (resizeScene u).selected = u.selected ∧
      (resizeScene u).elements = u.elements ∧ (resizeScene u).conns = u.conns ∧
      (resizeScene u).undoStack = u.undoStack := by
    intro u
    unfold resizeScene
    split <;> simp
  refine ⟨_, rfl, ?_, ?_, ?_, ?_, ?_⟩
  · rw [(hsel _).2.2.2]
    simp [clearSelection, receiveAddItems, receiveCommand, Command.redo, Editor.record]
  · rw [(hsel _).2.1]
    simp only [clearSelection, receiveAddItems, receiveCommand, Command.redo, Editor.record,
      List.map_append]
    congr 1
    · conv_rhs => rw [← List.map_id s.elements]
      apply List.map_congr_left
      intro e he
      have : e.id ∉ (data.itemList.filterMap ItemWithId.toElement).map (fun e => e.id) := by
        intro hmem
        obtain ⟨n, hn, hid⟩ := List.mem_map.1 hmem
        exact hfresh e he n hn hid.symm
      simp [this]
    · apply List.map_congr_left
      intro e he
      have : e.id ∈ (data.itemList.filterMap ItemWithId.toElement).map (fun e => e.id) :=
        List.mem_map_of_mem (fun e => e.id) he
      simp [this]
  · rw [(hsel _).2.2.1]
    simp [clearSelection, receiveAddItems, receiveCommand, Command.redo, Editor.record]
  · rw [(hsel _).1]
    simp [clearSelection, receiveAddItems, receiveCommand, Command.redo, Editor.record]
  · intro c _
    rw [(hsel _).1]
    simp [clearSelection, receiveAddItems, receiveCommand, Command.redo, Editor.record]

/-- Witness for C13: `clonePayload`, recorded at (50, 40), is dropped at (300, 200) into
`circuitNoWire`: elements 10 and 11 arrive translated by (250, 160) and are the selection. -/
theorem dropEvt_serialized_items_witness :
    ∃ t, dropEvt sceneBackground dropClone circuitNoWire = (true, t) ∧
      t.undoStack = [.AddItemsCommand [.element 10, .element 11, .connection 12]] ∧
      t.elements.map (fun e => (e.id, e.pos)) =
        circuitNoWire.elements.map (fun e => (e.id, e.pos))
          ++ [(10, ⟨300, 160⟩), (11, ⟨400, 160⟩)] ∧
      t.selected = [.element 10, .element 11] := by
  obtain ⟨t, h1, h2, h3, -, h5, -⟩ := dropEvt_serialized_items sceneBackground dropClone
    circuitNoWire clonePayload rfl rfl (by decide) (by decide)
  refine ⟨t, h1, ?_, ?_, ?_⟩
  · rw [h2]; decide
  · rw [h3]; decide
  · rw [h5]; decide

/-- C14: a drop whose payload is of neither known format, or names an element category the
factory cannot build, or names a box whose file fails to load (the loader returns false or
throws). `dropEvt` returns false, pushes no command, and leaves the elements, the connections
and the selection as they were; an error thrown by the loader is shown as a warning. -/
theorem dropEvt_rejected (sc : Scene) (dde : QGraphicsSceneDragDropEvent) (s : Editor)
    (h : (dde.mimeData.dnditemdata = none ∧ dde.mimeData.ctrlDragData = none) ∨
      (∃ data, dde.mimeData.dnditemdata = some data ∧ sc.buildElement data.type = none) ∨
      (∃ data tpl, dde.mimeData.dnditemdata = some data ∧
        sc.buildElement data.type = some tpl ∧ tpl.elementType = .BOX ∧
        (sc.loadBox data.label_auxData = .failed ∨
          ∃ what, sc.loadBox data.label_auxData = .threw what))) :
    (dropEvt sc dde s).1 = false ∧
    (dropEvt sc dde s).2.undoStack = s.undoStack ∧
    (dropEvt sc dde s).2.elements = s.elements ∧
    (dropEvt sc dde s).2.conns = s.conns ∧
    (dropEvt sc dde s).2.selected = s.selected ∧
    (∀ data tpl what, dde.mimeData.dnditemdata = some data →
      sc.buildElement data.type = some tpl → tpl.elementType = .BOX →
      sc.loadBox data.label_auxData = .threw what →
      (dropEvt sc dde s).2.calls = s.calls ++ [.accept, .warning what]) := by
  have hwarn : ∀ data tpl what, dde.mimeData.dnditemdata = some data →
      sc.buildElement data.type = some tpl → tpl.elementType = .BOX →
      sc.loadBox data.label_auxData = .threw what →
      (dropEvt sc dde s).2.calls = s.calls ++ [.accept, .warning what] := by
    intro data tpl what h1 h2 h3 h4
    simp [dropEvt, h1, h2, h3, h4, ElementFactory.buildElement, Editor.record]
  refine ⟨?_, ?_, ?_, ?_, ?_, hwarn⟩ <;>
  · rcases h with ⟨h1, h2⟩ | ⟨data, h1, h2⟩ | ⟨data, tpl, h1, h2, h3, h4 | ⟨what, h4⟩⟩
    · simp [dropEvt, h1, h2]
    · simp [dropEvt, h1, h2, ElementFactory.buildElement, Editor.record]
    · simp [dropEvt, h1, h2, h3, h4, ElementFactory.buildElement, Editor.record]
    · simp [dropEvt, h1, h2, h3, h4, ElementFactory.buildElement, Editor.record]

/-- Witness for C14: a box whose file the box manager throws on is dropped into
`circuitNoWire`: the drop is not handled and the circuit keeps its elements, with nothing
pushed, and the error is shown. -/
theorem dropEvt_rejected_witness :
    (dropEvt sceneFactory dropBrokenBox circuitNoWire).1 = false ∧
    (dropEvt sceneFactory dropBrokenBox circuitNoWire).2.undoStack = [] ∧
    (dropEvt sceneFactory dropBrokenBox circuitNoWire).2.elements = circuitNoWire.elements ∧
    (dropEvt sceneFactory dropBrokenBox circuitNoWire).2.calls
      = [.accept, .warning "box not found"] := by
  obtain ⟨h1, h2, h3, -, -, h6⟩ := dropEvt_rejected sceneFactory dropBrokenBox circuitNoWire
    (Or.inr (Or.inr ⟨brokenBoxPayload, { id := 0, elementType := .BOX }, rfl, by decide, rfl,
      Or.inr ⟨"box not found", by decide⟩⟩))
  exact ⟨h1, h2, h3, h6 brokenBoxPayload { id := 0, elementType := .BOX } "box not found" rfl
    (by decide) rfl (by decide)⟩

/-! ## Key triggers -/

/-- A non-empty trigger against the one-key sequence of a key event: the match is exact or
there is none, and it is exact when the trigger is that one key. -/
theorem QKeySequence.matches_ofKey (t : QKeySequence) (key : Nat) (h : t.isEmpty = false) :
    (t.matches (QKeySequence.ofKey key) ≠ .NoMatch ↔
      t.matches (QKeySequence.ofKey key) = .ExactMatch) ∧
    (t.matches (QKeySequence.ofKey key) = .ExactMatch ↔ key ≠ 0 ∧ t.keys = [key]) := by
  obtain ⟨keys⟩ := t
  cases keys with
  | nil => simp [QKeySequence.isEmpty] at h
  | cons k ks =>
    cases ks with
    | nil =>
      by_cases hk : key = 0
      · simp [QKeySequence.matches, QKeySequence.ofKey, hk]
      · by_cases hkk : k = key
        · simp [QKeySequence.matches, QKeySequence.ofKey, hk, hkk, keysAgree]
        · simp [QKeySequence.matches, QKeySequence.ofKey, hk, hkk, keysAgree]
    | cons l ls =>
      by_cases hk : key = 0
      · simp [QKeySequence.matches, QKeySequence.ofKey, hk]
      · simp [QKeySequence.matches, QKeySequence.ofKey, hk]

/-- The key-press case of the filter, Control not held, element by element. -/
theorem eventFilter_keyPress_elements (keyEvt : QKeyEvent) (s : Editor)
    (hmod : keyEvt.modifiers.control = false) :
    (eventFilter_keyPress keyEvt s).elements = s.elements.map (fun elm =>
      if elm.triggeredBy keyEvt.key then
        if elm.elementType = .SWITCH then elm.setOn (!elm.getOn) else elm.setOn true
      else elm) := by
  simp only [eventFilter_keyPress, hmod, Bool.not_false, if_true]
  apply List.map_congr_left
  intro elm _
  by_cases hempty : elm.trigger.isEmpty = false
  · obtain ⟨h1, -⟩ := QKeySequence.matches_ofKey elm.trigger keyEvt.key hempty
    by_cases hm : elm.trigger.matches (QKeySequence.ofKey keyEvt.key) = .ExactMatch
    · have hm1 := h1.2 hm
      by_cases hi : elm.isInput = true <;> by_cases ht : elm.hasTrigger = true <;>
        simp [GraphicElement.triggeredBy, hempty, hm, hi, ht]
    · have hm1 : ¬ elm.trigger.matches (QKeySequence.ofKey keyEvt.key) ≠ .NoMatch :=
        fun h => hm (h1.1 h)
      simp only [ne_eq, not_not] at hm1
      simp [GraphicElement.triggeredBy, hempty, hm, hm1]
  · simp [GraphicElement.triggeredBy, hempty]

/-- The key-release case of the filter, Control not held, element by element. -/
theorem eventFilter_keyRelease_elements (keyEvt : QKeyEvent) (s : Editor)
    (hmod : keyEvt.modifiers.control = false) :
    (eventFilter_keyRelease keyEvt s).elements = s.elements.map (fun elm =>
      if elm.triggeredBy keyEvt.key then
        if elm.elementType = .SWITCH then elm else elm.setOn false
      else elm) := by
  simp only [eventFilter_keyRelease, hmod, Bool.not_false, if_true]
  apply List.map_congr_left
  intro elm _
  by_cases hempty : elm.trigger.isEmpty = false
  · by_cases hm : elm.trigger.matches (QKeySequence.ofKey keyEvt.key) = .ExactMatch
    · by_cases hi : elm.isInput = true <;> by_cases ht : elm.hasTrigger = true <;>
        by_cases hs : elm.elementType = .SWITCH <;>
        simp [GraphicElement.triggeredBy, hempty, hm, hi, ht, hs]
    · simp [GraphicElement.triggeredBy, hempty, hm]
  · simp [GraphicElement.triggeredBy, hempty]

/-- A key event writes the elements only. -/
theorem eventFilter_key_frame (sc : Scene) (type : KeyEventType) (keyEvt : QKeyEvent)
    (s : Editor) :
    ∃ t, eventFilter sc (.key type keyEvt) s = some ⟨false, .key type keyEvt, t⟩ ∧
      t = { s with elements := t.elements } := by
  cases type
  · refine ⟨eventFilter_keyPress keyEvt s, rfl, ?_⟩
    unfold eventFilter_keyPress
    split <;> rfl
  · refine ⟨eventFilter_keyRelease keyEvt s, rfl, ?_⟩
    unfold eventFilter_keyRelease
    split <;> rfl

/-- C15: key events and input triggers. For every key event the filter passes the event on
and pushes no command: the undo stack is as before. When Control is not held (in particular
when no modifier is held), with "triggered" meaning an input element whose non-empty trigger
matches the key: on key-down every triggered switch is toggled and every other triggered
input is set active; on key-up every triggered input that is not a switch is deactivated and
a triggered switch is left as it is; every element that is not triggered is unchanged. The
key-down test (any match) and the key-up test (exact match) accept the same elements. -/
theorem eventFilter_key_trigger (sc : Scene) (keyEvt : QKeyEvent) (s : Editor) :
    (∀ type, ∃ t, eventFilter sc (.key type keyEvt) s = some ⟨false, .key type keyEvt, t⟩ ∧
      t.undoStack = s.undoStack ∧ t.conns = s.conns ∧ t.selected = s.selected) ∧
    (keyEvt.modifiers.control = false →
      (∃ down, eventFilter sc (.key .KeyPress keyEvt) s
          = some ⟨false, .key .KeyPress keyEvt, down⟩ ∧
        down.elements = s.elements.map (fun elm =>
          if elm.triggeredBy keyEvt.key then
            if elm.elementType = .SWITCH then elm.setOn (!elm.getOn) else elm.setOn true
          else elm)) ∧
      (∃ up, eventFilter sc (.key .KeyRelease keyEvt) s
          = some ⟨false, .key .KeyRelease keyEvt, up⟩ ∧
        up.elements = s.elements.map (fun elm =>
          if elm.triggeredBy keyEvt.key then
            if elm.elementType = .SWITCH then elm else elm.setOn false
          else elm)) ∧
      (∀ elm : GraphicElement, elm.trigger.isEmpty = false →
        (elm.trigger.matches (QKeySequence.ofKey keyEvt.key) ≠ .NoMatch ↔
          elm.trigger.matches (QKeySequence.ofKey keyEvt.key) = .ExactMatch))) := by
  refine ⟨?_, ?_⟩
  · intro type
    obtain ⟨t, h1, h2⟩ := eventFilter_key_frame sc type keyEvt s
    refine ⟨t, h1, ?_, ?_, ?_⟩ <;> rw [h2]
  · intro hmod
    exact ⟨⟨_, rfl, eventFilter_keyPress_elements keyEvt s hmod⟩,
      ⟨_, rfl, eventFilter_keyRelease_elements keyEvt s hmod⟩,
      fun elm h => (QKeySequence.matches_ofKey elm.trigger keyEvt.key h).1⟩

/-- Witness for C15: key 65 with no modifier on `circuitInputs`. Key-down turns the switch
off and sets the buttons bound to 65 on; key-up leaves the switch on and turns those
buttons off; the button bound to 66 and the output element stay as they are. -/
theorem eventFilter_key_trigger_witness :
    (∃ down, eventFilter sceneBackground (.key .KeyPress { key := 65 }) circuitInputs
        = some ⟨false, .key .KeyPress { key := 65 }, down⟩ ∧
      down.elements.map (fun e => e.getOn) = [false, true, true, true, false]) ∧
    (∃ up, eventFilter sceneBackground (.key .KeyRelease { key := 65 }) circuitInputs
        = some ⟨false, .key .KeyRelease { key := 65 }, up⟩ ∧
      up.elements.map (fun e => e.getOn) = [true, false, false, true, false]) := by
  obtain ⟨⟨down, h1, h2⟩, ⟨up, h3, h4⟩, -⟩ :=
    (eventFilter_key_trigger sceneBackground { key := 65 } circuitInputs).2 rfl
  refine ⟨⟨down, h1, ?_⟩, ⟨up, h3, ?_⟩⟩
  · rw [h2]; decide
  · rw [h4]; decide

/-! ## Hover notifications -/

/-- The port `getHoverPort` resolves, as a function of the elements and the hover
reference. -/
theorem getHoverPort_fst (s : Editor) :
    (getHoverPort s).1 =
      match ElementFactory.getElementById s s._hoverPortElm_id with
      | some hoverElm =>
        if s._hoverPort_nbr < hoverElm.inputSize then
          some (hoverElm.input s._hoverPort_nbr)
        else if s._hoverPort_nbr - hoverElm.inputSize < hoverElm.outputSize then
          some (hoverElm.output (s._hoverPort_nbr - hoverElm.inputSize))
        else none
      | none => none := by
  unfold getHoverPort
  simp only []
  split <;> rename_i h <;> rw [h]

/-- When a port resolves, `getHoverPort` leaves the editor as it is. -/
theorem getHoverPort_some {s : Editor} {p : QNEPort} (h : (getHoverPort s).1 = some p) :
    (getHoverPort s).2 = s := by
  rw [getHoverPort_fst] at h
  unfold getHoverPort
  simp only []
  rw [h]

/-- When no port resolves, `getHoverPort` clears the hover reference. -/
theorem getHoverPort_none {s : Editor} (h : (getHoverPort s).1 = none) :
    (getHoverPort s).2 = { s with _hoverPortElm_id := 0, _hoverPort_nbr := 0 } := by
  rw [getHoverPort_fst] at h
  unfold getHoverPort
  simp only []
  rw [h]
  rfl

/-- The function `releaseHoverPort` in closed form: the hovered port, if one resolves, is
sent a hover-leave and the cursor is reset; the hover reference is cleared either way. -/
theorem releaseHoverPort_eq (s : Editor) :
    releaseHoverPort s =
      match (getHoverPort s).1 with
      | some h =>
        { s with
          _hoverPortElm_id := 0
          _hoverPort_nbr := 0
          overrideCursor := s.overrideCursor ++ [.ArrowCursor]
          calls := s.calls ++ [.hoverLeave h, .setOverrideCursor .ArrowCursor] }
      | none => { s with _hoverPortElm_id := 0, _hoverPort_nbr := 0 } := by
  cases hp : (getHoverPort s).1 with
  | some h =>
    have h2 := getHoverPort_some hp
    have hg : getHoverPort s = (some h, s) := Prod.ext hp h2
    simp [releaseHoverPort, hg, setHoverPort, setOverrideCursor, Editor.record]
  | none =>
    have h2 := getHoverPort_none hp
    have hg : getHoverPort s = (none, { s with _hoverPortElm_id := 0, _hoverPort_nbr := 0 }) :=
      Prod.ext hp h2
    simp [releaseHoverPort, hg]

/-- With no element of id 0 in the scene, a cleared hover reference resolves to no port. -/
theorem getHoverPort_cleared (s : Editor) (hzero : ElementFactory.getElementById s 0 = none)
    (hid : s._hoverPortElm_id = 0) : (getHoverPort s).1 = none := by
  rw [getHoverPort_fst, hid, hzero]

/-- With no element of id 0 in the scene, releasing the hover twice is releasing it once. -/
theorem releaseHoverPort_idem (s : Editor) (hzero : ElementFactory.getElementById s 0 = none) :
    releaseHoverPort (releaseHoverPort s) = releaseHoverPort s := by
  have hf := releaseHoverPort_frame s
  unfold Editor.hoverFrame at hf
  have hid : (releaseHoverPort s)._hoverPortElm_id = 0 ∧
      (releaseHoverPort s)._hoverPort_nbr = 0 := by
    rw [releaseHoverPort_eq]
    cases (getHoverPort s).1 <;> exact ⟨rfl, rfl⟩
  have hz : ElementFactory.getElementById (releaseHoverPort s) 0 = none := by
    rw [← hzero]
    simp only [ElementFactory.getElementById]
    rw [hf]
  have hn := getHoverPort_cleared _ hz hid.1
  generalize releaseHoverPort s = t at hid hn ⊢
  rw [releaseHoverPort_eq, hn]
  simp only []
  obtain ⟨h1, h2⟩ := hid
  cases t
  simp only at h1 h2
  subst h1 h2
  rfl

/-- The call `setHoverPort( port )` for a port sends it a hover-enter and nothing else to a
collaborator; the override cursor is not touched. -/
theorem setHoverPort_some_calls (p : QNEPort) (s : Editor) :
    (setHoverPort (some p) s).calls = s.calls ++ [.hoverEnter p] ∧
    (setHoverPort (some p) s).overrideCursor = s.overrideCursor := by
  have hfold : ∀ (l : List Nat) (f : Editor → Nat → Editor) (u : Editor),
      (∀ v i, (f v i).calls = v.calls ∧ (f v i).overrideCursor = v.overrideCursor) →
      (l.foldl f u).calls = u.calls ∧ (l.foldl f u).overrideCursor = u.overrideCursor := by
    intro l f
    induction l with
    | nil => intro u _; exact ⟨rfl, rfl⟩
    | cons i rest ih =>
      intro u hf
      rw [List.foldl_cons]
      obtain ⟨a, b⟩ := ih (f u i) hf
      rw [a, b]
      exact hf u i
  simp only [setHoverPort]
  cases ElementFactory.getElementById s p.graphicElement with
  | none => exact ⟨rfl, rfl⟩
  | some hoverElm =>
    simp only []
    split_ifs
    · refine hfold _ _ _ ?_
      intro v i
      split_ifs <;> exact ⟨rfl, rfl⟩
    · exact ⟨rfl, rfl⟩

/-- The function `handleHoverPort` in closed form, with no element of id 0 in the scene: over
no port the hover is released; over a port the hover is released, the port becomes the
hovered one, and the forbidden cursor is pushed when the connection in progress has its
start bound and the port is an output. -/
theorem handleHoverPort_eq (sc : Scene) (s : Editor)
    (hzero : ElementFactory.getElementById s 0 = none) :
    handleHoverPort sc s =
      match QGraphicsItem.toPort (itemAt sc s.mousePos) with
      | none => releaseHoverPort s
      | some p =>
        match (getEditedConn s).bind (fun c => c.start) with
        | some _ =>
          if p.isOutput = true then
            setOverrideCursor .ForbiddenCursor (setHoverPort (some p) (releaseHoverPort s))
          else setHoverPort (some p) (releaseHoverPort s)
        | none => setHoverPort (some p) (releaseHoverPort s) := by
  have key : ∀ port : Option QNEPort, ∃ u,
      (if (getHoverPort s).1.isSome ∧ port ≠ (getHoverPort s).1
        then releaseHoverPort (getHoverPort s).2 else (getHoverPort s).2) = u ∧
      releaseHoverPort u = releaseHoverPort s ∧ getEditedConn u = getEditedConn s ∧
      (port = none → u = releaseHoverPort s) := by
    intro port
    refine ⟨_, rfl, ?_⟩
    cases hp : (getHoverPort s).1 with
    | none =>
      have ht : (getHoverPort s).2 = releaseHoverPort s := by
        rw [getHoverPort_none hp, releaseHoverPort_eq, hp]
      simp only [Option.isSome_none, Bool.false_eq_true, false_and, if_false]
      rw [ht]
      refine ⟨releaseHoverPort_idem s hzero, ?_, fun _ => rfl⟩
      have hf := releaseHoverPort_frame s
      unfold Editor.hoverFrame at hf
      apply getEditedConn_congr <;> rw [hf]
    | some h =>
      rw [getHoverPort_some hp]
      by_cases hne : port = some h
      · subst hne
        simp
      · simp only [Option.isSome_some, ne_eq, hne, not_false_eq_true, and_self, if_true]
        refine ⟨releaseHoverPort_idem s hzero, ?_, fun _ => trivial⟩
        have hf := releaseHoverPort_frame s
        unfold Editor.hoverFrame at hf
        apply getEditedConn_congr <;> rw [hf]
  obtain ⟨u, hu, hrel, hconn, hnone⟩ := key (QGraphicsItem.toPort (itemAt sc s.mousePos))
  unfold handleHoverPort
  simp only []
  rw [hu]
  cases hport : QGraphicsItem.toPort (itemAt sc s.mousePos) with
  | none => exact hnone hport
  | some p =>
    simp only []
    have hty : (QGraphicsItem.port p).type = QNEPort.Type := rfl
    rw [if_pos hty, hrel, hconn]
    cases getEditedConn s with
    | none => rfl
    | some c =>
      cases hs : c.start with
      | none => simp [Option.bind, hs]
      | some start =>
        by_cases hout : p.isOutput = true
        · simp [Option.bind, hs, hout, QNEPort.isOutput]
        · simp [Option.bind, hs, hout, QNEPort.isOutput]

/-- C16, counterexample: the hovered port is the output of element 1 and the cursor is over
that same port. `handleHoverPort` still sends it a hover-leave, resets the cursor, and sends
it a hover-enter. -/
theorem handleHoverPort_same_port_notifies :
    (getHoverPort circuitHovering).1 = some (.output ⟨1, 0⟩) ∧
    QGraphicsItem.toPort (itemAt (sceneOverPort (.output ⟨1, 0⟩)) circuitHovering.mousePos)
      = some (.output ⟨1, 0⟩) ∧
    (handleHoverPort (sceneOverPort (.output ⟨1, 0⟩)) circuitHovering).calls
      = [.hoverLeave (.output ⟨1, 0⟩), .setOverrideCursor .ArrowCursor,
         .hoverEnter (.output ⟨1, 0⟩)] := by
  decide

/-- C16, amended: with no element of id 0 in the scene, the hover notifications
`handleHoverPort` sends are a hover-leave to the previously hovered port, if one resolves,
followed by a hover-enter to the port under the cursor, if there is one, whether or not the
two are the same port; and when the cursor is over no port the hover reference is cleared
and resolves to no port. -/
theorem handleHoverPort_notifications (sc : Scene) (s : Editor)
    (hzero : ElementFactory.getElementById s 0 = none) :
    (handleHoverPort sc s).calls.filter Call.isHover
      = s.calls.filter Call.isHover
        ++ ((getHoverPort s).1.map Call.hoverLeave).toList
        ++ ((QGraphicsItem.toPort (itemAt sc s.mousePos)).map Call.hoverEnter).toList ∧
    (QGraphicsItem.toPort (itemAt sc s.mousePos) = none →
      (handleHoverPort sc s)._hoverPortElm_id = 0 ∧
      (handleHoverPort sc s)._hoverPort_nbr = 0 ∧
      (getHoverPort (handleHoverPort sc s)).1 = none) := by
  have hrel : (releaseHoverPort s).calls.filter Call.isHover
      = s.calls.filter Call.isHover ++ ((getHoverPort s).1.map Call.hoverLeave).toList := by
    rw [releaseHoverPort_eq]
    cases (getHoverPort s).1 <;> simp [Call.isHover]
  have hid : (releaseHoverPort s)._hoverPortElm_id = 0 ∧
      (releaseHoverPort s)._hoverPort_nbr = 0 := by
    rw [releaseHoverPort_eq]
    cases (getHoverPort s).1 <;> exact ⟨rfl, rfl⟩
  rw [handleHoverPort_eq sc s hzero]
  cases QGraphicsItem.toPort (itemAt sc s.mousePos) with
  | none =>
    simp only [Option.map_none', Option.toList_none, List.append_nil]
    refine ⟨hrel, fun _ => ⟨hid.1, hid.2, ?_⟩⟩
    apply getHoverPort_cleared _ _ hid.1
    have hf := releaseHoverPort_frame s
    unfold Editor.hoverFrame at hf
    rw [← hzero]
    simp only [ElementFactory.getElementById]
    rw [hf]
  | some p =>
    have hset : (setHoverPort (some p) (releaseHoverPort s)).calls.filter Call.isHover
        = s.calls.filter Call.isHover ++ ((getHoverPort s).1.map Call.hoverLeave).toList
          ++ [.hoverEnter p] := by
      rw [(setHoverPort_some_calls p _).1, List.filter_append, hrel]
      simp [Call.isHover]
    refine ⟨?_, fun h => by cases h⟩
    simp only [Option.map_some', Option.toList_some]
    cases (getEditedConn s).bind (fun c => c.start) with
    | none => exact hset
    | some start =>
      simp only []
      split_ifs
      · simp only [setOverrideCursor, Editor.record, List.filter_append, List.filter_cons,
          Call.isHover, List.filter_nil, List.append_nil]
        simpa [List.filter_append] using hset
      · exact hset

/-- Witness for C16: the hovered port is the output of element 1 and the cursor is over the
output of element 2: a hover-leave goes to the former, then a hover-enter to the latter. -/
theorem handleHoverPort_notifications_witness :
    (handleHoverPort (sceneOverPort (.output ⟨2, 0⟩)) circuitHovering).calls.filter
        Call.isHover
      = [.hoverLeave (.output ⟨1, 0⟩), .hoverEnter (.output ⟨2, 0⟩)] := by
  have h := (handleHoverPort_notifications (sceneOverPort (.output ⟨2, 0⟩)) circuitHovering
    (by decide)).1
  rw [h]
  decide

/-! ## The forbidden cursor -/

/-- With no element of id 0 in the scene: when the connection in progress has no start
bound (it is anchored at an input port), `handleHoverPort` never asks for the forbidden
cursor, whatever is under the cursor. -/
theorem handleHoverPort_no_start (sc : Scene) (s : Editor) (c : QNEConnection)
    (hzero : ElementFactory.getElementById s 0 = none)
    (hc : getEditedConn s = some c) (hs : c.start = none) :
    (handleHoverPort sc s).calls.count (.setOverrideCursor .ForbiddenCursor)
      = s.calls.count (.setOverrideCursor .ForbiddenCursor) := by
  have hrel : (releaseHoverPort s).calls.count (.setOverrideCursor .ForbiddenCursor)
      = s.calls.count (.setOverrideCursor .ForbiddenCursor) := by
    rw [releaseHoverPort_eq]
    cases (getHoverPort s).1 <;> simp
  rw [handleHoverPort_eq sc s hzero]
  cases QGraphicsItem.toPort (itemAt sc s.mousePos) with
  | none => exact hrel
  | some p =>
    simp only [hc, Option.some_bind, hs]
    rw [(setHoverPort_some_calls p _).1, List.count_append, hrel]
    simp

/-- C17, at a failing input: connection 5 of `circuitEditingFromInput` is in progress,
anchored at the input port of element 3, and the cursor is over the input port of element 4,
a port of the same direction. `handleHoverPort` makes that port the hovered one and does not
ask for the forbidden cursor. With the connection anchored at the output of element 1
(`circuitEditing`) and the cursor over the output of element 2, it does. -/
theorem handleHoverPort_input_anchor_no_forbidden_cursor :
    (getEditedConn circuitEditingFromInput).map (fun c => (c.id, c.start, c.end_))
      = some (5, none, some ⟨3, 0⟩) ∧
    QGraphicsItem.toPort (itemAt (sceneOverPort (.input ⟨4, 0⟩))
      circuitEditingFromInput.mousePos) = some (.input ⟨4, 0⟩) ∧
    (getHoverPort (handleHoverPort (sceneOverPort (.input ⟨4, 0⟩))
      circuitEditingFromInput)).1 = some (.input ⟨4, 0⟩) ∧
    (handleHoverPort (sceneOverPort (.input ⟨4, 0⟩)) circuitEditingFromInput).overrideCursor
      = [] ∧
    Call.setOverrideCursor .ForbiddenCursor ∉
      (handleHoverPort (sceneOverPort (.input ⟨4, 0⟩)) circuitEditingFromInput).calls ∧
    (handleHoverPort (sceneOverPort (.output ⟨2, 0⟩)) circuitEditing).overrideCursor
      = [.ForbiddenCursor] := by
  decide

/-! ## The press block: clone drag and drag snapshot -/

/-- C18: a left press with Control held whose hit-test result is the element `id`, which is
already selected.
(1) The press block of the filter, run with the cursor position stored, runs the clone drag
with the current selection and returns at once; beyond the record of that drag the editor is
as before.
(2) Through the whole filter, Shift not held: the event is consumed; the selection, the undo
stack, the elements with their positions, the connections, the dragging flag and the drag
snapshot are as before, and the last collaborator call is the drag carrying the
selection. -/
theorem eventFilter_press_clone (sc : Scene) (mouseEvt : QGraphicsSceneMouseEvent) (id : Nat)
    (hq : itemAt sc mouseEvt.scenePos = some (.element id))
    (hbutton : mouseEvt.button = .LeftButton)
    (hctrl : mouseEvt.modifiers.control = true) :
    (∀ t : Editor, t.mousePos = mouseEvt.scenePos → QGraphicsItem.element id ∈ t.selected →
      eventFilter_press sc mouseEvt t
        = .inl (t.record (.dragExec mouseEvt.scenePos t.selected))) ∧
    (∀ s : Editor, mouseEvt.modifiers.shift = false →
      QGraphicsItem.element id ∈ s.selected →
      ∃ u, eventFilter sc (.mouse .GraphicsSceneMousePress mouseEvt) s
          = some ⟨true, .mouse .GraphicsSceneMousePress mouseEvt, u⟩ ∧
        u.selected = s.selected ∧ u.undoStack = s.undoStack ∧ u.elements = s.elements ∧
        u.conns = s.conns ∧ u.draggingElement = s.draggingElement ∧
        u.movedElements = s.movedElements ∧ u.oldPositions = s.oldPositions ∧
        u.calls.getLast? = some (.dragExec mouseEvt.scenePos s.selected)) := by
  have block : ∀ t : Editor, t.mousePos = mouseEvt.scenePos →
      QGraphicsItem.element id ∈ t.selected →
      eventFilter_press sc mouseEvt t
        = .inl (t.record (.dragExec mouseEvt.scenePos t.selected)) := by
    intro t hpos hsel
    have hq1 : itemAt sc t.mousePos = some (.element id) := by rw [hpos]; exact hq
    have hc : t.selected.contains (QGraphicsItem.element id) = true := by
      simpa using hsel
    have hne : (selectedElements t).isEmpty = false := by
      have : id ∈ selectedElements t := by
        unfold selectedElements
        rw [List.mem_filterMap]
        exact ⟨_, hsel, rfl⟩
      cases hl : selectedElements t with
      | nil => rw [hl] at this; cases this
      | cons a l => rfl
    simp only [eventFilter_press, hq1, hbutton, hctrl, QGraphicsItem.type, and_self, if_true,
      setSelected, hc, ctrlDrag, hne, Bool.not_false]
  refine ⟨block, ?_⟩
  intro s hshift hsel
  obtain ⟨hf, hpos⟩ := eventFilter_track_frame sc mouseEvt s
  unfold Editor.trackFrame at hf
  generalize ht : eventFilter_track sc mouseEvt s = t at hf hpos
  have hsel1 : QGraphicsItem.element id ∈ t.selected := by rw [hf]; exact hsel
  have hb := block t hpos hsel1
  have hts : t.selected = s.selected := by rw [hf]
  refine ⟨t.record (.dragExec mouseEvt.scenePos t.selected), ?_, ?_, ?_, ?_, ?_, ?_, ?_, ?_, ?_⟩
  · simp [eventFilter, ht, hshift, hb]
  · exact hts
  · show t.undoStack = s.undoStack
    rw [hf]
  · show t.elements = s.elements
    rw [hf]
  · show t.conns = s.conns
    rw [hf]
  · show t.draggingElement = s.draggingElement
    rw [hf]
  · show t.movedElements = s.movedElements
    rw [hf]
  · show t.oldPositions = s.oldPositions
    rw [hf]
  · simp [Editor.record, hts]

/-- Witness for C18: elements 1 and 2 of `circuitSelected` are selected; a left press with
Control held on element 1 is consumed, runs the drag with that selection, and leaves the
selection, the undo stack, the elements and the earlier snapshot as they were. -/
theorem eventFilter_press_clone_witness :
    ∃ u, eventFilter (sceneOverElement 1) (.mouse .GraphicsSceneMousePress (ctrlPressAt ⟨10, 10⟩))
        circuitSelected
        = some ⟨true, .mouse .GraphicsSceneMousePress (ctrlPressAt ⟨10, 10⟩), u⟩ ∧
      u.selected = [.element 1, .element 2] ∧ u.undoStack = [] ∧
      u.elements = circuitNoWire.elements ∧ u.draggingElement = false ∧
      u.movedElements = [3] ∧ u.oldPositions = [⟨7, 7⟩] ∧
      u.calls.getLast? = some (.dragExec ⟨10, 10⟩ [.element 1, .element 2]) := by
  obtain ⟨u, h1, h2, h3, h4, -, h6, h7, h8, h9⟩ :=
    (eventFilter_press_clone (sceneOverElement 1) (ctrlPressAt ⟨10, 10⟩) 1 (by decide) rfl rfl).2
      circuitSelected rfl (by decide)
  exact ⟨u, h1, h2, h3, h4, h6, h7, h8, h9⟩

/-- The press block of the filter on a left press over an item that starts no clone drag:
the dragging flag is raised and the snapshot is taken anew. -/
theorem eventFilter_press_eq (sc : Scene) (mouseEvt : QGraphicsSceneMouseEvent) (t : Editor)
    (item : QGraphicsItem) (hq : itemAt sc t.mousePos = some item)
    (hbutton : mouseEvt.button = .LeftButton)
    (hclone : ¬ (mouseEvt.modifiers.control = true ∧ item.type = GraphicElement.Type)) :
    eventFilter_press sc mouseEvt t = .inr
      { t with
        draggingElement := true
        movedElements := (snapshotElements sc t).map (fun e => e.id)
        oldPositions := (snapshotElements sc t).map (fun e => e.pos) } := by
  simp only [eventFilter_press, hq, hbutton, hclone, if_true, if_false, snapshotElements]

/-- Every snapshotted element is a scene element, found under its own id. -/
theorem snapshotElements_pos (sc : Scene) (t : Editor) :
    ∀ e ∈ snapshotElements sc t, t.elementPos e.id = some e.pos := by
  intro e he
  unfold snapshotElements at he
  rw [List.mem_filterMap] at he
  obtain ⟨it, -, hit⟩ := he
  cases hid : it.toElement with
  | none => rw [hid] at hit; cases hit
  | some id =>
    rw [hid] at hit
    simp only at hit
    have heq := List.find?_some hit
    have hid2 : e.id = id := by simpa using heq
    unfold Editor.elementPos
    rw [hid2, hit]
    rfl

/-- Every scene element named by the selection or by an item around the cursor has its id
in the snapshot. -/
theorem snapshotElements_mem (sc : Scene) (t : Editor) (e : GraphicElement)
    (he : e ∈ t.elements)
    (hit : QGraphicsItem.element e.id ∈ t.selected ∨
      QGraphicsItem.element e.id ∈ itemsAt sc t.mousePos) :
    e.id ∈ (snapshotElements sc t).map (fun e => e.id) := by
  have hex : ∃ f, t.elements.find? (fun x => x.id == e.id) = some f := by
    cases hf : t.elements.find? (fun x => x.id == e.id) with
    | some f => exact ⟨f, rfl⟩
    | none =>
      rw [List.find?_eq_none] at hf
      have := hf e he
      simp at this
  obtain ⟨f, hf⟩ := hex
  have hfid : f.id = e.id := by simpa using List.find?_some hf
  rw [List.mem_map]
  refine ⟨f, ?_, hfid⟩
  unfold snapshotElements
  rw [List.mem_filterMap]
  refine ⟨.element e.id, ?_, ?_⟩
  · rw [List.mem_append]; exact hit
  · simp only [QGraphicsItem.toElement]
    exact hf

/-- The handler `mousePressEvt` always returns, and leaves the elements, the selection, the
dragging flag and the drag snapshot as they are. -/
theorem mousePressEvt_snapshot (sc : Scene) (mouseEvt : QGraphicsSceneMouseEvent)
    (s : Editor) :
    ∃ r, mousePressEvt sc mouseEvt s = some r ∧
      r.2.draggingElement = s.draggingElement ∧ r.2.movedElements = s.movedElements ∧
      r.2.oldPositions = s.oldPositions ∧ r.2.elements = s.elements ∧
      r.2.selected = s.selected := by
  have hstart : ∀ (p : QNEOutputPort) (u : Editor),
      (startNewConnection p u).draggingElement = u.draggingElement ∧
      (startNewConnection p u).movedElements = u.movedElements ∧
      (startNewConnection p u).oldPositions = u.oldPositions ∧
      (startNewConnection p u).elements = u.elements ∧
      (startNewConnection p u).selected = u.selected := by
    intro p u
    simp [startNewConnection, ElementFactory.buildConnection, addItem, setEditedConn,
      Editor.record, QNEConnection.setStart, QNEConnection.setEndPos]
  have hother : ∃ r, (if (getEditedConn s).isSome then some (false, deleteEditedConn s)
      else if (itemAt sc s.mousePos).isNone ∧ mouseEvt.button = .LeftButton then
        some (false, startSelectionRect s)
      else some (false, s)) = some r ∧
      r.2.draggingElement = s.draggingElement ∧ r.2.movedElements = s.movedElements ∧
      r.2.oldPositions = s.oldPositions ∧ r.2.elements = s.elements ∧
      r.2.selected = s.selected := by
    cases he : getEditedConn s with
    | some c =>
      refine ⟨(false, deleteEditedConn s), by simp, ?_⟩
      rw [deleteEditedConn_eq s c he]
      exact ⟨rfl, rfl, rfl, rfl, rfl⟩
    | none =>
      simp only [Option.isSome_none, Bool.false_eq_true, if_false]
      split_ifs
      · exact ⟨_, rfl, rfl, rfl, rfl, rfl, rfl⟩
      · exact ⟨_, rfl, rfl, rfl, rfl, rfl, rfl⟩
  unfold mousePressEvt
  simp only []
  cases hit : itemAt sc s.mousePos with
  | none =>
    rw [hit] at hother
    exact hother
  | some item =>
    cases item with
    | port pressedPort =>
      simp only []
      cases he : getEditedConn s with
      | some c =>
        simp only []
        refine ⟨_, rfl, ?_⟩
        have hf := (makeConnection_frame sc c s).1
        unfold Editor.connFrame at hf
        generalize makeConnection sc (some c) s = m at hf
        simp only
        refine ⟨?_, ?_, ?_, ?_, ?_⟩ <;> rw [hf]
      | none =>
        simp only []
        cases pressedPort with
        | output startPort => exact ⟨_, rfl, hstart startPort s⟩
        | input endPort =>
          simp only []
          split_ifs with hlen
          · unfold detachConnection
            cases hl : (endPort.connections s).getLast? with
            | none =>
              rw [List.getLast?_eq_none_iff] at hl
              rw [hl] at hlen
              simp at hlen
            | some c =>
              simp only []
              cases c.start with
              | none => exact ⟨_, rfl, rfl, rfl, rfl, rfl, rfl⟩
              | some startPort =>
                simp only [Option.map_some']
                refine ⟨_, rfl, ?_⟩
                obtain ⟨a, b, c1, d, e⟩ := hstart startPort
                  (receiveCommand (.DeleteItemsCommand [.connection c.id]) s)
                simp only
                rw [a, b, c1, d, e]
                simp [receiveCommand, redo_delete_connection, Editor.record]
          · refine ⟨_, rfl, ?_⟩
            simp [startNewConnectionIn, ElementFactory.buildConnection, addItem, setEditedConn,
              Editor.record, QNEConnection.setEnd, QNEConnection.setStartPos]
    | connection id =>
      rw [hit] at hother
      exact hother
    | element id =>
      rw [hit] at hother
      exact hother
    | other rank =>
      rw [hit] at hother
      exact hother

/-- The snapshot reads the selection, the cursor position and the elements only. -/
theorem snapshotElements_congr (sc : Scene) {s t : Editor} (h1 : t.selected = s.selected)
    (h2 : t.mousePos = s.mousePos) (h3 : t.elements = s.elements) :
    snapshotElements sc t = snapshotElements sc s := by
  unfold snapshotElements
  rw [h1, h2, h3]

/-- C20: a left press whose hit-test result is an item and that starts no clone drag (Control
is not held or the item is not an element).
(1) The press block of the filter, run with the cursor position stored, raises the dragging
flag and takes the snapshot: the list of snapshotted elements and the list of old positions
have the same length, the i-th old position is the position at press time of the i-th
snapshotted element, every scene element of the selection and every scene element among the
items around the cursor is snapshotted, and the outcome is the same whatever snapshot an
earlier gesture left.
(2) Through the whole filter, Shift not held: the filter returns with the dragging flag
raised and that same snapshot, taken from the selection, the elements and the event position
alone. -/
theorem eventFilter_press_snapshot (sc : Scene) (mouseEvt : QGraphicsSceneMouseEvent)
    (item : QGraphicsItem)
    (hq : itemAt sc mouseEvt.scenePos = some item)
    (hbutton : mouseEvt.button = .LeftButton)
    (hclone : ¬ (mouseEvt.modifiers.control = true ∧ item.type = GraphicElement.Type)) :
    (∀ t : Editor, t.mousePos = mouseEvt.scenePos →
      ∃ u, eventFilter_press sc mouseEvt t = .inr u ∧
        u.draggingElement = true ∧
        u.movedElements.length = u.oldPositions.length ∧
        u.oldPositions.map some = u.movedElements.map t.elementPos ∧
        (∀ e ∈ t.elements,
          (QGraphicsItem.element e.id ∈ t.selected ∨
            QGraphicsItem.element e.id ∈ itemsAt sc mouseEvt.scenePos) →
          e.id ∈ u.movedElements) ∧
        (∀ m o, eventFilter_press sc mouseEvt { t with movedElements := m, oldPositions := o }
          = .inr u)) ∧
    (∀ s : Editor, mouseEvt.modifiers.shift = false →
      ∃ r, eventFilter sc (.mouse .GraphicsSceneMousePress mouseEvt) s = some r ∧
        r.editor.draggingElement = true ∧
        r.editor.movedElements.length = r.editor.oldPositions.length ∧
        r.editor.oldPositions.map some = r.editor.movedElements.map s.elementPos ∧
        (∀ e ∈ s.elements,
          (QGraphicsItem.element e.id ∈ s.selected ∨
            QGraphicsItem.element e.id ∈ itemsAt sc mouseEvt.scenePos) →
          e.id ∈ r.editor.movedElements) ∧
        r.editor.movedElements
          = (snapshotElements sc { s with mousePos := mouseEvt.scenePos }).map
              (fun e => e.id) ∧
        r.editor.oldPositions
          = (snapshotElements sc { s with mousePos := mouseEvt.scenePos }).map
              (fun e => e.pos)) := by
  have hmap : ∀ t : Editor, ((snapshotElements sc t).map (fun e => e.pos)).map some
      = ((snapshotElements sc t).map (fun e => e.id)).map t.elementPos := by
    intro t
    rw [List.map_map, List.map_map]
    apply List.map_congr_left
    intro e he
    exact (snapshotElements_pos sc t e he).symm
  have block : ∀ t : Editor, t.mousePos = mouseEvt.scenePos →
      ∃ u, eventFilter_press sc mouseEvt t = .inr u ∧
        u.draggingElement = true ∧
        u.movedElements = (snapshotElements sc t).map (fun e => e.id) ∧
        u.oldPositions = (snapshotElements sc t).map (fun e => e.pos) ∧
        (∀ m o, eventFilter_press sc mouseEvt { t with movedElements := m, oldPositions := o }
          = .inr u) := by
    intro t hpos
    have hq1 : itemAt sc t.mousePos = some item := by rw [hpos]; exact hq
    refine ⟨_, eventFilter_press_eq sc mouseEvt t item hq1 hbutton hclone, rfl, rfl, rfl, ?_⟩
    intro m o
    exact eventFilter_press_eq sc mouseEvt { t with movedElements := m, oldPositions := o }
      item hq1 hbutton hclone
  constructor
  · intro t hpos
    obtain ⟨u, h1, h2, h3, h4, h5⟩ := block t hpos
    refine ⟨u, h1, h2, ?_, ?_, ?_, h5⟩
    · rw [h3, h4, List.length_map, List.length_map]
    · rw [h3, h4]; exact hmap t
    · intro e he hit
      rw [h3]
      rw [← hpos] at hit
      exact snapshotElements_mem sc t e he hit
  · intro s hshift
    obtain ⟨hf, hpos⟩ := eventFilter_track_frame sc mouseEvt s
    unfold Editor.trackFrame at hf
    generalize ht : eventFilter_track sc mouseEvt s = t at hf hpos
    obtain ⟨u, h1, h2, h3, h4, -⟩ := block t hpos
    obtain ⟨r, hr, r1, r2, r3, -, -⟩ := mousePressEvt_snapshot sc mouseEvt u
    have hsel : t.selected = s.selected := by rw [hf]
    have helm : t.elements = s.elements := by rw [hf]
    have hsnap : snapshotElements sc t
        = snapshotElements sc { s with mousePos := mouseEvt.scenePos } :=
      snapshotElements_congr sc hsel hpos helm
    have hpos2 : t.elementPos = s.elementPos := by
      funext id
      unfold Editor.elementPos
      rw [helm]
    refine ⟨⟨r.1, .mouse .GraphicsSceneMousePress mouseEvt, r.2⟩, ?_, ?_, ?_, ?_, ?_, ?_, ?_⟩
    · simp [eventFilter, ht, hshift, h1, hr]
    · show r.2.draggingElement = true
      rw [r1, h2]
    · show r.2.movedElements.length = r.2.oldPositions.length
      rw [r2, r3, h3, h4, List.length_map, List.length_map]
    · show r.2.oldPositions.map some = r.2.movedElements.map s.elementPos
      rw [r2, r3, h3, h4, ← hpos2]
      exact hmap t
    · intro e he hit
      show e.id ∈ r.2.movedElements
      rw [r2, h3]
      rw [← helm] at he
      rw [← hsel, ← hpos] at hit
      exact snapshotElements_mem sc t e he hit
    · show r.2.movedElements = _
      rw [r2, h3, hsnap]
    · show r.2.oldPositions = _
      rw [r3, h4, hsnap]

/-- Witness for C20: elements 1 and 2 of `circuitSelected` are selected and a snapshot of an
earlier gesture is left over; a plain left press on element 3 snapshots elements 1, 2 and 3
with their positions and raises the dragging flag. -/
theorem eventFilter_press_snapshot_witness :
    ∃ r, eventFilter (sceneOverElement 3)
        (.mouse .GraphicsSceneMousePress { scenePos := ⟨210, 10⟩, button := .LeftButton })
        circuitSelected = some r ∧
      r.editor.draggingElement = true ∧
      r.editor.movedElements = [1, 2, 3] ∧
      r.editor.oldPositions = [⟨0, 0⟩, ⟨100, 0⟩, ⟨200, 0⟩] := by
  obtain ⟨r, h1, h2, -, -, -, h6, h7⟩ :=
    (eventFilter_press_snapshot (sceneOverElement 3)
      { scenePos := ⟨210, 10⟩, button := .LeftButton } (.element 3)
      (by decide) rfl (by decide)).2 circuitSelected rfl
  refine ⟨r, h1, h2, ?_, ?_⟩
  · rw [h6]; decide
  · rw [h7]; decide

/-! ## The simulation pause guard -/

/-- The simulation loop makes no suspend or resume call. -/
theorem simulate_pauseCalls (inputs : Nat) (sc : SimulationController) :
    pauseCalls (SimpleWaveform.simulate inputs sc) = pauseCalls sc := by
  unfold SimpleWaveform.simulate
  generalize List.range (2 ^ inputs) = l
  induction l generalizing sc with
  | nil => rfl
  | cons i rest ih =>
    rw [List.foldl_cons, ih]
    simp [pauseCalls, SimulationController.update, SimulationController.updateAll]

/-- The suspend and resume calls of a whole run of `showWaveform` and of a run of `saveToTxt`
that gets to the guard: none when the simulation was not running; one `stop` and one `start`
on the early returns of `showWaveform`; one `stop` and two `start` after the explicit
release, which the destructor repeats. -/
theorem SCStop_scope_calls (elements inputs outputs : Nat) (sc : SimulationController) :
    pauseCalls (SimpleWaveform.showWaveform elements inputs outputs sc)
      = pauseCalls sc ++
        (if sc.running = false then []
         else if elements = 0 ∨ inputs = 0 ∨ outputs = 0 ∨ inputs > 8 then [.stop, .start]
         else [.stop, .start, .start]) ∧
    (¬ (elements = 0 ∨ inputs = 0 ∨ outputs = 0) →
      pauseCalls (SimpleWaveform.saveToTxt elements inputs outputs sc).2
        = pauseCalls sc ++
          (if sc.running = false then [] else [.stop, .start, .start])) := by
  constructor
  · cases hr : sc.running with
    | false =>
      have hstop : SCStop.new sc = ({ restart := false }, sc) := by
        simp [SCStop.new, SimulationController.isRunning, hr]
      simp only [SimpleWaveform.showWaveform, hstop, SCStop.destroy, SCStop.release]
      split_ifs <;> first | contradiction | simp [simulate_pauseCalls]
    | true =>
      have hstop : SCStop.new sc = ({ restart := true }, sc.stop) := by
        simp [SCStop.new, SimulationController.isRunning, hr]
      simp only [SimpleWaveform.showWaveform, hstop, SCStop.destroy, SCStop.release]
      have h1 : pauseCalls sc.stop.start = pauseCalls sc ++ [.stop, .start] := by
        simp [pauseCalls, SimulationController.stop, SimulationController.start]
      have h2 : pauseCalls (SimpleWaveform.simulate inputs sc.stop).start.start
          = pauseCalls sc ++ [.stop, .start, .start] := by
        have := simulate_pauseCalls inputs sc.stop
        simp only [pauseCalls, SimulationController.start, SimulationController.stop,
          List.filter_append] at this ⊢
        rw [this]
        simp
      by_cases he : elements = 0
      · simp [he, h1]
      · by_cases hi : inputs = 0
        · simp [he, hi, h1]
        · by_cases ho : outputs = 0
          · simp [he, hi, ho, h1]
          · by_cases h8 : inputs > 8
            · simp [he, hi, ho, h8, h1]
            · simp [he, hi, ho, h8, h2]
  · intro hne
    cases hr : sc.running with
    | false =>
      have hstop : SCStop.new sc = ({ restart := false }, sc) := by
        simp [SCStop.new, SimulationController.isRunning, hr]
      simp [SimpleWaveform.saveToTxt, hne, hstop, SCStop.destroy, SCStop.release,
        simulate_pauseCalls]
    | true =>
      have hstop : SCStop.new sc = ({ restart := true }, sc.stop) := by
        simp [SCStop.new, SimulationController.isRunning, hr]
      have h2 : pauseCalls (SimpleWaveform.simulate inputs sc.stop).start.start
          = pauseCalls sc ++ [.stop, .start, .start] := by
        have := simulate_pauseCalls inputs sc.stop
        simp only [pauseCalls, SimulationController.start, SimulationController.stop,
          List.filter_append] at this ⊢
        rw [this]
        simp
      simp [SimpleWaveform.saveToTxt, hne, hstop, SCStop.destroy, SCStop.release, h2]

/-- C19, at a failing input: the simulation is running and the circuit has three elements,
one input and one output. `saveToTxt` and `showWaveform` each stop the simulation once and
start it twice: once at the explicit release and once more when the guard is destroyed. On
an early return of `showWaveform` (no element) the calls are paired, and with the simulation
not running neither is made. -/
theorem SCStop_release_then_destructor_starts_twice :
    pauseCalls (SimpleWaveform.saveToTxt 3 1 1 { running := true }).2
      = [.stop, .start, .start] ∧
    pauseCalls (SimpleWaveform.showWaveform 3 1 1 { running := true })
      = [.stop, .start, .start] ∧
    pauseCalls (SimpleWaveform.showWaveform 0 0 0 { running := true }) = [.stop, .start] ∧
    pauseCalls (SimpleWaveform.saveToTxt 3 1 1 { running := false }).2 = [] ∧
    pauseCalls (SimpleWaveform.showWaveform 3 1 1 { running := false }) = [] := by
  decide

/-! ## The tolerance rectangle -/

/-- The rectangle `itemsAt` queries: its left and top edges are 4 before the point, its
right and bottom edges 5 after it, so twice its centre is twice the point plus one. -/
theorem itemsAt_rect (sc : Scene) (pos : QPointF) :
    itemsAt sc pos = sc.itemsIn ⟨pos.x - 4, pos.y - 4, 9, 9⟩ ∧
    pos.x - (pos.x - 4) = 4 ∧ (pos.x - 4 + 9) - pos.x = 5 ∧
    pos.y - (pos.y - 4) = 4 ∧ (pos.y - 4 + 9) - pos.y = 5 ∧
    2 * (pos.x - 4) + 9 = 2 * pos.x + 1 ∧ 2 * (pos.y - 4) + 9 = 2 * pos.y + 1 := by
  refine ⟨?_, by omega, by omega, by omega, by omega, by omega, by omega⟩
  have h : (QRectF.ofSize (pos - ⟨4, 4⟩) 9 9).normalized = ⟨pos.x - 4, pos.y - 4, 9, 9⟩ := by
    simp only [QRectF.normalized, QRectF.ofSize]
    rfl
  simp only [itemsAt, h]

/-- C21, at a failing input: the point is (100, 100). The rectangle `itemsAt` queries is the
square from (96, 96) with side 9: it reaches 4 to the left and above the point and 5 to the
right and below. A port 5 to the right of the point, or 5 below it, is found; a port 5 to
the left, or 5 above, is not. -/
theorem itemsAt_rect_off_centre :
    (QRectF.ofSize ((⟨100, 100⟩ : QPointF) - ⟨4, 4⟩) 9 9).normalized = ⟨96, 96, 9, 9⟩ ∧
    itemsAt (scenePortAt ⟨105, 100⟩) ⟨100, 100⟩ = [.port (.output ⟨1, 0⟩)] ∧
    itemsAt (scenePortAt ⟨95, 100⟩) ⟨100, 100⟩ = [] ∧
    itemsAt (scenePortAt ⟨100, 105⟩) ⟨100, 100⟩ = [.port (.output ⟨1, 0⟩)] ∧
    itemsAt (scenePortAt ⟨100, 95⟩) ⟨100, 100⟩ = [] ∧
    itemAt (scenePortAt ⟨105, 100⟩) ⟨100, 100⟩ = some (.port (.output ⟨1, 0⟩)) ∧
    itemAt (scenePortAt ⟨95, 100⟩) ⟨100, 100⟩ = none := by
  decide

/-! ## The hover reference -/

/-- The index search of `setHoverPort`: when exactly the index `k` of the list is accepted,
the stored index ends as `k`. -/
theorem setHoverPort_foldl (accept : Nat → Bool) (k : Nat) (l : List Nat) :
    ∀ (u : Editor), (∀ i ∈ l, accept i = true ↔ i = k) →
      l.foldl (fun s i => if accept i = true then { s with _hoverPort_nbr := i } else s) u
        = if k ∈ l then { u with _hoverPort_nbr := k } else u := by
  induction l with
  | nil => intro u _; rfl
  | cons i rest ih =>
    intro u h
    rw [List.foldl_cons, ih _ (fun j hj => h j (List.mem_cons_of_mem _ hj))]
    by_cases hik : i = k
    · have ha : accept i = true := (h i (List.mem_cons_self _ _)).2 hik
      subst hik
      simp only [ha, if_true, List.mem_cons, true_or]
      split_ifs <;> rfl
    · have ha : ¬ accept i = true := fun ha => hik ((h i (List.mem_cons_self _ _)).1 ha)
      have hmem : k ∈ i :: rest ↔ k ∈ rest := by
        rw [List.mem_cons]
        constructor
        · rintro (h1 | h1)
          · exact absurd h1.symm hik
          · exact h1
        · exact Or.inr
      have hf : accept i = false := by simpa using ha
      simp only [hf, Bool.false_eq_true, if_false, hmem]

/-- Storing a port of a registered element: the hover-enter is recorded, the element id is
stored, and the stored index is the index `k` of the port among the inputs followed by the
outputs. -/
theorem setHoverPort_registered (s : Editor) (e : GraphicElement) (p : QNEPort) (k : Nat)
    (hreg : ElementFactory.getElementById s e.id = some e)
    (hp : (k < e.inputSize ∧ p = e.input k) ∨
      (e.inputSize ≤ k ∧ k < e.inputSize + e.outputSize ∧ p = e.output (k - e.inputSize))) :
    setHoverPort (some p) s =
      { s with
        _hoverPortElm_id := e.id
        _hoverPort_nbr := k
        calls := s.calls ++ [.hoverEnter p] } := by
  have hge : p.graphicElement = e.id := by
    rcases hp with ⟨-, h⟩ | ⟨-, -, h⟩ <;> rw [h] <;> rfl
  have hmem : e ∈ s.elements := List.mem_of_find?_eq_some hreg
  have hcont : ElementFactory.contains (s.record (.hoverEnter p)) e.id = true := by
    simp only [ElementFactory.contains, Editor.record, Bool.or_eq_true, List.any_eq_true]
    exact Or.inl ⟨e, hmem, by simp⟩
  have hk : k ∈ List.range (e.inputSize + e.outputSize) := by
    rw [List.mem_range]
    rcases hp with ⟨h, -⟩ | ⟨-, h, -⟩ <;> omega
  have hfold := setHoverPort_foldl
    (fun i => if i < e.inputSize then decide (p = e.input i)
      else decide (p = e.output (i - e.inputSize))) k
    (List.range (e.inputSize + e.outputSize))
    { s.record (.hoverEnter p) with _hoverPortElm_id := e.id }
    (by
      intro i _
      rcases hp with ⟨h1, h2⟩ | ⟨h1, h2, h3⟩
      · subst h2
        by_cases hi : i < e.inputSize
        · simp only [hi, if_true, GraphicElement.input, decide_eq_true_eq, QNEPort.input.injEq,
            QNEInputPort.mk.injEq, true_and]
          exact eq_comm
        · simp only [hi, if_false, GraphicElement.input, GraphicElement.output,
            decide_eq_true_eq]
          constructor
          · intro h; cases h
          · intro h; omega
      · subst h3
        by_cases hi : i < e.inputSize
        · simp only [hi, if_true, GraphicElement.input, GraphicElement.output,
            decide_eq_true_eq]
          constructor
          · intro h; cases h
          · intro h; omega
        · simp only [hi, if_false, GraphicElement.output, decide_eq_true_eq,
            QNEPort.output.injEq, QNEOutputPort.mk.injEq, true_and]
          omega)
  rw [if_pos hk] at hfold
  have hset : setHoverPort (some p) s =
      (List.range (e.inputSize + e.outputSize)).foldl
        (fun s i => if (if i < e.inputSize then decide (p = e.input i)
            else decide (p = e.output (i - e.inputSize))) = true
          then { s with _hoverPort_nbr := i } else s)
        { s.record (.hoverEnter p) with _hoverPortElm_id := e.id } := by
    simp only [setHoverPort, hge, hreg, hcont, if_true]
    congr 1
    funext u i
    by_cases hi : i < e.inputSize
    · simp only [hi, if_true, decide_eq_true_eq]
    · simp only [hi, if_false, decide_eq_true_eq]
  rw [hset, hfold]
  rfl

/-- C22: the hover reference.
(1) For every element registered with the factory (the lookup of its id finds it) and every
one of its ports, an input `i` below the input count or an output `j` below the output
count, storing the port with `setHoverPort` and resolving it again with `getHoverPort`
returns that same port and leaves the stored reference as it is.
(2) When the stored element id resolves to no element, or the stored index is out of range
for the element it resolves to, `getHoverPort` returns no port and the stored reference is
reset to empty; nothing else changes. -/
theorem hoverPort_roundtrip (s : Editor) :
    (∀ (e : GraphicElement) (p : QNEPort),
      ElementFactory.getElementById s e.id = some e →
      ((∃ i, i < e.inputSize ∧ p = e.input i) ∨ (∃ j, j < e.outputSize ∧ p = e.output j)) →
      getHoverPort (setHoverPort (some p) s) = (some p, setHoverPort (some p) s)) ∧
    ((ElementFactory.getElementById s s._hoverPortElm_id = none ∨
        ∃ e, ElementFactory.getElementById s s._hoverPortElm_id = some e ∧
          e.inputSize + e.outputSize ≤ s._hoverPort_nbr) →
      getHoverPort s = (none, { s with _hoverPortElm_id := 0, _hoverPort_nbr := 0 })) := by
  constructor
  · intro e p hreg hp
    have key : ∃ k, ((k < e.inputSize ∧ p = e.input k) ∨
        (e.inputSize ≤ k ∧ k < e.inputSize + e.outputSize ∧
          p = e.output (k - e.inputSize))) := by
      rcases hp with ⟨i, hi, h⟩ | ⟨j, hj, h⟩
      · exact ⟨i, Or.inl ⟨hi, h⟩⟩
      · refine ⟨e.inputSize + j, Or.inr ⟨by omega, by omega, ?_⟩⟩
        rw [h, Nat.add_sub_cancel_left]
    obtain ⟨k, hk⟩ := key
    have hset := setHoverPort_registered s e p k hreg hk
    have hfst : (getHoverPort (setHoverPort (some p) s)).1 = some p := by
      rw [getHoverPort_fst, hset]
      have hreg1 : ElementFactory.getElementById
          { s with _hoverPortElm_id := e.id, _hoverPort_nbr := k,
                   calls := s.calls ++ [.hoverEnter p] } e.id = some e := hreg
      simp only [hreg1]
      rcases hk with ⟨h1, h2⟩ | ⟨h1, h2, h3⟩
      · simp only [h1, if_true, h2]
      · have hn : ¬ k < e.inputSize := by omega
        have hl : k - e.inputSize < e.outputSize := by omega
        simp only [hn, if_false, hl, if_true, h3]
    exact Prod.ext hfst (getHoverPort_some hfst)
  · intro h
    have hfst : (getHoverPort s).1 = none := by
      rw [getHoverPort_fst]
      rcases h with h | ⟨e, h1, h2⟩
      · rw [h]
      · rw [h1]
        have hn : ¬ s._hoverPort_nbr < e.inputSize := by omega
        have hl : ¬ s._hoverPort_nbr - e.inputSize < e.outputSize := by omega
        simp only [hn, hl, if_false]
    exact Prod.ext hfst (getHoverPort_none hfst)

/-- Witness for C22: element 7 of `circuitGate` has two inputs and three outputs; its last
output is stored as index 4 and resolves to itself, and a reference to the missing element 9
resolves to no port and is reset. -/
theorem hoverPort_roundtrip_witness :
    (getHoverPort (setHoverPort (some (.output ⟨7, 2⟩)) circuitGate)).1
      = some (.output ⟨7, 2⟩) ∧
    (setHoverPort (some (.output ⟨7, 2⟩)) circuitGate)._hoverPort_nbr = 4 ∧
    getHoverPort { circuitGate with _hoverPortElm_id := 9, _hoverPort_nbr := 1 }
      = (none, circuitGate) := by
  have h1 := (hoverPort_roundtrip circuitGate).1 { id := 7, inputSize := 2, outputSize := 3 }
    (.output ⟨7, 2⟩) (by decide) (Or.inr ⟨2, by decide, rfl⟩)
  have h2 := (hoverPort_roundtrip
    { circuitGate with _hoverPortElm_id := 9, _hoverPort_nbr := 1 }).2 (Or.inl (by decide))
  refine ⟨?_, by decide, ?_⟩
  · rw [h1]
  · rw [h2]
    rfl

/-! ## The guard of the detach -/

/-- C23: detaching and the empty connection list.
(1) `mousePressEvt` always returns: no press reads the last connection of an empty list.
(2) The lookup in `detachConnection` fails exactly when the connection list of the port is
empty.
(3) A press on an input port with an empty connection list, no connection being in
progress, does not call `detachConnection`: it starts a new connection at that port.
(4) A press on an input port with a non-empty list, no connection being in progress,
returns what `detachConnection` returns, which is defined.
(5) When the last connection of the port has no start bound, `detachConnection` leaves the
editor as it is: no command is pushed and no connection is started. -/
theorem mousePressEvt_detach_guard (sc : Scene) (mouseEvt : QGraphicsSceneMouseEvent)
    (s : Editor) :
    (∃ r, mousePressEvt sc mouseEvt s = some r) ∧
    (∀ endPort : QNEInputPort,
      detachConnection endPort s = none ↔ endPort.connections s = []) ∧
    (∀ endPort : QNEInputPort, itemAt sc s.mousePos = some (.port (.input endPort)) →
      getEditedConn s = none → endPort.connections s = [] →
      mousePressEvt sc mouseEvt s = some (true, startNewConnectionIn endPort s)) ∧
    (∀ endPort : QNEInputPort, itemAt sc s.mousePos = some (.port (.input endPort)) →
      getEditedConn s = none → endPort.connections s ≠ [] →
      ∃ t, detachConnection endPort s = some t ∧
        mousePressEvt sc mouseEvt s = some (true, t)) ∧
    (∀ (endPort : QNEInputPort) (c : QNEConnection),
      (endPort.connections s).getLast? = some c → c.start = none →
      detachConnection endPort s = some s) := by
  have hiff : ∀ endPort : QNEInputPort,
      detachConnection endPort s = none ↔ endPort.connections s = [] := by
    intro endPort
    unfold detachConnection
    cases hl : (endPort.connections s).getLast? with
    | none =>
      rw [List.getLast?_eq_none_iff] at hl
      simp [hl]
    | some c =>
      have hne : endPort.connections s ≠ [] := by
        intro h
        rw [h] at hl
        cases hl
      cases hs : c.start <;> simp [hne, hs]
  refine ⟨?_, hiff, ?_, ?_, ?_⟩
  · obtain ⟨r, hr, -⟩ := mousePressEvt_snapshot sc mouseEvt s
    exact ⟨r, hr⟩
  · intro endPort hit hedit hempty
    simp [mousePressEvt, hit, hedit, hempty]
  · intro endPort hit hedit hne
    cases hd : detachConnection endPort s with
    | none => exact absurd ((hiff endPort).1 hd) hne
    | some t =>
      refine ⟨t, rfl, ?_⟩
      have hlen : (endPort.connections s).length > 0 := List.length_pos.2 hne
      simp [mousePressEvt, hit, hedit, hlen, hd]
  · intro endPort c hl hs
    simp [detachConnection, hl, hs]

/-- Witness for C23: a press on the free input of element 3 of `circuitNoWire` starts a
connection there instead of detaching; and in `circuitHalfWire`, where the only connection
at that input has no start, the detach leaves the editor as it is. -/
theorem mousePressEvt_detach_guard_witness :
    mousePressEvt (sceneOverPort (.input ⟨3, 0⟩)) { scenePos := ⟨0, 0⟩, button := .LeftButton }
        circuitNoWire
      = some (true, startNewConnectionIn ⟨3, 0⟩ circuitNoWire) ∧
    detachConnection ⟨3, 0⟩ circuitHalfWire = some circuitHalfWire :=
  ⟨(mousePressEvt_detach_guard (sceneOverPort (.input ⟨3, 0⟩))
      { scenePos := ⟨0, 0⟩, button := .LeftButton } circuitNoWire).2.2.1 ⟨3, 0⟩
      (by decide) (by decide) (by decide),
    (mousePressEvt_detach_guard sceneBackground { scenePos := ⟨0, 0⟩ }
      circuitHalfWire).2.2.2.2 ⟨3, 0⟩ { id := 4, end_ := some ⟨3, 0⟩ } (by decide) rfl⟩

/-! ## Key-down and key-up -/

/-- C24: key-down then key-up of one key, Control held at neither. The match test of the
key-down case (any match) and the one of the key-up case (exact match) accept the same
pairs of a non-empty trigger and a key; and every input element that is not a switch and
that the key-down sets active is set inactive by the key-up: none is left active. -/
theorem eventFilter_key_down_up (sc : Scene) (s : Editor) (down up : QKeyEvent)
    (hkey : up.key = down.key)
    (hd : down.modifiers.control = false) (hu : up.modifiers.control = false) :
    (∀ t : QKeySequence, t.isEmpty = false →
      (t.matches (QKeySequence.ofKey down.key) ≠ .NoMatch ↔
        t.matches (QKeySequence.ofKey up.key) = .ExactMatch)) ∧
    ∃ s1 s2,
      eventFilter sc (.key .KeyPress down) s = some ⟨false, .key .KeyPress down, s1⟩ ∧
      eventFilter sc (.key .KeyRelease up) s1 = some ⟨false, .key .KeyRelease up, s2⟩ ∧
      ∀ (i : Nat) (elm : GraphicElement), s.elements[i]? = some elm →
        elm.elementType ≠ .SWITCH → elm.isInput = true → elm.hasTrigger = true →
        elm.trigger.isEmpty = false →
        elm.trigger.matches (QKeySequence.ofKey down.key) ≠ .NoMatch →
        s1.elements[i]? = some (elm.setOn true) ∧
        s2.elements[i]? = some (elm.setOn false) := by
  constructor
  · intro t ht
    rw [hkey]
    exact (QKeySequence.matches_ofKey t down.key ht).1
  · refine ⟨eventFilter_keyPress down s, eventFilter_keyRelease up (eventFilter_keyPress down s),
      rfl, rfl, ?_⟩
    intro i elm hi hsw hin htr hne hm
    have hex := (QKeySequence.matches_ofKey elm.trigger down.key hne).1.1 hm
    have htrig : elm.triggeredBy down.key := ⟨hin, htr, hne, hex⟩
    have htrig2 : (elm.setOn true).triggeredBy up.key := by
      rw [hkey]
      exact ⟨hin, htr, hne, hex⟩
    have h1 : (eventFilter_keyPress down s).elements[i]? = some (elm.setOn true) := by
      rw [eventFilter_keyPress_elements down s hd, List.getElem?_map, hi]
      simp only [Option.map_some', htrig, if_true, hsw, if_false]
    refine ⟨h1, ?_⟩
    rw [eventFilter_keyRelease_elements up _ hu, List.getElem?_map, h1]
    have hsw2 : (elm.setOn true).elementType ≠ .SWITCH := hsw
    simp only [Option.map_some', htrig2, if_true, hsw2, if_false]
    rfl

/-- Witness for C24: key 65 goes down and up on `circuitInputs`; button 2, bound to 65 and
off before, is on after the key-down and off again after the key-up. -/
theorem eventFilter_key_down_up_witness :
    ∃ s1 s2,
      eventFilter sceneBackground (.key .KeyPress { key := 65 }) circuitInputs
        = some ⟨false, .key .KeyPress { key := 65 }, s1⟩ ∧
      eventFilter sceneBackground (.key .KeyRelease { key := 65 }) s1
        = some ⟨false, .key .KeyRelease { key := 65 }, s2⟩ ∧
      (s1.elements[1]?).map (fun e => (e.id, e.getOn)) = some (2, true) ∧
      (s2.elements[1]?).map (fun e => (e.id, e.getOn)) = some (2, false) := by
  obtain ⟨-, s1, s2, h1, h2, h3⟩ := eventFilter_key_down_up sceneBackground circuitInputs
    { key := 65 } { key := 65 } rfl rfl rfl
  obtain ⟨h4, h5⟩ := h3 1
    { id := 2, elementType := .other 1, isInput := true, getOn := false, hasTrigger := true,
      trigger := { keys := [65] } }
    (by decide) (by decide) rfl rfl (by decide) (by decide)
  refine ⟨s1, s2, h1, h2, ?_, ?_⟩
  · rw [h4]; rfl
  · rw [h5]; rfl

/-! ## The Shift gate -/

theorem feedbackOnly_refl (s : Editor) : s.feedbackOnly s :=
  ⟨[], (List.append_nil _).symm, fun _ h => by cases h⟩

theorem feedbackOnly_trans {s t u : Editor} (h1 : s.feedbackOnly t) (h2 : t.feedbackOnly u) :
    s.feedbackOnly u := by
  obtain ⟨l1, a1, b1⟩ := h1
  obtain ⟨l2, a2, b2⟩ := h2
  refine ⟨l1 ++ l2, by rw [a2, a1, List.append_assoc], ?_⟩
  intro c hc
  rcases List.mem_append.1 hc with h | h
  · exact b1 c h
  · exact b2 c h

theorem feedbackOnly_of_calls {s t : Editor} (h : t.calls = s.calls) : s.feedbackOnly t :=
  ⟨[], by rw [h, List.append_nil], fun _ h => by cases h⟩

/-- Releasing the hover records hover feedback only. -/
theorem releaseHoverPort_feedbackOnly (s : Editor) : s.feedbackOnly (releaseHoverPort s) := by
  rw [releaseHoverPort_eq]
  cases (getHoverPort s).1 with
  | none => exact ⟨[], (List.append_nil _).symm, fun _ h => by cases h⟩
  | some h =>
    refine ⟨[.hoverLeave h, .setOverrideCursor .ArrowCursor], rfl, ?_⟩
    intro c hc
    simp only [List.mem_cons, List.mem_singleton, List.not_mem_nil, or_false] at hc
    rcases hc with hc | hc <;> rw [hc] <;> rfl

/-- Hover tracking records hover feedback only. -/
theorem handleHoverPort_feedbackOnly (sc : Scene) (s : Editor) :
    s.feedbackOnly (handleHoverPort sc s) := by
  have hget : s.feedbackOnly (getHoverPort s).2 := by
    apply feedbackOnly_of_calls
    cases hp : (getHoverPort s).1 with
    | none => rw [getHoverPort_none hp]
    | some p => rw [getHoverPort_some hp]
  unfold handleHoverPort
  rcases hg : getHoverPort s with ⟨hp, t⟩
  rw [hg] at hget
  simp only []
  have h2 : s.feedbackOnly
      (if hp.isSome ∧ QGraphicsItem.toPort (itemAt sc s.mousePos) ≠ hp
        then releaseHoverPort t else t) := by
    split_ifs
    · exact feedbackOnly_trans hget (releaseHoverPort_feedbackOnly t)
    · exact hget
  generalize (if hp.isSome ∧ QGraphicsItem.toPort (itemAt sc s.mousePos) ≠ hp
        then releaseHoverPort t else t) = u at h2 ⊢
  cases QGraphicsItem.toPort (itemAt sc s.mousePos) with
  | none => exact h2
  | some port =>
    simp only []
    have hset : ∀ v : Editor, v.feedbackOnly (setHoverPort (some port) v) := by
      intro v
      refine ⟨[.hoverEnter port], (setHoverPort_some_calls port v).1, ?_⟩
      intro c hc
      rw [List.mem_singleton.1 hc]
      rfl
    have h3 : s.feedbackOnly (setHoverPort (some port) (releaseHoverPort u)) :=
      feedbackOnly_trans h2 (feedbackOnly_trans (releaseHoverPort_feedbackOnly u) (hset _))
    have hcur : ∀ v : Editor, v.feedbackOnly (setOverrideCursor .ForbiddenCursor v) := by
      intro v
      refine ⟨[.setOverrideCursor .ForbiddenCursor], rfl, ?_⟩
      intro c hc
      rw [List.mem_singleton.1 hc]
      rfl
    split_ifs
    · cases getEditedConn u with
      | none => exact h3
      | some editedConn =>
        simp only []
        cases editedConn.start with
        | none => exact h3
        | some start =>
          simp only []
          split_ifs
          · exact feedbackOnly_trans h3 (hcur _)
          · exact h3
    · exact h2

/-- C25: a mouse event of any type with Shift held. The filter passes the event on (it
returns false) with its modifiers rewritten to Control, and makes no transition: the undo
stack, the connections, the elements, the selection, the edited-connection slot, the marquee
flag, the dragging flag and the drag snapshot are as before. What changes is the cursor
position, which becomes the event position, the scene rectangle, the hover reference and the
feedback that hover tracking gives (notifications to ports and the override cursor). In
particular a release during an element drag pushes no move command and the dragging mode
stays on. -/
theorem eventFilter_shift (sc : Scene) (type : MouseEventType)
    (mouseEvt : QGraphicsSceneMouseEvent) (s : Editor)
    (hshift : mouseEvt.modifiers.shift = true) :
    ∃ t, eventFilter sc (.mouse type mouseEvt) s
        = some ⟨false, .mouse type { mouseEvt with modifiers := ControlModifier }, t⟩ ∧
      s.trackFrame t ∧
      t.mousePos = mouseEvt.scenePos ∧
      s.feedbackOnly t ∧
      t.undoStack = s.undoStack ∧ t.conns = s.conns ∧ t.elements = s.elements ∧
      t.selected = s.selected ∧ t._editedConn_id = s._editedConn_id ∧
      t.markingSelectionBox = s.markingSelectionBox ∧
      t.draggingElement = s.draggingElement ∧ t.movedElements = s.movedElements ∧
      t.oldPositions = s.oldPositions ∧
      (type = .GraphicsSceneMouseRelease → s.draggingElement = true →
        t.draggingElement = true ∧ t.undoStack = s.undoStack) := by
  obtain ⟨hf, hpos⟩ := eventFilter_track_frame sc mouseEvt s
  have hfb : s.feedbackOnly (eventFilter_track sc mouseEvt s) := by
    unfold eventFilter_track
    simp only []
    have h := handleHoverPort_feedbackOnly sc (resizeScene { s with mousePos := mouseEvt.scenePos })
    have hr : (resizeScene { s with mousePos := mouseEvt.scenePos }).calls = s.calls := by
      unfold resizeScene
      split_ifs <;> rfl
    obtain ⟨l, a, b⟩ := h
    exact ⟨l, by rw [a, hr], b⟩
  have hf2 := hf
  unfold Editor.trackFrame at hf2
  generalize ht : eventFilter_track sc mouseEvt s = t at hf hf2 hpos hfb
  have hu : t.undoStack = s.undoStack := by rw [hf2]
  have hdr : t.draggingElement = s.draggingElement := by rw [hf2]
  refine ⟨t, ?_, hf, hpos, hfb, hu, ?_, ?_, ?_, ?_, ?_, hdr, ?_, ?_, ?_⟩
  · simp [eventFilter, ht, hshift]
  · rw [hf2]
  · rw [hf2]
  · rw [hf2]
  · rw [hf2]
  · rw [hf2]
  · rw [hf2]
  · rw [hf2]
  · intro _ hd
    exact ⟨by rw [hdr, hd], hu⟩

/-- Witness for C25: elements 1 and 2 of `circuitDragged` are being dragged and element 2 has
moved; a left release with Shift held is passed on with Control as its modifiers, pushes no
move command and leaves the dragging mode and the snapshot as they are. -/
theorem eventFilter_shift_witness :
    ∃ t, eventFilter sceneBackground (.mouse .GraphicsSceneMouseRelease (shiftReleaseAt ⟨130, 20⟩))
        circuitDragged
        = some ⟨false, .mouse .GraphicsSceneMouseRelease
            { shiftReleaseAt ⟨130, 20⟩ with modifiers := ControlModifier }, t⟩ ∧
      t.undoStack = [] ∧ t.draggingElement = true ∧ t.movedElements = [1, 2] ∧
      t.oldPositions = [⟨0, 0⟩, ⟨100, 0⟩] ∧ t.mousePos = ⟨130, 20⟩ := by
  obtain ⟨t, h1, -, h3, -, h5, -, -, -, -, -, h11, h12, h13, -⟩ :=
    eventFilter_shift sceneBackground .GraphicsSceneMouseRelease (shiftReleaseAt ⟨130, 20⟩)
      circuitDragged rfl
  exact ⟨t, h1, h5, h11, h12, h13, h3⟩

end WiRedPanda
